import Mathlib

/-!
# The multilayer-perceptron engine of `classifiers/mlpclassifier`

A shallow embedding of `WeightLayer<float, int>` and `MLPClassifier`
(`src/classifiers/include/mlpclassifier.h`, `src/classifiers/src/mlpclassifier.cpp`).

Conventions of the embedding.

* `float` is an arbitrary carrier `F` together with the primitive operations the
  code uses (`FloatOps F`).  No algebraic law is assumed of them, so every theorem
  stated for an arbitrary `FloatOps` holds in particular for IEEE binary32.
* `int` is `Int`; sizes are assumed to stay inside the range of `int`.
* `std::vector` is `List`; `v[i]` with an index outside `0 ≤ i < v.size()` is
  undefined behaviour and makes the embedded operation return `none`, as does an
  allocation with a negative element count.
* `std::cerr` is the list of messages written so far (`Cerr`); every operation that
  can print takes the list and returns the extended one.
* An `omp parallel for` loop is run sequentially in index order.
* Text streams are sequences of whitespace-delimited tokens; the extraction of a number
  takes the longest numeric prefix of a token and leaves the rest of the token in the stream.
* The trace printed to `std::cout` when `_verbose` is set is not modelled.
-/

set_option autoImplicit false

namespace classifiers

/-! ## Scalars, messages, loops, vectors -/

/-- The primitive `float` operations used by the engine. -/
structure FloatOps (F : Type) where
  zero : F
  one : F
  add : F → F → F
  sub : F → F → F
  mul : F → F → F
  div : F → F → F
  neg : F → F
  exp : F → F

/-- The lines the code writes to `std::cerr`. -/
inductive Msg where
  | outOfBoundsSet (i j : Int)
  | outOfBoundsGet (i j : Int)
  | layerDoesNotExist (layer : Int) (size : Nat)
  | noHiddenLayers
  | inputWrongSize (size : Nat) (rows : Int)
  | targetWrongSize (size : Nat) (back : Int)
  | notNeuralNetwork
  deriving DecidableEq, Repr

/-- The content of `std::cerr`. -/
abbrev Cerr := List Msg

/-- Runs `body lo`, `body (lo+1)`, …, `body (lo+n-1)` in this order. -/
def forUp {σ : Type} (lo : Int) : Nat → (Int → σ → Option σ) → σ → Option σ
  | 0, _, s => some s
  | n + 1, body, s => (forUp lo n body s).bind (body (lo + n))

/-- The loop `for (int i = lo; i < hi; ++i) body`. -/
def forLoop {σ : Type} (lo hi : Int) (body : Int → σ → Option σ) (s : σ) : Option σ :=
  forUp lo (hi - lo).toNat body s

/-- Runs `body (lo+n-1)`, …, `body (lo+1)`, `body lo` in this order. -/
def forDownFrom {σ : Type} (lo : Int) : Nat → (Int → σ → Option σ) → σ → Option σ
  | 0, _, s => some s
  | n + 1, body, s => (body (lo + n) s).bind (forDownFrom lo n body)

/-- The loop `for (int i = hi; i >= lo; --i) body`. -/
def forDown {σ : Type} (hi lo : Int) (body : Int → σ → Option σ) (s : σ) : Option σ :=
  forDownFrom lo (hi + 1 - lo).toNat body s

/-- Reading `v[i]`. -/
def vget {α : Type} (v : List α) (i : Int) : Option α :=
  if i < 0 then none else v[i.toNat]?

/-- Writing `v[i] = x`. -/
def vset {α : Type} (v : List α) (i : Int) (x : α) : Option (List α) :=
  if i < 0 then none else if i.toNat < v.length then some (v.set i.toNat x) else none

/-- A vector of `n` copies of `x`, as built by `std::vector(n, x)` and by `resize(n, x)` on an
empty vector. -/
def vnew {α : Type} (n : Int) (x : α) : Option (List α) :=
  if n < 0 then none else some (List.replicate n.toNat x)

/-- Reading `b[l][k]`. -/
def readCell {α : Type} (b : List (List α)) (l k : Int) : Option α :=
  (vget b l).bind (fun row => vget row k)

/-- Writing `b[l][k] = x`. -/
def writeCell {α : Type} (b : List (List α)) (l k : Int) (x : α) : Option (List (List α)) :=
  (vget b l).bind (fun row => (vset row k x).bind (fun row1 => vset b l row1))

/-! ## `WeightLayer<float, int>` -/

/-- The class `WeightLayer<T, S>` at `T = float`, `S = int`. -/
structure WeightLayer (F : Type) where
  weights : List F
  rows : Int
  cols : Int
  deriving DecidableEq, Repr

namespace WeightLayer

variable {F : Type}

/-- The constructor `WeightLayer(rows, cols)`. -/
def construct (A : FloatOps F) (rows cols : Int) : Option (WeightLayer F) :=
  (vnew (rows * cols) A.zero).map (fun ws => { weights := ws, rows := rows, cols := cols })

/-- The method `set_value(i, j, value)`. -/
def set_value (w : WeightLayer F) (i j : Int) (value : F) (cerr : Cerr) :
    Option (WeightLayer F × Cerr) :=
  if i < 0 ∨ j < 0 ∨ i ≥ w.rows ∨ j ≥ w.cols then
    some (w, cerr ++ [Msg.outOfBoundsSet i j])
  else
    (vset w.weights (j + i * w.cols) value).map (fun ws => ({ w with weights := ws }, cerr))

/-- The method `get_value(i, j)`. -/
def get_value (A : FloatOps F) (w : WeightLayer F) (i j : Int) (cerr : Cerr) :
    Option (F × Cerr) :=
  if i < 0 ∨ j < 0 ∨ i ≥ w.rows ∨ j ≥ w.cols then
    some (A.zero, cerr ++ [Msg.outOfBoundsGet i j])
  else
    (vget w.weights (j + i * w.cols)).map (fun x => (x, cerr))

/-- The method `get_rows()`. -/
def get_rows (w : WeightLayer F) : Int := w.rows

/-- The method `get_cols()`. -/
def get_cols (w : WeightLayer F) : Int := w.cols

end WeightLayer

/-! ## `MLPClassifier` -/

/-- The data members of `MLPClassifier`; `gen` is the state of the random generator
(`_rd`, `_gen`, `_dist`). -/
structure MLPClassifier (F G : Type) where
  verbose : Bool
  learning_rate : F
  beta : F
  layer_counts : List Int
  weights : List (WeightLayer F)
  layers : List (List F)
  errors : List (List F)
  gen : G

namespace MLPClassifier

variable {F G D : Type}

/-- The state on which the methods run: the object and `std::cerr`. -/
abbrev St (F G : Type) := MLPClassifier F G × Cerr

/-- The constructor `MLPClassifier(verbose)`; `tenth` is the literal `0.1f` and `g` the freshly
seeded generator. -/
def construct (A : FloatOps F) (tenth : F) (g : G) (verbose : Bool) : MLPClassifier F G :=
  { verbose := verbose, learning_rate := tenth, beta := A.one, layer_counts := [],
    weights := [], layers := [], errors := [], gen := g }

/-- The method `num_layers()`. -/
def num_layers (e : MLPClassifier F G) : Int := e.layer_counts.length

/-- The method `layer_size(layer)`. -/
def layer_size (e : MLPClassifier F G) (layer : Int) (cerr : Cerr) : Option (Int × Cerr) :=
  if layer ≥ (e.layer_counts.length : Int) then
    some (0, cerr ++ [Msg.layerDoesNotExist layer e.layer_counts.length])
  else
    (vget e.layer_counts layer).map (fun n => (n, cerr))

/-- Body of the loop over `j` in `init`: one draw stored by `_weights[l].set_value(i, j, value)`. -/
def init.cell (draw : G → D × G) (toFloat : D → F) (l i j : Int) (s : St F G) :
    Option (St F G) :=
  let value : F := toFloat (draw s.1.gen).1
  let e1 : MLPClassifier F G := { s.1 with gen := (draw s.1.gen).2 }
  (vget e1.weights l).bind fun w =>
  (w.set_value i j value s.2).bind fun r =>
  (vset e1.weights l r.1).map fun ws => ({ e1 with weights := ws }, r.2)

/-- Body of the loop over `l` in `init` that builds and fills `_weights[l]`. -/
def init.matrix (A : FloatOps F) (draw : G → D × G) (toFloat : D → F) (l : Int) (s : St F G) :
    Option (St F G) :=
  (vget s.1.layer_counts l).bind fun r =>
  (vget s.1.layer_counts (l + 1)).bind fun c =>
  (WeightLayer.construct A r c).bind fun w =>
  let e1 : MLPClassifier F G := { s.1 with weights := s.1.weights ++ [w] }
  (vget e1.weights l).bind fun wl =>
  let rows := wl.get_rows
  let cols := wl.get_cols
  forLoop 0 rows (fun i => forLoop 0 cols (fun j => init.cell draw toFloat l i j)) (e1, s.2)

/-- Body of the loop `_layers.emplace_back(_layer_counts[l], 0.0f)`. -/
def allocLayer (A : FloatOps F) (l : Int) (s : St F G) : Option (St F G) :=
  (vget s.1.layer_counts l).bind fun n =>
  (vnew n A.zero).map fun b => ({ s.1 with layers := s.1.layers ++ [b] }, s.2)

/-- Body of the loop `_errors.emplace_back(_layer_counts[l], 0.0f)`. -/
def allocError (A : FloatOps F) (l : Int) (s : St F G) : Option (St F G) :=
  (vget s.1.layer_counts l).bind fun n =>
  (vnew n A.zero).map fun b => ({ s.1 with errors := s.1.errors ++ [b] }, s.2)

/-- The method `init(layer_counts, learning_rate, beta)`; `draw` is `_dist(_gen)` and `toFloat`
is `static_cast<float>`. -/
def init (A : FloatOps F) (draw : G → D × G) (toFloat : D → F) (layer_counts : List Int)
    (learning_rate beta : F) (e : MLPClassifier F G) (cerr : Cerr) : Option (St F G) :=
  if layer_counts.length < 3 then
    some (e, cerr ++ [Msg.noHiddenLayers])
  else
    let e1 : MLPClassifier F G :=
      { e with learning_rate := learning_rate, beta := beta, layer_counts := layer_counts,
               weights := [], layers := [], errors := [] }
    let layers : Int := e1.layer_counts.length
    (forLoop 0 (layers - 1) (init.matrix A draw toFloat) (e1, cerr)).bind fun s1 =>
    (forLoop 0 layers (allocLayer A) s1).bind fun s2 =>
    forLoop 1 layers (allocError A) s2

/-- Body of the loop over `j` in `feed_forward`:
`_layers[l][k] += _weights[l - 1].get_value(j, k) * _layers[l - 1][j]`. -/
def feed_forward.accumulate (A : FloatOps F) (l k j : Int) (s : St F G) : Option (St F G) :=
  (vget s.1.weights (l - 1)).bind fun w =>
  (w.get_value A j k s.2).bind fun r =>
  (readCell s.1.layers (l - 1) j).bind fun a =>
  (readCell s.1.layers l k).bind fun x =>
  (writeCell s.1.layers l k (A.add x (A.mul r.1 a))).map fun b =>
    ({ s.1 with layers := b }, r.2)

/-- Body of the loop over `k` in `feed_forward`. -/
def feed_forward.neuron (A : FloatOps F) (l prev_layer_size k : Int) (s : St F G) :
    Option (St F G) :=
  (writeCell s.1.layers l k A.zero).bind fun b0 =>
  (forLoop 0 prev_layer_size (feed_forward.accumulate A l k)
      ({ s.1 with layers := b0 }, s.2)).bind fun s1 =>
  (readCell s1.1.layers l k).bind fun x =>
  (writeCell s1.1.layers l k
      (A.div A.one (A.add A.one (A.exp (A.mul (A.neg s1.1.beta) x))))).map fun b =>
    ({ s1.1 with layers := b }, s1.2)

/-- Body of the loop over `l` in `feed_forward`. -/
def feed_forward.layer (A : FloatOps F) (l : Int) (s : St F G) : Option (St F G) :=
  (vget s.1.weights (l - 1)).bind fun w =>
  let prev_layer_size := w.get_rows
  let current_layer_size := w.get_cols
  forLoop 0 current_layer_size (feed_forward.neuron A l prev_layer_size) s

/-- The method `feed_forward(input)`. -/
def feed_forward (A : FloatOps F) (input : List F) (e : MLPClassifier F G) (cerr : Cerr) :
    Option (St F G) :=
  (vget e.weights 0).bind fun w0 =>
  let rows := w0.get_rows
  if (input.length : Int) ≠ rows then
    some (e, cerr ++ [Msg.inputWrongSize input.length rows])
  else
    (vset e.layers 0 input).bind fun b =>
    let e1 : MLPClassifier F G := { e with layers := b }
    let layers : Int := e1.layer_counts.length
    forLoop 1 layers (feed_forward.layer A) (e1, cerr)

/-- Body of the loop over `k` in the first block of `back_propagation`:
`_errors[l - 1][k] = (target[k] - value) * value * (1.0f - value)`. -/
def back_propagation.output (A : FloatOps F) (target : List F) (l k : Int) (s : St F G) :
    Option (St F G) :=
  (readCell s.1.layers l k).bind fun value =>
  (vget target k).bind fun t =>
  (writeCell s.1.errors (l - 1) k
      (A.mul (A.mul (A.sub t value) value) (A.sub A.one value))).map fun b =>
    ({ s.1 with errors := b }, s.2)

/-- Body of the loop over `k` in the second block of `back_propagation`:
`_errors[l - 1][j] += _weights[l].get_value(j, k) * _errors[l][k]`. -/
def back_propagation.accumulate (A : FloatOps F) (l j k : Int) (s : St F G) : Option (St F G) :=
  (vget s.1.weights l).bind fun w =>
  (w.get_value A j k s.2).bind fun r =>
  (readCell s.1.errors l k).bind fun d =>
  (readCell s.1.errors (l - 1) j).bind fun x =>
  (writeCell s.1.errors (l - 1) j (A.add x (A.mul r.1 d))).map fun b =>
    ({ s.1 with errors := b }, r.2)

/-- Body of the loop over `j` in the second block of `back_propagation`. -/
def back_propagation.hidden (A : FloatOps F) (l next_layer_size j : Int) (s : St F G) :
    Option (St F G) :=
  (readCell s.1.layers l j).bind fun activation =>
  (writeCell s.1.errors (l - 1) j A.zero).bind fun b0 =>
  (forLoop 0 next_layer_size (back_propagation.accumulate A l j)
      ({ s.1 with errors := b0 }, s.2)).bind fun s1 =>
  (readCell s1.1.errors (l - 1) j).bind fun x =>
  (writeCell s1.1.errors (l - 1) j
      (A.mul x (A.mul activation (A.sub A.one activation)))).map fun b =>
    ({ s1.1 with errors := b }, s1.2)

/-- Body of the loop over `l` in the second block of `back_propagation`. -/
def back_propagation.hiddenLayer (A : FloatOps F) (l : Int) (s : St F G) : Option (St F G) :=
  (vget s.1.layers l).bind fun cur =>
  (vget s.1.layers (l + 1)).bind fun next =>
  let current_layer_size : Int := cur.length
  let next_layer_size : Int := next.length
  forLoop 0 current_layer_size (back_propagation.hidden A l next_layer_size) s

/-- Body of the loop over `k` in the third block of `back_propagation`:
`_weights[l].set_value(j, k, _weights[l].get_value(j, k) + _learning_rate * _errors[l][k] * activation)`. -/
def back_propagation.updateCell (A : FloatOps F) (l j : Int) (activation : F) (k : Int)
    (s : St F G) : Option (St F G) :=
  (vget s.1.weights l).bind fun w =>
  (w.get_value A j k s.2).bind fun r =>
  (readCell s.1.errors l k).bind fun d =>
  (w.set_value j k (A.add r.1 (A.mul (A.mul s.1.learning_rate d) activation)) r.2).bind fun r1 =>
  (vset s.1.weights l r1.1).map fun ws => ({ s.1 with weights := ws }, r1.2)

/-- Body of the loop over `j` in the third block of `back_propagation`. -/
def back_propagation.updateRow (A : FloatOps F) (l next_layer_size j : Int) (s : St F G) :
    Option (St F G) :=
  (readCell s.1.layers l j).bind fun activation =>
  forLoop 0 next_layer_size (back_propagation.updateCell A l j activation) s

/-- Body of the loop over `l` in the third block of `back_propagation`. -/
def back_propagation.updateLayer (A : FloatOps F) (l : Int) (s : St F G) : Option (St F G) :=
  (vget s.1.layers l).bind fun cur =>
  (vget s.1.layers (l + 1)).bind fun next =>
  let current_layer_size : Int := cur.length
  let next_layer_size : Int := next.length
  forLoop 0 current_layer_size (back_propagation.updateRow A l next_layer_size) s

/-- The method `back_propagation(target)`. -/
def back_propagation (A : FloatOps F) (target : List F) (e : MLPClassifier F G) (cerr : Cerr) :
    Option (St F G) :=
  e.layer_counts.getLast?.bind fun back =>
  if (target.length : Int) ≠ back then
    some (e, cerr ++ [Msg.targetWrongSize target.length back])
  else
    let layers : Int := e.layer_counts.length
    (vget e.layers (layers - 1)).bind fun cur =>
    let current_layer_size : Int := cur.length
    (forLoop 0 current_layer_size (back_propagation.output A target (layers - 1))
        (e, cerr)).bind fun s1 =>
    (forDown (layers - 2) 1 (back_propagation.hiddenLayer A) s1).bind fun s2 =>
    forDown (layers - 2) 0 (back_propagation.updateLayer A) s2

/-- The method `get_output_layer(output)`; the result is the new content of `output`. -/
def get_output_layer (A : FloatOps F) (e : MLPClassifier F G) (output : List F) :
    Option (List F) :=
  let cleared : List F := output.take 0
  e.layers.getLast?.bind fun back =>
  let resized : List F :=
    if cleared.length ≠ back.length then
      cleared.take back.length ++ List.replicate (back.length - cleared.length) A.zero
    else cleared
  some (back ++ resized.drop back.length)

/-- The method `train(input, target)`. -/
def train (A : FloatOps F) (input target : List F) (e : MLPClassifier F G) (cerr : Cerr) :
    Option (St F G) :=
  (feed_forward A input e cerr).bind fun s => back_propagation A target s.1 s.2

/-- The method `classify(input, output)`; the second component is the new content of `output`. -/
def classify (A : FloatOps F) (input : List F) (output : List F) (e : MLPClassifier F G)
    (cerr : Cerr) : Option (St F G × List F) :=
  (feed_forward A input e cerr).bind fun s =>
  (get_output_layer A s.1 output).map fun out => (s, out)

end MLPClassifier

/-! ## Text streams -/

/-- What `operator>>` makes of the characters of a token when it extracts a number.  It
converts the longest prefix of the token that is a number and leaves the rest of the token in
the stream (`value`); when no prefix is a number it stores zero and sets the fail bit
(`noNumber`); when the number is outside the range of the type it stores the nearest value of
the type and sets the fail bit (`outOfRange`). -/
inductive Scan (α : Type) where
  | value (x : α) (rest : String)
  | noNumber
  | outOfRange (clamped : α)
  deriving DecidableEq, Repr

/-- The formatted insertion and extraction of numbers: `operator<<` and `operator>>` on `int`
and `float`. -/
structure Codec (F : Type) where
  showInt : Int → String
  showFloat : F → String
  scanInt : String → Scan Int
  scanFloat : String → Scan F

/-- The integer that the whole token denotes, when it is a number to its last character. -/
def Codec.readInt {F : Type} (C : Codec F) (t : String) : Option Int :=
  match C.scanInt t with
  | Scan.value n rest => if rest = "" then some n else none
  | _ => none

/-- The scalar that the whole token denotes, when it is a number to its last character. -/
def Codec.readFloat {F : Type} (C : Codec F) (t : String) : Option F :=
  match C.scanFloat t with
  | Scan.value x rest => if rest = "" then some x else none
  | _ => none

/-- An input stream: the tokens not yet consumed and the fail bit. -/
structure IStream where
  toks : List String
  failed : Bool
  deriving DecidableEq, Repr

namespace IStream

variable {F : Type}

/-- The extraction `stream >> x` for a `std::string x` holding `cur`. -/
def getString (s : IStream) (cur : String) : String × IStream :=
  if s.failed then (cur, s)
  else match s.toks with
    | [] => (cur, { s with failed := true })
    | t :: ts => (t, { s with toks := ts })

/-- The extraction `stream >> x` for an `int x` holding `cur`: a stream that has already failed
or is exhausted leaves `x` alone; otherwise the longest numeric prefix of the next token is
converted and the rest of the token, if any, stays in the stream; a token without a numeric
prefix stores zero, a number out of range stores the nearest `int`, and both set the fail
bit. -/
def getInt (C : Codec F) (s : IStream) (cur : Int) : Int × IStream :=
  if s.failed then (cur, s)
  else match s.toks with
    | [] => (cur, { s with failed := true })
    | t :: ts =>
      match C.scanInt t with
      | Scan.value n rest => (n, { s with toks := if rest = "" then ts else rest :: ts })
      | Scan.noNumber => (0, { s with failed := true })
      | Scan.outOfRange n => (n, { s with failed := true })

/-- The extraction `stream >> x` for a `float x` holding `cur`. -/
def getFloat (A : FloatOps F) (C : Codec F) (s : IStream) (cur : F) : F × IStream :=
  if s.failed then (cur, s)
  else match s.toks with
    | [] => (cur, { s with failed := true })
    | t :: ts =>
      match C.scanFloat t with
      | Scan.value x rest => (x, { s with toks := if rest = "" then ts else rest :: ts })
      | Scan.noNumber => (A.zero, { s with failed := true })
      | Scan.outOfRange x => (x, { s with failed := true })

end IStream

namespace MLPClassifier

variable {F G D : Type}

/-- The state of `write`: the tokens in the output stream and `std::cerr`. -/
abbrev WSt := List String × Cerr

/-- Body of the loop `stream << _layer_counts[l] << "\n"` in `write`. -/
def write.count (C : Codec F) (e : MLPClassifier F G) (l : Int) (s : WSt) : Option WSt :=
  (vget e.layer_counts l).map fun n => (s.1 ++ [C.showInt n], s.2)

/-- Body of the loop over `j` in `write`: `stream << _weights[l].get_value(i, j) << " "`. -/
def write.cell (A : FloatOps F) (C : Codec F) (e : MLPClassifier F G) (l i j : Int) (s : WSt) :
    Option WSt :=
  (vget e.weights l).bind fun w =>
  (w.get_value A i j s.2).map fun r => (s.1 ++ [C.showFloat r.1], r.2)

/-- Body of the loop over `l` in `write` that prints the cells of `_weights[l]`. -/
def write.matrix (A : FloatOps F) (C : Codec F) (e : MLPClassifier F G) (l : Int) (s : WSt) :
    Option WSt :=
  (vget e.weights l).bind fun w =>
  let rows := w.get_rows
  let cols := w.get_cols
  forLoop 0 rows (fun i => forLoop 0 cols (fun j => write.cell A C e l i j)) s

/-- The method `write(stream)`. -/
def write (A : FloatOps F) (C : Codec F) (e : MLPClassifier F G) (stream : List String)
    (cerr : Cerr) : Option WSt :=
  let layers : Int := e.layer_counts.length
  let stream1 := stream ++ ["nn"] ++ [C.showInt layers] ++ [C.showFloat e.learning_rate]
    ++ [C.showFloat e.beta]
  (forLoop 0 layers (write.count C e) (stream1, cerr)).bind fun s1 =>
  forLoop 0 (layers - 1) (write.matrix A C e) s1

/-- The state of `read`: the object, the input stream and `std::cerr`. -/
abbrev RSt (F G : Type) := MLPClassifier F G × IStream × Cerr

/-- Body of the loop in `read` that extracts one layer size and appends it. -/
def read.count (C : Codec F) (_l : Int) (s : RSt F G) : Option (RSt F G) :=
  let r := s.2.1.getInt C 0
  some ({ s.1 with layer_counts := s.1.layer_counts ++ [r.1] }, r.2, s.2.2)

/-- Body of the loop in `read` that appends `WeightLayer(_layer_counts[l], _layer_counts[l + 1])`. -/
def read.alloc (A : FloatOps F) (l : Int) (s : RSt F G) : Option (RSt F G) :=
  (vget s.1.layer_counts l).bind fun r =>
  (vget s.1.layer_counts (l + 1)).bind fun c =>
  (WeightLayer.construct A r c).map fun w =>
    ({ s.1 with weights := s.1.weights ++ [w] }, s.2)

/-- Body of the loop over `j` in `read`: one value extracted and stored by
`_weights[l].set_value(i, j, value)`. -/
def read.cell (A : FloatOps F) (C : Codec F) (l i j : Int) (s : RSt F G) : Option (RSt F G) :=
  let r := s.2.1.getFloat A C A.zero
  (vget s.1.weights l).bind fun w =>
  (w.set_value i j r.1 s.2.2).bind fun r1 =>
  (vset s.1.weights l r1.1).map fun ws => ({ s.1 with weights := ws }, r.2, r1.2)

/-- Body of the loop over `l` in `read` that fills `_weights[l]`. -/
def read.matrix (A : FloatOps F) (C : Codec F) (l : Int) (s : RSt F G) : Option (RSt F G) :=
  (vget s.1.weights l).bind fun w =>
  let rows := w.get_rows
  let cols := w.get_cols
  forLoop 0 rows (fun i => forLoop 0 cols (fun j => read.cell A C l i j)) s

/-- Runs a loop body of `init` inside `read`, where the input stream is carried along. -/
def read.lift (body : St F G → Option (St F G)) (s : RSt F G) : Option (RSt F G) :=
  (body (s.1, s.2.2)).map fun r => (r.1, s.2.1, r.2)

/-- The method `read(stream)`. -/
def read (A : FloatOps F) (C : Codec F) (stream : IStream) (e : MLPClassifier F G)
    (cerr : Cerr) : Option (RSt F G) :=
  let type := stream.getString ""
  if type.1 ≠ "nn" then
    some (e, type.2, cerr ++ [Msg.notNeuralNetwork])
  else
    let layers := type.2.getInt C 0
    if layers.1 < 3 then
      some (e, layers.2, cerr ++ [Msg.noHiddenLayers])
    else
      let lr := layers.2.getFloat A C e.learning_rate
      let beta := lr.2.getFloat A C e.beta
      let e1 : MLPClassifier F G :=
        { e with learning_rate := lr.1, beta := beta.1, layer_counts := [], weights := [],
                 layers := [], errors := [] }
      (forLoop 0 layers.1 (read.count C) (e1, beta.2, cerr)).bind fun s1 =>
      (forLoop 0 (layers.1 - 1) (read.alloc A) s1).bind fun s2 =>
      (forLoop 0 (layers.1 - 1) (read.matrix A C) s2).bind fun s3 =>
      (forLoop 0 layers.1 (fun l => read.lift (allocLayer A l)) s3).bind fun s4 =>
      forLoop 1 layers.1 (fun l => read.lift (allocError A l)) s4

end MLPClassifier

/-! ## Vocabulary of the specification -/

namespace WeightLayer

variable {F : Type}

/-- The class invariant of `WeightLayer`: non-negative dimensions and `rows * cols` cells. -/
def WF (w : WeightLayer F) : Prop :=
  0 ≤ w.rows ∧ 0 ≤ w.cols ∧ (w.weights.length : Int) = w.rows * w.cols

instance (w : WeightLayer F) : Decidable w.WF := by
  unfold WF; infer_instance

/-- The weight at `(i, j)`: the value that `get_value(i, j)` returns. -/
def value (A : FloatOps F) (w : WeightLayer F) (i j : Int) : F :=
  match w.get_value A i j [] with
  | some r => r.1
  | none => A.zero

end WeightLayer

/-- The sum `f 0 + f 1 + … + f (n-1)`, accumulated from `0.0f` in index order. -/
def sumTo {F : Type} (A : FloatOps F) : Nat → (Nat → F) → F
  | 0, _ => A.zero
  | n + 1, f => A.add (sumTo A n f) (f n)

/-- The logistic sigmoid with steepness `beta`: `1 / (1 + exp(-beta * x))`. -/
def logistic {F : Type} (A : FloatOps F) (beta x : F) : F :=
  A.div A.one (A.add A.one (A.exp (A.mul (A.neg beta) x)))

/-- Entry `k` of a buffer, `0.0f` outside it. -/
def entry {F : Type} (A : FloatOps F) (v : List F) (k : Nat) : F := (v[k]?).getD A.zero

namespace MLPClassifier

variable {F G : Type}

/-- The structural invariants of an initialized engine: at least three layers, one weight
matrix per consecutive pair of layers with the dimensions of the pair, one activation buffer
per layer and one error buffer per layer after the first, of the sizes of their layers. -/
def Inv (e : MLPClassifier F G) : Prop :=
  3 ≤ e.layer_counts.length ∧
  e.weights.map (fun w => (w.rows, w.cols)) = List.zip e.layer_counts e.layer_counts.tail ∧
  (∀ w ∈ e.weights, w.WF) ∧
  e.layers.map (fun b => (b.length : Int)) = e.layer_counts ∧
  e.errors.map (fun b => (b.length : Int)) = e.layer_counts.tail

instance (e : MLPClassifier F G) : Decidable e.Inv := by
  unfold Inv; infer_instance

/-- The weight `weight[l](j, k)` of the engine: what `_weights[l].get_value(j, k)` returns. -/
def weightAt (A : FloatOps F) (e : MLPClassifier F G) (l j k : Nat) : F :=
  match e.weights[l]? with
  | some w => w.value A j k
  | none => A.zero

/-- The activation `activation[l][j]` of the engine. -/
def activationAt (A : FloatOps F) (e : MLPClassifier F G) (l j : Nat) : F :=
  match e.layers[l]? with
  | some b => entry A b j
  | none => A.zero

/-- The error value of neuron `k` of layer `l ≥ 1`, kept in error buffer `l - 1`. -/
def errorAt (A : FloatOps F) (e : MLPClassifier F G) (l k : Nat) : F :=
  match e.errors[l - 1]? with
  | some b => entry A b k
  | none => A.zero

/-- The number of neurons of layer `l`. -/
def sizeAt (e : MLPClassifier F G) (l : Nat) : Nat := (e.layer_counts.getD l 0).toNat

end MLPClassifier

/-! ## Closed forms of the loops -/

/-- The activations a layer receives through the matrix `w` from the activations `a` of the
layer before it. -/
def layerOut {F : Type} (A : FloatOps F) (beta : F) (w : WeightLayer F) (a : List F) : List F :=
  (List.range w.cols.toNat).map fun (k : Nat) =>
    logistic A beta (sumTo A a.length fun j => A.mul (w.value A j k) (entry A a j))

/-- The activation buffers after the first `n` rounds of the loop over the layers in
`feed_forward`. -/
def forward {F : Type} (A : FloatOps F) (beta : F) (ws : List (WeightLayer F)) :
    Nat → List (List F) → List (List F)
  | 0, L => L
  | n + 1, L =>
    match ws[n]?, (forward A beta ws n L)[n]? with
    | some w, some a => (forward A beta ws n L).set (n + 1) (layerOut A beta w a)
    | _, _ => forward A beta ws n L

/-- The error values of the output layer with activations `a`. -/
def outputErrors {F : Type} (A : FloatOps F) (target a : List F) : List F :=
  (List.range a.length).map fun (k : Nat) =>
    A.mul (A.mul (A.sub (entry A target k) (entry A a k)) (entry A a k))
      (A.sub A.one (entry A a k))

/-- The error values of a hidden layer with activations `a`, from the matrix `w` that leaves
the layer and the error values `d` of the layer after it. -/
def hiddenErrors {F : Type} (A : FloatOps F) (w : WeightLayer F) (a d : List F) : List F :=
  (List.range a.length).map fun (j : Nat) =>
    A.mul (sumTo A d.length fun k => A.mul (w.value A j k) (entry A d k))
      (A.mul (entry A a j) (A.sub A.one (entry A a j)))

/-- The error buffers after the rounds `l = n, n-1, …, 1` of the second loop over the layers
in `back_propagation`. -/
def backward {F : Type} (A : FloatOps F) (ws : List (WeightLayer F)) (L : List (List F)) :
    Nat → List (List F) → List (List F)
  | 0, E => E
  | n + 1, E =>
    match ws[n + 1]?, L[n + 1]?, E[n + 1]? with
    | some w, some a, some d => backward A ws L n (E.set n (hiddenErrors A w a d))
    | _, _, _ => backward A ws L n E

/-- The matrix `w` after the update of all its cells from the activations `a` of its source
layer and the error values `d` of its destination layer. -/
def updatedWeights {F : Type} (A : FloatOps F) (lr : F) (w : WeightLayer F) (a d : List F) :
    WeightLayer F :=
  { w with
    weights := (List.range w.weights.length).map fun (p : Nat) =>
      A.add (entry A w.weights p)
        (A.mul (A.mul lr (entry A d (p % w.cols.toNat))) (entry A a (p / w.cols.toNat))) }

/-- The matrices after the rounds `l = n-1, …, 0` of the third loop over the layers in
`back_propagation`. -/
def update {F : Type} (A : FloatOps F) (lr : F) (L E : List (List F)) :
    Nat → List (WeightLayer F) → List (WeightLayer F)
  | 0, ws => ws
  | n + 1, ws =>
    match ws[n]?, L[n]?, E[n]? with
    | some w, some a, some d => update A lr L E n (ws.set n (updatedWeights A lr w a d))
    | _, _, _ => update A lr L E n ws

namespace MLPClassifier

variable {F G : Type}

/-- The matrices `ws` fit the buffers `L`: matrix `n` is well formed, has as many rows as buffer
`n` has entries and as many columns as buffer `n + 1` has entries. -/
def Fits (ws : List (WeightLayer F)) (L : List (List F)) : Prop :=
  ∀ n w, ws[n]? = some w →
    w.WF ∧ ∃ a b, L[n]? = some a ∧ L[n + 1]? = some b ∧ w.rows = a.length ∧ w.cols = b.length

/-- The error buffers `E` fit the activation buffers `L`: there is one error buffer per layer
after the first, of the size of its layer. -/
def FitsE (L E : List (List F)) : Prop :=
  E.length + 1 = L.length ∧
    ∀ (n : Nat) (d b : List F), E[n]? = some d → L[n + 1]? = some b → d.length = b.length

end MLPClassifier

/-- The error buffers that `back_propagation` leaves in an engine. -/
def MLPClassifier.newErrors {F G : Type} (A : FloatOps F) (target : List F)
    (e : MLPClassifier F G) : List (List F) :=
  backward A e.weights e.layers (e.weights.length - 1)
    (e.errors.set (e.weights.length - 1)
      (outputErrors A target ((e.layers[e.weights.length]?).getD [])))

/-- The weight matrices that `back_propagation` leaves in an engine. -/
def MLPClassifier.newWeights {F G : Type} (A : FloatOps F) (target : List F)
    (e : MLPClassifier F G) : List (WeightLayer F) :=
  update A e.learning_rate e.layers (e.newErrors A target) e.weights.length e.weights

namespace MLPClassifier

variable {F G : Type}

/-- The state of the loops that fill the last matrix of `ws ++ [wl]`. -/
def init.Filling (Q : F → Prop) (eb : MLPClassifier F G) (c : Cerr) (ws : List (WeightLayer F))
    (r cc : Int) (t : St F G) : Prop :=
  ∃ (wl : WeightLayer F) (g : G), t = ({ eb with weights := ws ++ [wl], gen := g }, c) ∧
    wl.rows = r ∧ wl.cols = cc ∧ wl.WF ∧ ∀ x ∈ wl.weights, Q x

/-- The state of the loop of `init` that builds the matrices, after `l` rounds. -/
def init.Built (Q : F → Prop) (eb : MLPClassifier F G) (c : Cerr) (l : Nat) (t : St F G) :
    Prop :=
  ∃ (ws : List (WeightLayer F)) (g : G), t = ({ eb with weights := ws, gen := g }, c) ∧
    ws.length = l ∧
    ws.map (fun w => (w.rows, w.cols))
      = (List.zip eb.layer_counts eb.layer_counts.tail).take l ∧
    ∀ w ∈ ws, w.WF ∧ ∀ x ∈ w.weights, Q x

end MLPClassifier

/-! ## The persisted model -/

/-- The tokens of the cells of a matrix, in storage order. -/
def cellTokens {F : Type} (C : Codec F) (w : WeightLayer F) : List String :=
  w.weights.map C.showFloat

/-- The token sequence of the persisted model of an engine: the tag, the number of layers, the
learning rate, beta, the layer sizes, then the cells of each matrix. -/
def MLPClassifier.tokens {F G : Type} (C : Codec F) (e : MLPClassifier F G) : List String :=
  ["nn", C.showInt e.layer_counts.length, C.showFloat e.learning_rate, C.showFloat e.beta]
    ++ e.layer_counts.map C.showInt ++ e.weights.flatMap (cellTokens C)

/-- Every number that `write` prints for the engine `e` is read back as the same number. -/
def Codec.Faithful {F G : Type} (C : Codec F) (e : MLPClassifier F G) : Prop :=
  C.readInt (C.showInt e.layer_counts.length) = some (e.layer_counts.length : Int) ∧
  (∀ n ∈ e.layer_counts, C.readInt (C.showInt n) = some n) ∧
  C.readFloat (C.showFloat e.learning_rate) = some e.learning_rate ∧
  C.readFloat (C.showFloat e.beta) = some e.beta ∧
  ∀ w ∈ e.weights, ∀ x ∈ w.weights, C.readFloat (C.showFloat x) = some x

/-- The matrix with the dimensions of `w` and all cells zero. -/
def zeroOf {F : Type} (A : FloatOps F) (w : WeightLayer F) : WeightLayer F :=
  { w with weights := List.replicate w.weights.length A.zero }

/-- Modelled from the spec: the positional format of a persisted model, that is the tag, the
layer count, the learning rate, beta, each layer size in order, then for each weight matrix in
layer order every weight in row-major order: cell `(i, j)` before `(i, j + 1)`, row `i` before
row `i + 1`. -/
def MLPClassifier.formatTokens {F G : Type} (A : FloatOps F) (C : Codec F)
    (e : MLPClassifier F G) : List String :=
  ["nn", C.showInt e.num_layers, C.showFloat e.learning_rate, C.showFloat e.beta]
    ++ (List.range e.layer_counts.length).map (fun (l : Nat) => C.showInt (e.sizeAt l))
    ++ (List.range (e.layer_counts.length - 1)).flatMap fun (l : Nat) =>
        (List.range (e.sizeAt l)).flatMap fun (i : Nat) =>
          (List.range (e.sizeAt (l + 1))).map fun (j : Nat) => C.showFloat (e.weightAt A l i j)

/-- Modelled from the spec: the number of tokens of a persisted model with `N` layers,
`4 + N` plus the sum over the matrices of `size[l] * size[l + 1]`. -/
def MLPClassifier.formatLength {F G : Type} (e : MLPClassifier F G) : Nat :=
  4 + e.layer_counts.length
    + ((List.range (e.layer_counts.length - 1)).map
        fun (l : Nat) => e.sizeAt l * e.sizeAt (l + 1)).sum

/-- Modelled from the spec: the engine `m` has the topology of the engine `e`, that is the same
layer sizes, as many weight matrices of the same dimensions, as many activation buffers and
error buffers of the same lengths, the same learning rate and the same beta. -/
def MLPClassifier.SameTopology {F G : Type} (e m : MLPClassifier F G) : Prop :=
  m.layer_counts = e.layer_counts ∧
  m.weights.map (fun w => (w.get_rows, w.get_cols))
    = e.weights.map (fun w => (w.get_rows, w.get_cols)) ∧
  m.layers.map List.length = e.layers.map List.length ∧
  m.errors.map List.length = e.errors.map List.length ∧
  m.learning_rate = e.learning_rate ∧ m.beta = e.beta

/-! ## The closed form of `read` -/

namespace IStream

variable {F : Type}

end IStream

namespace MLPClassifier

variable {F G : Type}

end MLPClassifier

/-! ## The conversion from `double` to `float`

Finite `double` and `float` values are the rationals they denote.  `static_cast<float>` rounds
to the nearest binary32 value, ties to the even significand; values beyond the binary32 range,
which the conversion sends to an infinity, are outside the model. -/

/-- The integer nearest to `q`; of the two nearest to a half-integer, the even one. -/
def roundHalfEven (q : Rat) : Int :=
  if q - ⌊q⌋ < 1 / 2 then ⌊q⌋
  else if 1 / 2 < q - ⌊q⌋ then ⌊q⌋ + 1
  else if ⌊q⌋ % 2 = 0 then ⌊q⌋ else ⌊q⌋ + 1

/-- The binary32 value nearest to `x`: the spacing of binary32 values around `x` is
`2 ^ (e - 23)`, where `2 ^ e ≤ |x| < 2 ^ (e + 1)` and `e` is at least `-126`. -/
def toBinary32 (x : Rat) : Rat :=
  if x = 0 then 0
  else roundHalfEven (x / 2 ^ (max (Int.log 2 |x|) (-126) - 23))
    * 2 ^ (max (Int.log 2 |x|) (-126) - 23)

/-! ## Binary32 arithmetic

The arithmetic of `float`: every operation delivers the binary32 value nearest to the exact
result, ties to the even significand, an infinity when that value is beyond the binary32 range,
and NaN when the result is not defined.  The two zeros are one value: the engine divides only
by `1 + exp(..)`, which is not a zero, and no other operation of the engine tells them apart. -/

/-- The values of a `float`: the finite ones as the rationals they denote, the two infinities
and NaN. -/
inductive Binary32 where
  | finite (q : Rat)
  | posInf
  | negInf
  | nan
  deriving DecidableEq

/-- The `float` nearest to the exact result `q`; a result that rounds to `2 ^ 128` or beyond
overflows to an infinity. -/
def round32 (q : Rat) : Binary32 :=
  if 2 ^ 128 ≤ toBinary32 q then Binary32.posInf
  else if toBinary32 q ≤ -2 ^ 128 then Binary32.negInf
  else Binary32.finite (toBinary32 q)

namespace Binary32

/-- The negation `-x`. -/
def neg : Binary32 → Binary32
  | finite q => finite (-q)
  | posInf => negInf
  | negInf => posInf
  | nan => nan

/-- The sum `x + y`. -/
def add : Binary32 → Binary32 → Binary32
  | nan, _ => nan
  | _, nan => nan
  | posInf, negInf => nan
  | negInf, posInf => nan
  | posInf, _ => posInf
  | _, posInf => posInf
  | negInf, _ => negInf
  | _, negInf => negInf
  | finite a, finite b => round32 (a + b)

/-- The difference `x - y`. -/
def sub (x y : Binary32) : Binary32 := add x (neg y)

/-- The infinity with the sign of `a * b`, for `a` and `b` not zero. -/
def signedInf (a b : Rat) : Binary32 :=
  if 0 < a * b then posInf else negInf

/-- The product `x * y`. -/
def mul : Binary32 → Binary32 → Binary32
  | nan, _ => nan
  | _, nan => nan
  | finite a, finite b => round32 (a * b)
  | finite a, posInf => if a = 0 then nan else signedInf a 1
  | finite a, negInf => if a = 0 then nan else signedInf a (-1)
  | posInf, finite b => if b = 0 then nan else signedInf 1 b
  | negInf, finite b => if b = 0 then nan else signedInf (-1) b
  | posInf, posInf => posInf
  | posInf, negInf => negInf
  | negInf, posInf => negInf
  | negInf, negInf => posInf

/-- The quotient `x / y`. -/
def div : Binary32 → Binary32 → Binary32
  | nan, _ => nan
  | _, nan => nan
  | finite a, finite b =>
    if b = 0 then (if a = 0 then nan else signedInf a 1) else round32 (a / b)
  | finite _, posInf => finite 0
  | finite _, negInf => finite 0
  | posInf, finite b => if 0 ≤ b then posInf else negInf
  | negInf, finite b => if 0 ≤ b then negInf else posInf
  | _, _ => nan

/-- The exponential `std::exp(x)` on `float`.  From `89` on the exact value is beyond the
binary32 range and the result is the infinity; up to `-104` the exact value is below half the
least positive `float` and the result is zero; in between the library rounds a value `mid x`,
about which nothing is assumed here. -/
def exp (mid : Rat → Rat) : Binary32 → Binary32
  | nan => nan
  | posInf => posInf
  | negInf => finite 0
  | finite q => if 89 ≤ q then posInf else if q ≤ -104 then finite 0 else round32 (mid q)

end Binary32

/-- Rational arithmetic as scalar operations; `exp` is cut off after the quadratic term. -/
def ratOps : FloatOps Rat :=
  { zero := 0, one := 1, add := fun x y => x + y, sub := fun x y => x - y,
    mul := fun x y => x * y, div := fun x y => x / y, neg := fun x => -x,
    exp := fun x => 1 + x + x * x / 2 }

/-- An engine with layer sizes 2, 2, 1 whose buffers hold the values left by earlier calls. -/
def sampleEngine : MLPClassifier Rat Nat :=
  { verbose := false, learning_rate := 1 / 2, beta := 1, layer_counts := [2, 2, 1],
    weights := [{ weights := [1, 2, 3, 4], rows := 2, cols := 2 },
                { weights := [1, -1], rows := 2, cols := 1 }],
    layers := [[5, 6], [7, 8], [9]], errors := [[1, 2], [3]], gen := 0 }

/-- A `double` just below one: `1 - 2^-52`, the largest value of `2 * u - 1` for a 53-bit
`u` in `[0, 1)`. -/
def nearOne : Rat := 1 - 1 / 2 ^ 52

/-- A generator whose every draw is `nearOne`. -/
def stuckDraw (g : Unit) : Rat × Unit := (nearOne, g)

/-- A generator that counts its draws and delivers `-1/2`. -/
def sampleDraw (g : Nat) : Rat × Nat := (-1 / 2, g + 1)

/-! ## A concrete text format

Integers are printed in decimal notation and scalars as exact fractions, so that every number
printed is read back as itself. -/

/-- The value of a string of decimal digits. -/
def readDigits (cs : List Char) : Option Nat :=
  if cs = [] then none
  else cs.foldl (fun acc c => acc.bind fun n =>
    if c.isDigit then some (10 * n + (c.toNat - 48)) else none) (some 0)

/-- Decimal notation of an integer. -/
def showDecimal (n : Int) : String :=
  if n < 0 then String.mk ('-' :: Nat.toDigits 10 n.natAbs)
  else String.mk (Nat.toDigits 10 n.toNat)

/-- The longest prefix of the characters that is an integer in decimal notation, an optional
sign and digits, with its value and the characters after it. -/
def scanSigned (cs : List Char) : Option (Int × List Char) :=
  match cs with
  | '-' :: ds =>
    (readDigits (ds.takeWhile Char.isDigit)).map fun n =>
      (-(n : Int), ds.dropWhile Char.isDigit)
  | '+' :: ds =>
    (readDigits (ds.takeWhile Char.isDigit)).map fun n =>
      ((n : Int), ds.dropWhile Char.isDigit)
  | ds =>
    (readDigits (ds.takeWhile Char.isDigit)).map fun n =>
      ((n : Int), ds.dropWhile Char.isDigit)

/-- The extraction of an `int` from a token in decimal notation; the range is that of a 32-bit
`int`. -/
def scanDecimal (s : String) : Scan Int :=
  match scanSigned s.data with
  | none => Scan.noNumber
  | some (n, rest) =>
    if n > 2147483647 then Scan.outOfRange 2147483647
    else if n < -2147483648 then Scan.outOfRange (-2147483648)
    else Scan.value n (String.mk rest)

/-- Notation of a rational as numerator, slash, denominator. -/
def showFraction (q : Rat) : String :=
  String.mk ((showDecimal q.num).data ++ '/' :: Nat.toDigits 10 q.den)

/-- The extraction of a scalar from a token in fraction notation: a numerator, and a slash with
a denominator that is not zero when they follow. -/
def scanFraction (s : String) : Scan Rat :=
  match scanSigned s.data with
  | none => Scan.noNumber
  | some (n, rest) =>
    match rest with
    | '/' :: ds =>
      match readDigits (ds.takeWhile Char.isDigit) with
      | some d =>
        if d = 0 then Scan.value (mkRat n 1) (String.mk rest)
        else Scan.value (mkRat n d) (String.mk (ds.dropWhile Char.isDigit))
      | none => Scan.value (mkRat n 1) (String.mk rest)
    | _ => Scan.value (mkRat n 1) (String.mk rest)

/-- The text format of decimal integers and exact fractions. -/
def sampleCodec : Codec Rat :=
  { showInt := showDecimal, showFloat := showFraction, scanInt := scanDecimal,
    scanFloat := scanFraction }

/-- The engine that `init` makes of `sampleEngine` for the sizes 1, 1, 1 with the draws of
`sampleDraw`, taken as they are. -/
def sampleInit : MLPClassifier Rat Nat :=
  { sampleEngine with
    learning_rate := 1 / 4, beta := 2, layer_counts := [1, 1, 1],
    weights := [{ weights := [-1 / 2], rows := 1, cols := 1 },
      { weights := [-1 / 2], rows := 1, cols := 1 }],
    layers := [[0], [0], [0]], errors := [[0], [0]], gen := 2 }

end classifiers

namespace classifiers

/-! ## Loops -/

theorem forUp_succ {σ : Type} (lo : Int) (n : Nat) (body : Int → σ → Option σ) (s : σ) :
    forUp lo (n + 1) body s = (forUp lo n body s).bind (body (lo + n)) := rfl

theorem forUp_total {σ : Type} (P : Nat → σ → Prop) (lo : Int) (body : Int → σ → Option σ)
    (s : σ) (n : Nat) (h0 : P 0 s)
    (hstep : ∀ i, i < n → ∀ t, P i t → ∃ t', body (lo + i) t = some t' ∧ P (i + 1) t') :
    ∃ t, forUp lo n body s = some t ∧ P n t := by
  induction n with
  | zero => exact ⟨s, rfl, h0⟩
  | succ n ih =>
    obtain ⟨t, ht, hP⟩ := ih (fun i hi => hstep i (Nat.lt_succ_of_lt hi))
    obtain ⟨t', ht', hP'⟩ := hstep n (Nat.lt_succ_self n) t hP
    exact ⟨t', by simp [forUp_succ, ht, ht'], hP'⟩

theorem forUp_inv {σ : Type} (P : Nat → σ → Prop) (lo : Int) (body : Int → σ → Option σ)
    (s : σ) (n : Nat) (h0 : P 0 s)
    (hstep : ∀ i, i < n → ∀ t t', P i t → body (lo + i) t = some t' → P (i + 1) t')
    (t : σ) (h : forUp lo n body s = some t) : P n t := by
  induction n generalizing t with
  | zero =>
    simp only [forUp, Option.some.injEq] at h
    exact h ▸ h0
  | succ n ih =>
    rw [forUp_succ] at h
    cases hm : forUp lo n body s with
    | none => simp [hm] at h
    | some m =>
      rw [hm] at h
      exact hstep n (Nat.lt_succ_self n) m t
        (ih (fun i hi => hstep i (Nat.lt_succ_of_lt hi)) m hm) h

theorem forDownFrom_total {σ : Type} (P : Nat → σ → Prop) (lo : Int)
    (body : Int → σ → Option σ) (n : Nat) (s : σ) (h0 : P n s)
    (hstep : ∀ i, i < n → ∀ t, P (i + 1) t → ∃ t', body (lo + i) t = some t' ∧ P i t') :
    ∃ t, forDownFrom lo n body s = some t ∧ P 0 t := by
  induction n generalizing s with
  | zero => exact ⟨s, rfl, h0⟩
  | succ n ih =>
    obtain ⟨t', ht', hP'⟩ := hstep n (Nat.lt_succ_self n) s h0
    obtain ⟨t, ht, hP⟩ := ih t' hP' (fun i hi => hstep i (Nat.lt_succ_of_lt hi))
    exact ⟨t, by simp [forDownFrom, ht', ht], hP⟩

/-! ## Vectors -/

@[simp] theorem vget_natCast {α : Type} (v : List α) (n : Nat) : vget v (n : Int) = v[n]? := by
  simp [vget]

@[simp] theorem vget_zero {α : Type} (v : List α) : vget v 0 = v[0]? := by
  simp [vget]

theorem vget_of_nonneg {α : Type} (v : List α) (i : Int) (h : 0 ≤ i) :
    vget v i = v[i.toNat]? := by
  simp [vget, not_lt.mpr h]

theorem vget_neg {α : Type} (v : List α) (i : Int) (h : i < 0) : vget v i = none := by
  simp [vget, h]

theorem vset_natCast {α : Type} (v : List α) (n : Nat) (x : α) :
    vset v (n : Int) x = if n < v.length then some (v.set n x) else none := by
  simp [vset]

theorem vset_natCast_of_lt {α : Type} (v : List α) (n : Nat) (x : α) (h : n < v.length) :
    vset v (n : Int) x = some (v.set n x) := by
  simp [vset, h]

theorem vnew_natCast {α : Type} (n : Nat) (x : α) :
    vnew (n : Int) x = some (List.replicate n x) := by
  simp [vnew]

theorem readCell_natCast {α : Type} (b : List (List α)) (l k : Nat) :
    readCell b (l : Int) (k : Int) = (b[l]?).bind (fun row => row[k]?) := by
  simp [readCell]

theorem readCell_of_row {α : Type} (b : List (List α)) (l k : Nat) (row : List α)
    (h : b[l]? = some row) : readCell b (l : Int) (k : Int) = row[k]? := by
  simp [readCell, h]

theorem writeCell_of_row {α : Type} (b : List (List α)) (l k : Nat) (x : α) (row : List α)
    (h : b[l]? = some row) (hk : k < row.length) :
    writeCell b (l : Int) (k : Int) x = some (b.set l (row.set k x)) := by
  have hl : l < b.length := by
    by_contra hc
    rw [List.getElem?_eq_none (by omega)] at h
    cases h
  simp [writeCell, h, vset_natCast, hk, hl]

theorem fill_length {α : Type} (new old : List α) (p : Nat) (hlen : new.length = old.length) :
    (new.take p ++ old.drop p).length = old.length := by
  simp only [List.length_append, List.length_take, List.length_drop]
  omega

theorem fill_get_lt {α : Type} (new old : List α) (p i : Nat) (hi : i < p) (hp : p ≤ new.length) :
    (new.take p ++ old.drop p)[i]? = new[i]? := by
  rw [List.getElem?_append]
  simp only [List.length_take, Nat.min_eq_left hp, hi, if_true, List.getElem?_take]

theorem fill_get_ge {α : Type} (new old : List α) (p i : Nat) (hi : p ≤ i)
    (hp : p ≤ new.length) :
    (new.take p ++ old.drop p)[i]? = old[i]? := by
  rw [List.getElem?_append]
  have h1 : ¬ i < p := by omega
  simp only [List.length_take, Nat.min_eq_left hp, h1, if_false, List.getElem?_drop]
  congr 1
  omega

/-- Overwriting position `p` of a list whose first `p` entries already come from `new`. -/
theorem fill_set {α : Type} (new old : List α) (p : Nat) (x : α) (hlen : new.length = old.length)
    (hx : new[p]? = some x) :
    (new.take p ++ old.drop p).set p x = new.take (p + 1) ++ old.drop (p + 1) := by
  have hp : p < new.length := by
    by_contra hc
    rw [List.getElem?_eq_none (by omega)] at hx
    cases hx
  apply List.ext_getElem?
  intro i
  rw [List.getElem?_set]
  by_cases hi : p = i
  · subst hi
    have hlt : p < (new.take p ++ old.drop p).length := by
      rw [fill_length new old p hlen]; omega
    rw [if_pos rfl, if_pos hlt, fill_get_lt new old (p + 1) p (Nat.lt_succ_self p) hp, hx]
  · simp only [hi, if_false]
    rw [List.getElem?_append, List.getElem?_append]
    simp only [List.length_take, Nat.min_eq_left (Nat.le_of_lt hp),
      Nat.min_eq_left (Nat.succ_le_of_lt hp), List.getElem?_take, List.getElem?_drop]
    by_cases h1 : i < p
    · have h2 : i < p + 1 := by omega
      simp [h1, h2]
    · have h2 : ¬ i < p + 1 := by omega
      simp only [h1, h2, if_false]
      congr 1
      omega

theorem fill_zero {α : Type} (new old : List α) : new.take 0 ++ old.drop 0 = old := by
  simp

theorem fill_all {α : Type} (new old : List α) (hlen : new.length = old.length) :
    new.take old.length ++ old.drop old.length = new := by
  simp [← hlen]

theorem lt_length_of_getElem? {α : Type} {v : List α} {n : Nat} {x : α} (h : v[n]? = some x) :
    n < v.length := by
  by_contra hc
  rw [List.getElem?_eq_none (by omega)] at h
  cases h

theorem set_row_get {α : Type} (b : List α) (l : Nat) (row : α)
    (hl : l < b.length) : (b.set l row)[l]? = some row := by
  rw [List.getElem?_set]
  simp [hl]

theorem set_row_get_ne {α : Type} (b : List α) (l l1 : Nat) (row : α)
    (hne : l ≠ l1) : (b.set l row)[l1]? = b[l1]? := by
  rw [List.getElem?_set]
  simp [hne]

theorem set_same {α : Type} (v : List α) (n : Nat) (x : α) (h : v[n]? = some x) :
    v.set n x = v := by
  apply List.ext_getElem?
  intro i
  rw [List.getElem?_set]
  by_cases hi : n = i
  · subst hi
    simp [lt_length_of_getElem? h, h]
  · simp [hi]

theorem map_length_set {α : Type} (B : List (List α)) (l : Nat) (row old : List α)
    (hold : B[l]? = some old) (hlen : row.length = old.length) :
    (B.set l row).map List.length = B.map List.length := by
  rw [List.map_set]
  apply set_same
  rw [List.getElem?_map, hold, Option.map_some', hlen]

/-! ## Cells of a list of buffers -/

theorem readCell_set_cell {α : Type} (B : List (List α)) (l k : Nat) (b : List α) (x : α)
    (hl : l < B.length) (hk : k < b.length) :
    readCell (B.set l (b.set k x)) ((l : Nat) : Int) ((k : Nat) : Int) = some x := by
  rw [readCell_of_row _ l k (b.set k x) (set_row_get _ _ _ hl), List.getElem?_set]
  simp [hk]

theorem readCell_set_ne {α : Type} (B : List (List α)) (l l1 j : Nat) (row : List α)
    (hne : l ≠ l1) :
    readCell (B.set l row) ((l1 : Nat) : Int) ((j : Nat) : Int)
      = readCell B ((l1 : Nat) : Int) ((j : Nat) : Int) := by
  rw [readCell_natCast, readCell_natCast, set_row_get_ne _ _ _ _ hne]

theorem writeCell_set_cell {α : Type} (B : List (List α)) (l k : Nat) (b : List α) (x y : α)
    (hl : l < B.length) (hk : k < b.length) :
    writeCell (B.set l (b.set k x)) ((l : Nat) : Int) ((k : Nat) : Int) y
      = some (B.set l (b.set k y)) := by
  rw [writeCell_of_row _ l k _ (b.set k x) (set_row_get _ _ _ hl)
    (by rw [List.length_set]; exact hk)]
  simp only [List.set_set]

theorem readCell_entry {F : Type} (A : FloatOps F) (B : List (List F)) (l j : Nat) (a : List F)
    (ha : B[l]? = some a) (hj : j < a.length) :
    readCell B ((l : Nat) : Int) ((j : Nat) : Int) = some (entry A a j) := by
  rw [readCell_of_row _ l j a ha]
  simp [entry, List.getElem?_eq_getElem hj]

theorem forLoop_zero {σ : Type} (n : Nat) (body : Int → σ → Option σ) (s : σ) :
    forLoop 0 (n : Int) body s = forUp 0 n body s := by
  simp [forLoop]

theorem forLoop_one {σ : Type} (n : Nat) (body : Int → σ → Option σ) (s : σ) :
    forLoop 1 (n : Int) body s = forUp 1 (n - 1) body s := by
  have h : ((n : Int) - 1).toNat = n - 1 := by omega
  simp [forLoop, h]

theorem readCell_set_row {α : Type} (B : List (List α)) (l k : Nat) (row : List α)
    (hl : l < B.length) :
    readCell (B.set l row) ((l : Nat) : Int) ((k : Nat) : Int) = row[k]? :=
  readCell_of_row _ l k row (set_row_get _ _ _ hl)

theorem writeCell_set_row {α : Type} (B : List (List α)) (l k : Nat) (row : List α) (y : α)
    (hl : l < B.length) (hk : k < row.length) :
    writeCell (B.set l row) ((l : Nat) : Int) ((k : Nat) : Int) y
      = some (B.set l (row.set k y)) := by
  rw [writeCell_of_row _ l k _ row (set_row_get _ _ _ hl) hk]
  simp only [List.set_set]

theorem getElem?_entry {F : Type} (A : FloatOps F) (a : List F) (j : Nat) (hj : j < a.length) :
    a[j]? = some (entry A a j) := by
  simp [entry, List.getElem?_eq_getElem hj]

theorem getElem?_range_map {β : Type} (f : Nat → β) (n k : Nat) (hk : k < n) :
    ((List.range n).map f)[k]? = some (f k) := by
  simp [List.getElem?_map, List.getElem?_range hk]

theorem forDownFrom_succ {σ : Type} (lo : Int) (n : Nat) (body : Int → σ → Option σ) (s : σ) :
    forDownFrom lo (n + 1) body s = (body (lo + n) s).bind (forDownFrom lo n body) := rfl

end classifiers

namespace classifiers

namespace WeightLayer

variable {F : Type}

theorem WF.index {w : WeightLayer F} (h : w.WF) (i j : Nat) (hi : (i : Int) < w.rows)
    (hj : (j : Int) < w.cols) :
    j + i * w.cols.toNat < w.weights.length ∧
      (j : Int) + i * w.cols = ((j + i * w.cols.toNat : Nat) : Int) := by
  obtain ⟨hr, hc, hlen⟩ := h
  obtain ⟨r, hr'⟩ := Int.eq_ofNat_of_zero_le hr
  obtain ⟨c, hc'⟩ := Int.eq_ofNat_of_zero_le hc
  rw [hr'] at hi hlen
  rw [hc'] at hj hlen ⊢
  have hi' : i < r := by exact_mod_cast hi
  have hj' : j < c := by exact_mod_cast hj
  have hlen' : w.weights.length = r * c := by exact_mod_cast hlen
  refine ⟨?_, by simp⟩
  rw [hlen', Int.toNat_ofNat]
  calc j + i * c < c + i * c := by omega
    _ = (i + 1) * c := by ring
    _ ≤ r * c := Nat.mul_le_mul_right c hi'

theorem get_value_inRange (A : FloatOps F) (w : WeightLayer F) (i j : Nat)
    (hi : (i : Int) < w.rows) (hj : (j : Int) < w.cols) (cerr : Cerr) :
    w.get_value A i j cerr = (vget w.weights ((j : Int) + i * w.cols)).map (fun x => (x, cerr)) := by
  have hc : ¬ ((i : Int) < 0 ∨ (j : Int) < 0 ∨ (i : Int) ≥ w.rows ∨ (j : Int) ≥ w.cols) := by
    omega
  simp only [get_value, hc, if_false]

theorem get_value_wf (A : FloatOps F) {w : WeightLayer F} (h : w.WF) (i j : Nat)
    (hi : (i : Int) < w.rows) (hj : (j : Int) < w.cols) (cerr : Cerr) :
    w.get_value A i j cerr = some (w.value A i j, cerr) := by
  obtain ⟨hlt, heq⟩ := h.index i j hi hj
  have hv : vget w.weights ((j : Int) + i * w.cols)
      = some (w.weights.get ⟨j + i * w.cols.toNat, hlt⟩) := by
    rw [heq, vget_natCast]
    exact List.getElem?_eq_getElem hlt
  simp only [value, get_value_inRange A w i j hi hj, hv, Option.map_some']

theorem value_eq_entry (A : FloatOps F) {w : WeightLayer F} (h : w.WF) (i j : Nat)
    (hi : (i : Int) < w.rows) (hj : (j : Int) < w.cols) :
    w.value A i j = entry A w.weights (j + i * w.cols.toNat) := by
  obtain ⟨hlt, heq⟩ := h.index i j hi hj
  have hv : vget w.weights ((j : Int) + i * w.cols)
      = some (w.weights.get ⟨j + i * w.cols.toNat, hlt⟩) := by
    rw [heq, vget_natCast]
    exact List.getElem?_eq_getElem hlt
  simp only [value, get_value_inRange A w i j hi hj, hv, Option.map_some', entry,
    List.getElem?_eq_getElem hlt, Option.getD_some, List.get_eq_getElem]

end WeightLayer

namespace MLPClassifier

variable {F G : Type}

/-! ## `feed_forward` -/

theorem feed_forward_accumulate_step (A : FloatOps F) (e : MLPClassifier F G) (c : Cerr)
    (l0 k j : Nat) (l : Int) (hl : l = (l0 : Int) + 1) (w : WeightLayer F) (a b : List F) (x : F)
    (hw : e.weights[l0]? = some w) (hwf : w.WF) (hrows : w.rows = a.length)
    (hk : (k : Int) < w.cols) (hj : j < a.length) (ha : e.layers[l0]? = some a)
    (hb : e.layers[l0 + 1]? = some b) (hkb : k < b.length) :
    feed_forward.accumulate A l k j ({ e with layers := e.layers.set (l0 + 1) (b.set k x) }, c)
      = some ({ e with
          layers := e.layers.set (l0 + 1)
            (b.set k (A.add x (A.mul (w.value A j k) (entry A a j)))) }, c) := by
  have h1 : l - 1 = ((l0 : Nat) : Int) := by omega
  have h2 : l = ((l0 + 1 : Nat) : Int) := by push_cast; omega
  have hlb : l0 + 1 < e.layers.length := lt_length_of_getElem? hb
  have hji : (j : Int) < w.rows := by rw [hrows]; exact_mod_cast hj
  have haj : readCell (e.layers.set (l0 + 1) (b.set k x)) ((l0 : Nat) : Int) ((j : Nat) : Int)
      = some (entry A a j) := by
    rw [readCell_set_ne _ _ _ _ _ (by omega)]
    exact readCell_entry A _ _ _ _ ha hj
  unfold feed_forward.accumulate
  simp only [h1]
  rw [h2]
  simp only [vget_natCast, hw, Option.some_bind, WeightLayer.get_value_wf A hwf j k hji hk,
    haj, readCell_set_cell _ _ _ _ _ hlb hkb, writeCell_set_cell _ _ _ _ _ _ hlb hkb,
    Option.map_some']

theorem feed_forward_accumulate_loop (A : FloatOps F) (e : MLPClassifier F G) (c : Cerr)
    (l0 k : Nat) (l : Int) (hl : l = (l0 : Int) + 1) (w : WeightLayer F) (a b : List F)
    (hw : e.weights[l0]? = some w) (hwf : w.WF) (hrows : w.rows = a.length)
    (hk : (k : Int) < w.cols) (ha : e.layers[l0]? = some a)
    (hb : e.layers[l0 + 1]? = some b) (hkb : k < b.length) (n : Nat) (hn : n ≤ a.length) :
    forUp 0 n (feed_forward.accumulate A l k)
        ({ e with layers := e.layers.set (l0 + 1) (b.set k A.zero) }, c)
      = some ({ e with
          layers := e.layers.set (l0 + 1)
            (b.set k (sumTo A n fun j => A.mul (w.value A j k) (entry A a j))) }, c) := by
  induction n with
  | zero => rfl
  | succ n ih =>
    rw [forUp_succ, ih (by omega), Option.some_bind, zero_add]
    exact feed_forward_accumulate_step A e c l0 k n l hl w a b _ hw hwf hrows hk (by omega) ha
      hb hkb

theorem feed_forward_neuron_eq (A : FloatOps F) (e : MLPClassifier F G) (c : Cerr)
    (l0 k : Nat) (l : Int) (hl : l = (l0 : Int) + 1) (w : WeightLayer F) (a b : List F)
    (hw : e.weights[l0]? = some w) (hwf : w.WF) (hrows : w.rows = a.length)
    (hk : (k : Int) < w.cols) (ha : e.layers[l0]? = some a)
    (hb : e.layers[l0 + 1]? = some b) (hkb : k < b.length) :
    feed_forward.neuron A l w.get_rows k (e, c)
      = some ({ e with
          layers := e.layers.set (l0 + 1)
            (b.set k (logistic A e.beta
              (sumTo A a.length fun j => A.mul (w.value A j k) (entry A a j)))) }, c) := by
  have h2 : l = ((l0 + 1 : Nat) : Int) := by push_cast; omega
  have hlb : l0 + 1 < e.layers.length := lt_length_of_getElem? hb
  unfold feed_forward.neuron
  rw [h2]
  simp only [writeCell_of_row _ _ _ _ _ hb hkb, Option.some_bind, WeightLayer.get_rows, hrows,
    forLoop_zero]
  rw [← h2, feed_forward_accumulate_loop A e c l0 k l hl w a b hw hwf hrows hk ha hb hkb
    a.length (le_refl _), h2]
  simp only [Option.some_bind, readCell_set_cell _ _ _ _ _ hlb hkb,
    writeCell_set_cell _ _ _ _ _ _ hlb hkb, Option.map_some', logistic]

theorem layerOut_length (A : FloatOps F) (beta : F) (w : WeightLayer F) (a : List F) :
    (layerOut A beta w a).length = w.cols.toNat := by
  simp [layerOut]

theorem layerOut_get (A : FloatOps F) (beta : F) (w : WeightLayer F) (a : List F) (k : Nat)
    (hk : k < w.cols.toNat) :
    (layerOut A beta w a)[k]?
      = some (logistic A beta (sumTo A a.length fun j => A.mul (w.value A j k) (entry A a j))) := by
  simp [layerOut, List.getElem?_map, List.getElem?_range hk]

theorem feed_forward_neuron_loop (A : FloatOps F) (e : MLPClassifier F G) (c : Cerr)
    (l0 : Nat) (l : Int) (hl : l = (l0 : Int) + 1) (w : WeightLayer F) (a b : List F)
    (hw : e.weights[l0]? = some w) (hwf : w.WF) (hrows : w.rows = a.length)
    (hcols : w.cols = b.length) (ha : e.layers[l0]? = some a)
    (hb : e.layers[l0 + 1]? = some b) (m : Nat) (hm : m ≤ b.length) :
    forUp 0 m (feed_forward.neuron A l w.get_rows) (e, c)
      = some ({ e with
          layers := e.layers.set (l0 + 1)
            ((layerOut A e.beta w a).take m ++ b.drop m) }, c) := by
  have hlen : (layerOut A e.beta w a).length = b.length := by
    rw [layerOut_length, hcols, Int.toNat_ofNat]
  have hlb : l0 + 1 < e.layers.length := lt_length_of_getElem? hb
  induction m with
  | zero =>
    simp only [forUp, fill_zero, set_same _ _ _ hb]
  | succ m ih =>
    rw [forUp_succ, ih (by omega), Option.some_bind, zero_add]
    have hkc : (m : Int) < w.cols := by rw [hcols]; exact_mod_cast hm
    have hmc : m < w.cols.toNat := by omega
    rw [feed_forward_neuron_eq A
      { e with layers := e.layers.set (l0 + 1) ((layerOut A e.beta w a).take m ++ b.drop m) }
      c l0 m l hl w a
      ((layerOut A e.beta w a).take m ++ b.drop m) hw hwf hrows hkc
      (by rw [set_row_get_ne _ _ _ _ (by omega)]; exact ha)
      (set_row_get _ _ _ hlb)
      (by rw [fill_length _ _ _ hlen]; omega)]
    simp only [List.set_set]
    rw [fill_set _ _ _ _ hlen (layerOut_get A e.beta w a m hmc)]

theorem feed_forward_layer_eq (A : FloatOps F) (e : MLPClassifier F G) (c : Cerr)
    (l0 : Nat) (l : Int) (hl : l = (l0 : Int) + 1) (w : WeightLayer F) (a b : List F)
    (hw : e.weights[l0]? = some w) (hwf : w.WF) (hrows : w.rows = a.length)
    (hcols : w.cols = b.length) (ha : e.layers[l0]? = some a)
    (hb : e.layers[l0 + 1]? = some b) :
    feed_forward.layer A l (e, c)
      = some ({ e with layers := e.layers.set (l0 + 1) (layerOut A e.beta w a) }, c) := by
  have h1 : l - 1 = ((l0 : Nat) : Int) := by omega
  have hlen : (layerOut A e.beta w a).length = b.length := by
    rw [layerOut_length, hcols, Int.toNat_ofNat]
  unfold feed_forward.layer
  simp only [h1, vget_natCast, hw, Option.some_bind]
  rw [WeightLayer.get_cols, hcols, forLoop_zero,
    feed_forward_neuron_loop A e c l0 l hl w a b hw hwf hrows hcols ha hb b.length (le_refl _),
    fill_all _ _ hlen]

theorem Fits.of_shape {ws : List (WeightLayer F)} {L L1 : List (List F)} (h : Fits ws L)
    (hs : L1.map List.length = L.map List.length) : Fits ws L1 := by
  intro n w hw
  obtain ⟨hwf, a, b, ha, hb, hr, hc⟩ := h n w hw
  have key : ∀ (i : Nat) (x : List F), L[i]? = some x →
      ∃ y : List F, L1[i]? = some y ∧ y.length = x.length := by
    intro i x hx
    have h1 : (L1.map List.length)[i]? = some x.length := by
      rw [hs, List.getElem?_map, hx, Option.map_some']
    rw [List.getElem?_map] at h1
    cases hy : L1[i]? with
    | none => rw [hy] at h1; cases h1
    | some y =>
      rw [hy, Option.map_some', Option.some.injEq] at h1
      exact ⟨y, rfl, h1⟩
  obtain ⟨a1, ha1, hla⟩ := key n a ha
  obtain ⟨b1, hb1, hlb⟩ := key (n + 1) b hb
  exact ⟨hwf, a1, b1, ha1, hb1, by rw [hr, hla], by rw [hc, hlb]⟩

theorem forward_shape (A : FloatOps F) (beta : F) (ws : List (WeightLayer F))
    (L : List (List F)) (h : Fits ws L) (n : Nat) :
    (forward A beta ws n L).map List.length = L.map List.length := by
  induction n with
  | zero => rfl
  | succ n ih =>
    rw [forward]
    cases hw : ws[n]? with
    | none => exact ih
    | some w =>
      cases ha : (forward A beta ws n L)[n]? with
      | none => exact ih
      | some a =>
        simp only []
        obtain ⟨_, a1, b1, _, hb1, _, hc⟩ := (h.of_shape ih) n w hw
        rw [map_length_set _ _ _ b1 hb1, ih]
        rw [layerOut_length, hc, Int.toNat_ofNat]

theorem forward_succ (A : FloatOps F) (beta : F) (ws : List (WeightLayer F))
    (L : List (List F)) (n : Nat) (w : WeightLayer F) (a : List F) (hw : ws[n]? = some w)
    (ha : (forward A beta ws n L)[n]? = some a) :
    forward A beta ws (n + 1) L = (forward A beta ws n L).set (n + 1) (layerOut A beta w a) := by
  rw [forward, hw, ha]

theorem forward_get_of_le (A : FloatOps F) (beta : F) (ws : List (WeightLayer F))
    (L : List (List F)) (n i : Nat) (hi : n < i) :
    (forward A beta ws n L)[i]? = L[i]? := by
  induction n with
  | zero => rfl
  | succ n ih =>
    rw [forward]
    cases hw : ws[n]? with
    | none => exact ih (by omega)
    | some w =>
      cases ha : (forward A beta ws n L)[n]? with
      | none => exact ih (by omega)
      | some a =>
        simp only []
        rw [set_row_get_ne _ _ _ _ (by omega)]
        exact ih (by omega)

theorem forward_get_zero (A : FloatOps F) (beta : F) (ws : List (WeightLayer F))
    (L : List (List F)) (n : Nat) : (forward A beta ws n L)[0]? = L[0]? := by
  induction n with
  | zero => rfl
  | succ n ih =>
    rw [forward]
    cases hw : ws[n]? with
    | none => exact ih
    | some w =>
      cases ha : (forward A beta ws n L)[n]? with
      | none => exact ih
      | some a =>
        simp only []
        rw [set_row_get_ne _ _ _ _ (by omega)]
        exact ih

theorem forward_get_succ (A : FloatOps F) (beta : F) (ws : List (WeightLayer F))
    (L : List (List F)) (h : Fits ws L) (n l : Nat) (hl : l < n) (w : WeightLayer F)
    (hw : ws[l]? = some w) :
    ∃ a, (forward A beta ws n L)[l]? = some a ∧
      (forward A beta ws n L)[l + 1]? = some (layerOut A beta w a) := by
  induction n with
  | zero => omega
  | succ n ih =>
    by_cases hln : l < n
    · obtain ⟨a, ha, hb⟩ := ih hln
      refine ⟨a, ?_, ?_⟩
      · rw [forward]
        cases hwn : ws[n]? with
        | none => exact ha
        | some wn =>
          cases han : (forward A beta ws n L)[n]? with
          | none => exact ha
          | some an =>
            simp only []
            rw [set_row_get_ne _ _ _ _ (by omega)]
            exact ha
      · rw [forward]
        cases hwn : ws[n]? with
        | none => exact hb
        | some wn =>
          cases han : (forward A beta ws n L)[n]? with
          | none => exact hb
          | some an =>
            simp only []
            rw [set_row_get_ne _ _ _ _ (by omega)]
            exact hb
    · have hln' : l = n := by omega
      subst hln'
      obtain ⟨_, a, b, ha, hb, _, _⟩ := (h.of_shape (forward_shape A beta ws L h l)) l w hw
      refine ⟨a, ?_, ?_⟩
      · rw [forward_succ A beta ws L l w a hw ha, set_row_get_ne _ _ _ _ (by omega)]
        exact ha
      · rw [forward_succ A beta ws L l w a hw ha]
        exact set_row_get _ _ _ (lt_length_of_getElem? hb)

theorem feed_forward_layer_loop (A : FloatOps F) (e : MLPClassifier F G) (c : Cerr)
    (h : Fits e.weights e.layers) (n : Nat) (hn : n ≤ e.weights.length) :
    forUp 1 n (feed_forward.layer A) (e, c)
      = some ({ e with layers := forward A e.beta e.weights n e.layers }, c) := by
  induction n with
  | zero => rfl
  | succ n ih =>
    rw [forUp_succ, ih (by omega), Option.some_bind]
    have hwn : n < e.weights.length := by omega
    have hw : e.weights[n]? = some (e.weights.get ⟨n, hwn⟩) := List.getElem?_eq_getElem hwn
    obtain ⟨hwf, a, b, ha, hb, hr, hc⟩ :=
      (h.of_shape (forward_shape A e.beta e.weights e.layers h n)) n _ hw
    rw [feed_forward_layer_eq A
      { e with layers := forward A e.beta e.weights n e.layers }
      c n (1 + (n : Int)) (by omega) _ a b hw hwf hr hc ha hb]
    rw [forward_succ A e.beta e.weights e.layers n _ a hw ha]

end MLPClassifier

end classifiers

namespace classifiers

namespace MLPClassifier

variable {F G : Type}

/-! ## Consequences of the structural invariants -/

theorem getElem?_of_map_eq {α β : Type} (f : α → β) (xs : List α) (ys : List β)
    (h : xs.map f = ys) (i : Nat) (hi : i < ys.length) :
    ∃ x, xs[i]? = some x ∧ ys[i]? = some (f x) := by
  have hlen : xs.length = ys.length := by rw [← h, List.length_map]
  have hx : i < xs.length := by omega
  refine ⟨xs.get ⟨i, hx⟩, List.getElem?_eq_getElem hx, ?_⟩
  rw [← h, List.getElem?_map, List.getElem?_eq_getElem hx]
  rfl

theorem Inv.three {e : MLPClassifier F G} (h : e.Inv) : 3 ≤ e.layer_counts.length := h.1

theorem Inv.weights_length {e : MLPClassifier F G} (h : e.Inv) :
    e.weights.length + 1 = e.layer_counts.length := by
  have h1 := congrArg List.length h.2.1
  have h3 := h.1
  simp only [List.length_map, List.length_zip, List.length_tail] at h1
  omega

theorem Inv.layers_length {e : MLPClassifier F G} (h : e.Inv) :
    e.layers.length = e.layer_counts.length := by
  have h1 := congrArg List.length h.2.2.2.1
  simpa using h1

theorem Inv.errors_length {e : MLPClassifier F G} (h : e.Inv) :
    e.errors.length + 1 = e.layer_counts.length := by
  have h1 := congrArg List.length h.2.2.2.2
  have h3 := h.1
  simp only [List.length_map, List.length_tail] at h1
  omega

theorem Inv.layer_at {e : MLPClassifier F G} (h : e.Inv) (l : Nat)
    (hl : l < e.layer_counts.length) :
    ∃ a, e.layers[l]? = some a ∧ e.layer_counts[l]? = some (a.length : Int) :=
  getElem?_of_map_eq _ _ _ h.2.2.2.1 l hl

theorem Inv.error_at {e : MLPClassifier F G} (h : e.Inv) (l : Nat)
    (hl : l + 1 < e.layer_counts.length) :
    ∃ d, e.errors[l]? = some d ∧ e.layer_counts[l + 1]? = some (d.length : Int) := by
  obtain ⟨d, hd, hc⟩ := getElem?_of_map_eq _ _ _ h.2.2.2.2 l
    (by rw [List.length_tail]; omega)
  rw [List.getElem?_tail] at hc
  exact ⟨d, hd, hc⟩

theorem Inv.weight_at {e : MLPClassifier F G} (h : e.Inv) (l : Nat)
    (hl : l + 1 < e.layer_counts.length) :
    ∃ w, e.weights[l]? = some w ∧ w.WF ∧ e.layer_counts[l]? = some w.rows ∧
      e.layer_counts[l + 1]? = some w.cols := by
  obtain ⟨w, hw, hc⟩ := getElem?_of_map_eq _ _ _ h.2.1 l
    (by rw [List.length_zip, List.length_tail]; omega)
  rw [List.getElem?_zip_eq_some, List.getElem?_tail] at hc
  exact ⟨w, hw, h.2.2.1 w (List.mem_iff_getElem?.mpr ⟨l, hw⟩), hc.1, hc.2⟩

theorem Inv.weight_lt {e : MLPClassifier F G} (h : e.Inv) (l : Nat) (w : WeightLayer F)
    (hw : e.weights[l]? = some w) : l + 1 < e.layer_counts.length := by
  have := lt_length_of_getElem? hw
  have := h.weights_length
  omega

theorem Inv.fits {e : MLPClassifier F G} (h : e.Inv) : Fits e.weights e.layers := by
  intro n w hw
  have hn := h.weight_lt n w hw
  obtain ⟨w1, hw1, hwf, hr, hc⟩ := h.weight_at n hn
  rw [hw, Option.some.injEq] at hw1
  subst hw1
  obtain ⟨a, ha, hca⟩ := h.layer_at n (by omega)
  obtain ⟨b, hb, hcb⟩ := h.layer_at (n + 1) hn
  rw [hr, Option.some.injEq] at hca
  rw [hc, Option.some.injEq] at hcb
  exact ⟨hwf, a, b, ha, hb, hca, hcb⟩

/-! ## The closed form of `feed_forward` -/

theorem feed_forward_eq (A : FloatOps F) (e : MLPClassifier F G) (cerr : Cerr) (input : List F)
    (hinv : e.Inv) (hin : e.layer_counts[0]? = some (input.length : Int)) :
    feed_forward A input e cerr
      = some ({ e with
          layers := forward A e.beta e.weights e.weights.length (e.layers.set 0 input) },
          cerr) := by
  have h3 := hinv.three
  obtain ⟨w0, hw0, _, hr0, _⟩ := hinv.weight_at 0 (by omega)
  obtain ⟨a0, ha0, hc0⟩ := hinv.layer_at 0 (by omega)
  rw [hin, Option.some.injEq] at hr0 hc0
  have hlen : input.length = a0.length := by exact_mod_cast hc0
  have hshape : (e.layers.set 0 input).map List.length = e.layers.map List.length :=
    map_length_set _ _ _ a0 ha0 hlen
  have hfits : Fits e.weights (e.layers.set 0 input) := hinv.fits.of_shape hshape
  have hN : ((e.layer_counts.length : Nat) : Int) = ((e.weights.length + 1 : Nat) : Int) := by
    rw [hinv.weights_length]
  unfold feed_forward
  simp only [vget_zero, hw0, Option.some_bind, WeightLayer.get_rows, ← hr0, ne_eq,
    not_true_eq_false, if_false]
  have hv : vset e.layers 0 input = some (e.layers.set 0 input) := by
    have := vset_natCast_of_lt e.layers 0 input (lt_length_of_getElem? ha0)
    simpa using this
  rw [hv, Option.some_bind, hN, forLoop_one, Nat.add_sub_cancel]
  exact feed_forward_layer_loop A { e with layers := e.layers.set 0 input } cerr hfits
    e.weights.length (le_refl _)

end MLPClassifier

end classifiers

namespace classifiers

namespace WeightLayer

variable {F : Type}

theorem set_value_wf {w : WeightLayer F} (h : w.WF) (i j : Nat) (hi : (i : Int) < w.rows)
    (hj : (j : Int) < w.cols) (v : F) (cerr : Cerr) :
    w.set_value i j v cerr
      = some ({ w with weights := w.weights.set (j + i * w.cols.toNat) v }, cerr) := by
  obtain ⟨hlt, heq⟩ := h.index i j hi hj
  have hc : ¬ ((i : Int) < 0 ∨ (j : Int) < 0 ∨ (i : Int) ≥ w.rows ∨ (j : Int) ≥ w.cols) := by
    omega
  simp only [set_value, hc, if_false, heq, vset_natCast_of_lt _ _ _ hlt, Option.map_some']

end WeightLayer

namespace MLPClassifier

variable {F G : Type}

/-! ## `back_propagation`: the errors of the output layer -/

theorem back_propagation_output_step (A : FloatOps F) (target : List F)
    (e : MLPClassifier F G) (c : Cerr) (n0 k : Nat) (l : Int) (hl : l = (n0 : Int) + 1)
    (a dcur : List F) (E : List (List F)) (ha : e.layers[n0 + 1]? = some a)
    (hE : n0 < E.length) (hka : k < a.length) (hkt : k < target.length)
    (hkd : k < dcur.length) :
    back_propagation.output A target l k ({ e with errors := E.set n0 dcur }, c)
      = some ({ e with
          errors := E.set n0 (dcur.set k
            (A.mul (A.mul (A.sub (entry A target k) (entry A a k)) (entry A a k))
              (A.sub A.one (entry A a k)))) }, c) := by
  have h1 : l - 1 = ((n0 : Nat) : Int) := by omega
  have h2 : l = ((n0 + 1 : Nat) : Int) := by push_cast; omega
  unfold back_propagation.output
  simp only [h1]
  rw [h2]
  simp only [readCell_entry A _ _ _ _ ha hka, Option.some_bind, vget_natCast,
    getElem?_entry A target k hkt, writeCell_set_row _ _ _ _ _ hE hkd, Option.map_some']

theorem outputErrors_length (A : FloatOps F) (target a : List F) :
    (outputErrors A target a).length = a.length := by
  simp [outputErrors]

theorem back_propagation_output_loop (A : FloatOps F) (target : List F)
    (e : MLPClassifier F G) (c : Cerr) (n0 : Nat) (l : Int) (hl : l = (n0 : Int) + 1)
    (a d : List F) (ha : e.layers[n0 + 1]? = some a) (hd : e.errors[n0]? = some d)
    (hat : a.length = target.length) (had : a.length = d.length) (m : Nat)
    (hm : m ≤ a.length) :
    forUp 0 m (back_propagation.output A target l) (e, c)
      = some ({ e with
          errors := e.errors.set n0 ((outputErrors A target a).take m ++ d.drop m) }, c) := by
  have hlen : (outputErrors A target a).length = d.length := by
    rw [outputErrors_length, had]
  have hE : n0 < e.errors.length := lt_length_of_getElem? hd
  induction m with
  | zero =>
    simp only [forUp, fill_zero, set_same _ _ _ hd]
  | succ m ih =>
    rw [forUp_succ, ih (by omega), Option.some_bind, zero_add]
    rw [back_propagation_output_step A target e c n0 m l hl a _ e.errors ha hE (by omega)
      (by omega) (by rw [fill_length _ _ _ hlen]; omega)]
    rw [fill_set _ _ _ _ hlen]
    exact getElem?_range_map _ _ _ (by omega)

/-! ## `back_propagation`: the errors of the hidden layers -/

theorem back_propagation_accumulate_step (A : FloatOps F) (e : MLPClassifier F G) (c : Cerr)
    (l1 j k : Nat) (l : Int) (hl : l = (l1 : Int) + 1) (w : WeightLayer F)
    (d dcur : List F) (E : List (List F)) (x : F)
    (hw : e.weights[l1 + 1]? = some w) (hwf : w.WF) (hj : (j : Int) < w.rows)
    (hk : (k : Int) < w.cols) (hd : E[l1 + 1]? = some d) (hkd : k < d.length)
    (hE : l1 < E.length) (hjd : j < dcur.length) :
    back_propagation.accumulate A l j k ({ e with errors := E.set l1 (dcur.set j x) }, c)
      = some ({ e with
          errors := E.set l1 (dcur.set j (A.add x (A.mul (w.value A j k) (entry A d k)))) },
          c) := by
  have h1 : l - 1 = ((l1 : Nat) : Int) := by omega
  have h2 : l = ((l1 + 1 : Nat) : Int) := by push_cast; omega
  have hdk : readCell (E.set l1 (dcur.set j x)) ((l1 + 1 : Nat) : Int) ((k : Nat) : Int)
      = some (entry A d k) := by
    rw [readCell_set_ne _ _ _ _ _ (by omega)]
    exact readCell_entry A _ _ _ _ hd hkd
  unfold back_propagation.accumulate
  simp only [h1]
  rw [h2]
  simp only [vget_natCast, hw, Option.some_bind, WeightLayer.get_value_wf A hwf j k hj hk,
    hdk, readCell_set_cell _ _ _ _ _ hE hjd, writeCell_set_cell _ _ _ _ _ _ hE hjd,
    Option.map_some']

theorem back_propagation_accumulate_loop (A : FloatOps F) (e : MLPClassifier F G) (c : Cerr)
    (l1 j : Nat) (l : Int) (hl : l = (l1 : Int) + 1) (w : WeightLayer F)
    (d dcur : List F) (E : List (List F))
    (hw : e.weights[l1 + 1]? = some w) (hwf : w.WF) (hj : (j : Int) < w.rows)
    (hcols : w.cols = d.length) (hd : E[l1 + 1]? = some d)
    (hE : l1 < E.length) (hjd : j < dcur.length) (n : Nat) (hn : n ≤ d.length) :
    forUp 0 n (back_propagation.accumulate A l j)
        ({ e with errors := E.set l1 (dcur.set j A.zero) }, c)
      = some ({ e with
          errors := E.set l1
            (dcur.set j (sumTo A n fun k => A.mul (w.value A j k) (entry A d k))) }, c) := by
  induction n with
  | zero => rfl
  | succ n ih =>
    rw [forUp_succ, ih (by omega), Option.some_bind, zero_add]
    exact back_propagation_accumulate_step A e c l1 j n l hl w d dcur E _ hw hwf hj
      (by rw [hcols]; exact_mod_cast hn) hd (by omega) hE hjd

theorem back_propagation_hidden_eq (A : FloatOps F) (e : MLPClassifier F G) (c : Cerr)
    (l1 j : Nat) (l : Int) (hl : l = (l1 : Int) + 1) (w : WeightLayer F)
    (a d dcur : List F) (E : List (List F))
    (hw : e.weights[l1 + 1]? = some w) (hwf : w.WF) (hrows : w.rows = a.length)
    (hcols : w.cols = d.length) (ha : e.layers[l1 + 1]? = some a) (hja : j < a.length)
    (hd : E[l1 + 1]? = some d) (hE : l1 < E.length) (hjd : j < dcur.length) :
    back_propagation.hidden A l (d.length : Int) j ({ e with errors := E.set l1 dcur }, c)
      = some ({ e with
          errors := E.set l1 (dcur.set j
            (A.mul (sumTo A d.length fun k => A.mul (w.value A j k) (entry A d k))
              (A.mul (entry A a j) (A.sub A.one (entry A a j))))) }, c) := by
  have h1 : l - 1 = ((l1 : Nat) : Int) := by omega
  have h2 : l = ((l1 + 1 : Nat) : Int) := by push_cast; omega
  have hloop := back_propagation_accumulate_loop A e c l1 j l hl w d dcur E hw hwf
    (by rw [hrows]; exact_mod_cast hja) hcols hd hE hjd d.length (le_refl _)
  unfold back_propagation.hidden
  simp only [h1, forLoop_zero]
  rw [h2]
  simp only [readCell_entry A _ _ _ _ ha hja, Option.some_bind,
    writeCell_set_row _ _ _ _ _ hE hjd]
  rw [← h2, hloop]
  simp only [Option.some_bind, readCell_set_cell _ _ _ _ _ hE hjd,
    writeCell_set_cell _ _ _ _ _ _ hE hjd, Option.map_some']

theorem hiddenErrors_length (A : FloatOps F) (w : WeightLayer F) (a d : List F) :
    (hiddenErrors A w a d).length = a.length := by
  simp [hiddenErrors]

theorem back_propagation_hidden_loop (A : FloatOps F) (e : MLPClassifier F G) (c : Cerr)
    (l1 : Nat) (l : Int) (hl : l = (l1 : Int) + 1) (w : WeightLayer F)
    (a d d0 : List F)
    (hw : e.weights[l1 + 1]? = some w) (hwf : w.WF) (hrows : w.rows = a.length)
    (hcols : w.cols = d.length) (ha : e.layers[l1 + 1]? = some a)
    (hd : e.errors[l1 + 1]? = some d) (hd0 : e.errors[l1]? = some d0)
    (hlen0 : d0.length = a.length) (m : Nat) (hm : m ≤ a.length) :
    forUp 0 m (back_propagation.hidden A l (d.length : Int)) (e, c)
      = some ({ e with
          errors := e.errors.set l1 ((hiddenErrors A w a d).take m ++ d0.drop m) }, c) := by
  have hlen : (hiddenErrors A w a d).length = d0.length := by
    rw [hiddenErrors_length, hlen0]
  have hE : l1 < e.errors.length := lt_length_of_getElem? hd0
  induction m with
  | zero =>
    simp only [forUp, fill_zero, set_same _ _ _ hd0]
  | succ m ih =>
    rw [forUp_succ, ih (by omega), Option.some_bind, zero_add]
    rw [back_propagation_hidden_eq A e c l1 m l hl w a d _ e.errors hw hwf hrows hcols ha
      (by omega) hd hE (by rw [fill_length _ _ _ hlen]; omega)]
    rw [fill_set _ _ _ _ hlen]
    exact getElem?_range_map _ _ _ (by omega)

theorem back_propagation_hiddenLayer_eq (A : FloatOps F) (e : MLPClassifier F G) (c : Cerr)
    (l1 : Nat) (l : Int) (hl : l = (l1 : Int) + 1) (w : WeightLayer F)
    (a b d d0 : List F)
    (hw : e.weights[l1 + 1]? = some w) (hwf : w.WF) (hrows : w.rows = a.length)
    (hcols : w.cols = d.length) (ha : e.layers[l1 + 1]? = some a)
    (hb : e.layers[l1 + 2]? = some b) (hbd : b.length = d.length)
    (hd : e.errors[l1 + 1]? = some d) (hd0 : e.errors[l1]? = some d0)
    (hlen0 : d0.length = a.length) :
    back_propagation.hiddenLayer A l (e, c)
      = some ({ e with errors := e.errors.set l1 (hiddenErrors A w a d) }, c) := by
  have h2 : l = ((l1 + 1 : Nat) : Int) := by push_cast; omega
  have h3 : l + 1 = ((l1 + 2 : Nat) : Int) := by push_cast; omega
  have hlen : (hiddenErrors A w a d).length = d0.length := by
    rw [hiddenErrors_length, hlen0]
  have hloop := back_propagation_hidden_loop A e c l1 l hl w a d d0 hw hwf hrows hcols ha hd
    hd0 hlen0 a.length (le_refl _)
  unfold back_propagation.hiddenLayer
  simp only [h3]
  rw [h2]
  simp only [vget_natCast, ha, hb, Option.some_bind, forLoop_zero, hbd]
  rw [← h2, hloop, ← hlen0, fill_all _ _ hlen]

theorem FitsE.set_buffer {L E : List (List F)} (h : FitsE L E) (n : Nat) (new a : List F)
    (ha : L[n + 1]? = some a) (hlen : new.length = a.length) : FitsE L (E.set n new) := by
  refine ⟨by rw [List.length_set]; exact h.1, ?_⟩
  intro m d b hd hb
  rw [List.getElem?_set] at hd
  by_cases hm : n = m
  · subst hm
    rw [if_pos rfl] at hd
    by_cases hn : n < E.length
    · rw [if_pos hn, Option.some.injEq] at hd
      rw [ha, Option.some.injEq] at hb
      rw [← hd, ← hb, hlen]
    · rw [if_neg hn] at hd
      cases hd
  · rw [if_neg hm] at hd
    exact h.2 m d b hd hb

theorem getElem?_some_of_lt {α : Type} (v : List α) (n : Nat) (h : n < v.length) :
    ∃ x, v[n]? = some x := ⟨v.get ⟨n, h⟩, List.getElem?_eq_getElem h⟩

theorem back_propagation_hidden_down (A : FloatOps F) (c : Cerr) (n : Nat) :
    ∀ e : MLPClassifier F G, Fits e.weights e.layers → FitsE e.layers e.errors →
      e.weights.length + 1 = e.layers.length → n + 2 ≤ e.layers.length →
      forDownFrom 1 n (back_propagation.hiddenLayer A) (e, c)
        = some ({ e with errors := backward A e.weights e.layers n e.errors }, c) := by
  induction n with
  | zero => intro e _ _ _ _; rfl
  | succ n ih =>
    intro e hfit hfe hwl hn
    obtain ⟨w, hw⟩ := getElem?_some_of_lt e.weights (n + 1) (by omega)
    obtain ⟨hwf, a, b, ha, hb, hr, hc⟩ := hfit (n + 1) w hw
    obtain ⟨d, hd⟩ := getElem?_some_of_lt e.errors (n + 1) (by have := hfe.1; omega)
    obtain ⟨d0, hd0⟩ := getElem?_some_of_lt e.errors n (by have := hfe.1; omega)
    have hdb : d.length = b.length := hfe.2 (n + 1) d b hd hb
    have hd0a : d0.length = a.length := hfe.2 n d0 a hd0 ha
    rw [forDownFrom_succ,
      back_propagation_hiddenLayer_eq A e c n (1 + (n : Int)) (by omega) w a b d d0 hw hwf hr
        (by rw [hc, hdb]) ha hb hdb.symm hd hd0 hd0a,
      Option.some_bind]
    rw [ih { e with errors := e.errors.set n (hiddenErrors A w a d) } hfit
      (hfe.set_buffer n _ a ha (hiddenErrors_length A w a d)) hwl
      (show n + 2 ≤ e.layers.length by omega)]
    rw [backward, hw, ha, hd]

/-! ## `back_propagation`: the update of the weights -/

theorem back_propagation_updateCell_step (A : FloatOps F) (e : MLPClassifier F G) (c : Cerr)
    (l j k : Nat) (act : F) (W : List (WeightLayer F)) (wcur : WeightLayer F) (d : List F)
    (hl : l < W.length) (hwf : wcur.WF) (hj : (j : Int) < wcur.rows)
    (hk : (k : Int) < wcur.cols) (hd : e.errors[l]? = some d) (hkd : k < d.length) :
    back_propagation.updateCell A (l : Int) (j : Int) act (k : Int)
        ({ e with weights := W.set l wcur }, c)
      = some ({ e with
          weights := W.set l
            { wcur with
              weights := wcur.weights.set (k + j * wcur.cols.toNat)
                (A.add (entry A wcur.weights (k + j * wcur.cols.toNat))
                  (A.mul (A.mul e.learning_rate (entry A d k)) act)) } }, c) := by
  unfold back_propagation.updateCell
  simp only [vget_natCast, set_row_get _ _ _ hl, Option.some_bind,
    WeightLayer.get_value_wf A hwf j k hj hk, readCell_entry A _ _ _ _ hd hkd,
    WeightLayer.set_value_wf hwf j k hj hk, vset_natCast_of_lt _ _ _
      (show l < (W.set l wcur).length by rw [List.length_set]; exact hl),
    Option.map_some', List.set_set, WeightLayer.value_eq_entry A hwf j k hj hk]

theorem updatedWeights_length (A : FloatOps F) (lr : F) (w : WeightLayer F) (a d : List F) :
    (updatedWeights A lr w a d).weights.length = w.weights.length := by
  simp [updatedWeights]

theorem updatedWeights_get (A : FloatOps F) (lr : F) (w : WeightLayer F) (a d : List F)
    (j k : Nat) (hk : k < w.cols.toNat) (hp : k + j * w.cols.toNat < w.weights.length) :
    (updatedWeights A lr w a d).weights[k + j * w.cols.toNat]?
      = some (A.add (entry A w.weights (k + j * w.cols.toNat))
          (A.mul (A.mul lr (entry A d k)) (entry A a j))) := by
  have h1 : (k + j * w.cols.toNat) % w.cols.toNat = k := by
    rw [Nat.add_mul_mod_self_right, Nat.mod_eq_of_lt hk]
  have h2 : (k + j * w.cols.toNat) / w.cols.toNat = j := by
    rw [Nat.add_mul_div_right _ _ (by omega), Nat.div_eq_of_lt hk, zero_add]
  simp only [updatedWeights]
  rw [getElem?_range_map _ _ _ hp, h1, h2]

theorem entry_fill_ge (A : FloatOps F) (new old : List F) (p i : Nat) (hi : p ≤ i)
    (hp : p ≤ new.length) : entry A (new.take p ++ old.drop p) i = entry A old i := by
  simp only [entry, fill_get_ge new old p i hi hp]

theorem back_propagation_updateCell_loop (A : FloatOps F) (e : MLPClassifier F G) (c : Cerr)
    (l j : Nat) (W : List (WeightLayer F)) (w : WeightLayer F) (a d : List F)
    (hl : l < W.length) (hwf : w.WF) (hj : (j : Int) < w.rows)
    (hcols : w.cols = d.length) (hd : e.errors[l]? = some d) (n : Nat) (hn : n ≤ d.length) :
    forUp 0 n (back_propagation.updateCell A (l : Int) (j : Int) (entry A a j))
        ({ e with
            weights := W.set l
              { w with
                weights := (updatedWeights A e.learning_rate w a d).weights.take
                    (0 + j * w.cols.toNat) ++ w.weights.drop (0 + j * w.cols.toNat) } }, c)
      = some ({ e with
          weights := W.set l
            { w with
              weights := (updatedWeights A e.learning_rate w a d).weights.take
                  (n + j * w.cols.toNat) ++ w.weights.drop (n + j * w.cols.toNat) } }, c) := by
  have hlen := updatedWeights_length A e.learning_rate w a d
  induction n with
  | zero => rfl
  | succ n ih =>
    rw [forUp_succ, ih (by omega), Option.some_bind, zero_add]
    have hkc : (n : Int) < w.cols := by rw [hcols]; exact_mod_cast hn
    have hkn : n < w.cols.toNat := by omega
    obtain ⟨hp, _⟩ := hwf.index j n hj hkc
    have hwf1 : ({ w with
        weights := (updatedWeights A e.learning_rate w a d).weights.take
          (n + j * w.cols.toNat) ++ w.weights.drop (n + j * w.cols.toNat) } :
          WeightLayer F).WF :=
      ⟨hwf.1, hwf.2.1, by
        show ((_ : List F).length : Int) = _
        rw [fill_length _ _ _ hlen]; exact hwf.2.2⟩
    rw [back_propagation_updateCell_step A e c l j n (entry A a j) W _ d hl hwf1 hj hkc hd
      (by omega)]
    simp only []
    rw [entry_fill_ge A _ _ _ _ (le_refl _) (by rw [hlen]; omega),
      fill_set _ _ _ _ hlen (updatedWeights_get A e.learning_rate w a d j n hkn hp),
      Nat.add_right_comm n (j * w.cols.toNat) 1]

theorem back_propagation_updateRow_loop (A : FloatOps F) (e : MLPClassifier F G) (c : Cerr)
    (l : Nat) (W : List (WeightLayer F)) (w : WeightLayer F) (a d : List F)
    (hl : l < W.length) (hwf : w.WF) (hrows : w.rows = a.length)
    (hcols : w.cols = d.length) (ha : e.layers[l]? = some a) (hd : e.errors[l]? = some d)
    (m : Nat) (hm : m ≤ a.length) :
    forUp 0 m (back_propagation.updateRow A (l : Int) (d.length : Int))
        ({ e with
            weights := W.set l
              { w with
                weights := (updatedWeights A e.learning_rate w a d).weights.take 0
                  ++ w.weights.drop 0 } }, c)
      = some ({ e with
          weights := W.set l
            { w with
              weights := (updatedWeights A e.learning_rate w a d).weights.take
                  (m * w.cols.toNat) ++ w.weights.drop (m * w.cols.toNat) } }, c) := by
  have hC : w.cols.toNat = d.length := by omega
  induction m with
  | zero => rw [Nat.zero_mul]; rfl
  | succ m ih =>
    rw [forUp_succ, ih (by omega), Option.some_bind, zero_add]
    unfold back_propagation.updateRow
    simp only [readCell_entry A _ _ _ _ ha (show m < a.length by omega), Option.some_bind,
      forLoop_zero]
    have hloop := back_propagation_updateCell_loop A e c l m W w a d hl hwf
      (by rw [hrows]; exact_mod_cast hm) hcols hd d.length (le_refl _)
    rw [Nat.zero_add] at hloop
    have hmul : w.cols.toNat + m * w.cols.toNat = (m + 1) * w.cols.toNat := by ring
    rw [hloop, ← hC, hmul]

theorem back_propagation_updateLayer_eq (A : FloatOps F) (e : MLPClassifier F G) (c : Cerr)
    (l : Nat) (w : WeightLayer F) (a b d : List F)
    (hw : e.weights[l]? = some w) (hwf : w.WF) (hrows : w.rows = a.length)
    (hcols : w.cols = d.length) (ha : e.layers[l]? = some a)
    (hb : e.layers[l + 1]? = some b) (hbd : b.length = d.length)
    (hd : e.errors[l]? = some d) :
    back_propagation.updateLayer A (l : Int) (e, c)
      = some ({ e with
          weights := e.weights.set l (updatedWeights A e.learning_rate w a d) }, c) := by
  have hlen := updatedWeights_length A e.learning_rate w a d
  have hl : l < e.weights.length := lt_length_of_getElem? hw
  have h3 : (l : Int) + 1 = ((l + 1 : Nat) : Int) := by push_cast; omega
  have hloop := back_propagation_updateRow_loop A e c l e.weights w a d hl hwf hrows hcols ha
    hd a.length (le_refl _)
  have hw0 : ({ w with
      weights := (updatedWeights A e.learning_rate w a d).weights.take 0
        ++ w.weights.drop 0 } : WeightLayer F) = w := by
    simp
  have hsz : a.length * w.cols.toNat = w.weights.length := by
    have h1 := hwf.2.2
    rw [hrows, hcols] at h1
    rw [hcols, Int.toNat_ofNat]
    exact_mod_cast h1.symm
  rw [hw0, set_same _ _ _ hw, hsz, fill_all _ _ hlen] at hloop
  unfold back_propagation.updateLayer
  simp only [h3]
  simp only [vget_natCast, ha, hb, Option.some_bind, forLoop_zero, hbd]
  rw [hloop]
  rfl

theorem updatedWeights_wf (A : FloatOps F) (lr : F) (w : WeightLayer F) (a d : List F)
    (h : w.WF) : (updatedWeights A lr w a d).WF :=
  ⟨h.1, h.2.1, by
    show (((updatedWeights A lr w a d).weights.length : Nat) : Int) = _
    rw [updatedWeights_length]; exact h.2.2⟩

theorem Fits.set_matrix {ws : List (WeightLayer F)} {L : List (List F)} (h : Fits ws L) (n : Nat)
    (w w1 : WeightLayer F) (hw : ws[n]? = some w) (hwf : w1.WF) (hr : w1.rows = w.rows)
    (hc : w1.cols = w.cols) : Fits (ws.set n w1) L := by
  intro m x hx
  rw [List.getElem?_set] at hx
  by_cases hm : n = m
  · subst hm
    rw [if_pos rfl, if_pos (lt_length_of_getElem? hw), Option.some.injEq] at hx
    subst hx
    obtain ⟨_, a, b, ha, hb, hra, hcb⟩ := h n w hw
    exact ⟨hwf, a, b, ha, hb, by rw [hr, hra], by rw [hc, hcb]⟩
  · rw [if_neg hm] at hx
    exact h m x hx

theorem back_propagation_update_down (A : FloatOps F) (c : Cerr) (n : Nat) :
    ∀ e : MLPClassifier F G, Fits e.weights e.layers → FitsE e.layers e.errors →
      n ≤ e.weights.length →
      forDownFrom 0 n (back_propagation.updateLayer A) (e, c)
        = some ({ e with
            weights := update A e.learning_rate e.layers e.errors n e.weights }, c) := by
  induction n with
  | zero => intro e _ _ _; rfl
  | succ n ih =>
    intro e hfit hfe hn
    obtain ⟨w, hw⟩ := getElem?_some_of_lt e.weights n (by omega)
    obtain ⟨hwf, a, b, ha, hb, hr, hc⟩ := hfit n w hw
    have hbl := lt_length_of_getElem? hb
    obtain ⟨d, hd⟩ := getElem?_some_of_lt e.errors n (by have := hfe.1; omega)
    have hdb : d.length = b.length := hfe.2 n d b hd hb
    rw [forDownFrom_succ, zero_add,
      back_propagation_updateLayer_eq A e c n w a b d hw hwf hr (by rw [hc, hdb]) ha hb
        hdb.symm hd,
      Option.some_bind]
    rw [ih { e with weights := e.weights.set n (updatedWeights A e.learning_rate w a d) }
      (hfit.set_matrix n w _ hw (updatedWeights_wf A _ w a d hwf) rfl rfl) hfe
      (show n ≤ (e.weights.set n (updatedWeights A e.learning_rate w a d)).length by
        rw [List.length_set]; omega)]
    rw [update, hw, ha, hd]

end MLPClassifier

end classifiers

namespace classifiers

namespace MLPClassifier

variable {F G : Type}

theorem Inv.fitsE {e : MLPClassifier F G} (h : e.Inv) : FitsE e.layers e.errors := by
  refine ⟨by rw [h.layers_length]; exact h.errors_length, ?_⟩
  intro n d b hd hb
  have hn : n + 1 < e.layer_counts.length := by
    have := lt_length_of_getElem? hd
    have := h.errors_length
    omega
  obtain ⟨d1, hd1, hc1⟩ := h.error_at n hn
  obtain ⟨b1, hb1, hc2⟩ := h.layer_at (n + 1) hn
  rw [hd, Option.some.injEq] at hd1
  rw [hb, Option.some.injEq] at hb1
  subst hd1 hb1
  rw [hc1, Option.some.injEq] at hc2
  exact_mod_cast hc2

theorem backward_fitsE (A : FloatOps F) (ws : List (WeightLayer F)) (L : List (List F))
    (n : Nat) : ∀ E : List (List F), FitsE L E → FitsE L (backward A ws L n E) := by
  induction n with
  | zero => intro E h; exact h
  | succ n ih =>
    intro E h
    rw [backward]
    cases hw : ws[n + 1]? with
    | none => exact ih E h
    | some w =>
      cases ha : L[n + 1]? with
      | none => exact ih E h
      | some a =>
        cases hd : E[n + 1]? with
        | none => exact ih E h
        | some d => exact ih _ (h.set_buffer n _ a ha (hiddenErrors_length A w a d))

/-! ## The closed form of `back_propagation` -/

theorem forDown_one {σ : Type} (n : Nat) (body : Int → σ → Option σ) (s : σ) :
    forDown ((n : Int) - 2) 1 body s = forDownFrom 1 (n - 2) body s := by
  have h : ((n : Int) - 2 + 1 - 1).toNat = n - 2 := by omega
  simp only [forDown, h]

theorem forDown_zero {σ : Type} (n : Nat) (body : Int → σ → Option σ) (s : σ) :
    forDown ((n : Int) - 2) 0 body s = forDownFrom 0 (n - 1) body s := by
  have h : ((n : Int) - 2 + 1 - 0).toNat = n - 1 := by omega
  simp only [forDown, h]

theorem back_propagation_eq (A : FloatOps F) (e : MLPClassifier F G) (cerr : Cerr)
    (target : List F) (hinv : e.Inv)
    (ht : e.layer_counts.getLast? = some (target.length : Int)) :
    back_propagation A target e cerr
      = some ({ e with errors := e.newErrors A target, weights := e.newWeights A target },
          cerr) := by
  have h3 := hinv.three
  have hwl := hinv.weights_length
  have hll := hinv.layers_length
  have hel := hinv.errors_length
  obtain ⟨a, ha, hca⟩ := hinv.layer_at e.weights.length (by omega)
  obtain ⟨d, hd, hcd⟩ := hinv.error_at (e.weights.length - 1) (by omega)
  have hidx : e.weights.length - 1 + 1 = e.weights.length := by omega
  rw [hidx] at hcd
  rw [List.getLast?_eq_getElem?, ← hwl, Nat.add_sub_cancel, hca, Option.some.injEq] at ht
  have hat : a.length = target.length := by exact_mod_cast ht
  have had : a.length = d.length := by
    rw [hca, Option.some.injEq] at hcd
    exact_mod_cast hcd
  have hN1 : ((e.layer_counts.length : Nat) : Int) - 1 = ((e.weights.length : Nat) : Int) := by
    omega
  have hfe1 : FitsE e.layers (e.errors.set (e.weights.length - 1) (outputErrors A target a)) :=
    hinv.fitsE.set_buffer _ _ a (by rw [hidx]; exact ha) (outputErrors_length A target a)
  unfold back_propagation
  rw [List.getLast?_eq_getElem?, ← hwl, Nat.add_sub_cancel, hca]
  simp only [Option.some_bind, ht, ne_eq, not_true_eq_false, if_false]
  rw [hwl, hN1]
  simp only [vget_natCast, ha, Option.some_bind, forLoop_zero]
  rw [back_propagation_output_loop A target e cerr (e.weights.length - 1) _ (by omega) a d
    (by rw [hidx]; exact ha) hd hat had a.length (le_refl _), Option.some_bind,
    had, fill_all _ _ (by rw [outputErrors_length, had]), forDown_one,
    back_propagation_hidden_down A cerr _
      { e with errors := e.errors.set (e.weights.length - 1) (outputErrors A target a) }
      hinv.fits hfe1 (by rw [hll]; exact hwl) (by rw [hll]; omega),
    Option.some_bind, forDown_zero]
  have hne : e.newErrors A target
      = backward A e.weights e.layers (e.layer_counts.length - 2)
          (e.errors.set (e.weights.length - 1) (outputErrors A target a)) := by
    have h2 : e.layer_counts.length - 2 = e.weights.length - 1 := by omega
    simp only [newErrors, ha, Option.getD_some, h2]
  have hfe2 : FitsE e.layers (e.newErrors A target) := by
    rw [hne]; exact backward_fitsE A _ _ _ _ hfe1
  have hN2 : e.layer_counts.length - 1 = e.weights.length := by omega
  rw [← hne, hN2,
    back_propagation_update_down A cerr e.weights.length
      { e with errors := e.newErrors A target } hinv.fits hfe2 (le_refl _)]
  rfl

/-! ## Entries of the closed forms -/

theorem backward_get_ge (A : FloatOps F) (ws : List (WeightLayer F)) (L : List (List F))
    (n i : Nat) (hi : n ≤ i) : ∀ E : List (List F), (backward A ws L n E)[i]? = E[i]? := by
  induction n with
  | zero => intro E; rfl
  | succ n ih =>
    intro E
    rw [backward]
    cases hw : ws[n + 1]? with
    | none => exact ih (by omega) E
    | some w =>
      cases ha : L[n + 1]? with
      | none => exact ih (by omega) E
      | some a =>
        cases hd : E[n + 1]? with
        | none => exact ih (by omega) E
        | some d =>
          simp only []
          rw [ih (by omega), set_row_get_ne _ _ _ _ (by omega)]

theorem backward_get_lt (A : FloatOps F) (ws : List (WeightLayer F)) (L : List (List F))
    (n l1 : Nat) (hl : l1 < n) :
    ∀ E : List (List F), n + 1 ≤ ws.length → n + 2 ≤ L.length → n + 1 ≤ E.length →
      ∃ w a d, ws[l1 + 1]? = some w ∧ L[l1 + 1]? = some a ∧
        (backward A ws L n E)[l1 + 1]? = some d ∧
        (backward A ws L n E)[l1]? = some (hiddenErrors A w a d) := by
  induction n with
  | zero => omega
  | succ n ih =>
    intro E hws hL hE
    obtain ⟨w, hw⟩ := getElem?_some_of_lt ws (n + 1) (by omega)
    obtain ⟨a, ha⟩ := getElem?_some_of_lt L (n + 1) (by omega)
    obtain ⟨d, hd⟩ := getElem?_some_of_lt E (n + 1) (by omega)
    rw [backward, hw, ha, hd]
    simp only []
    by_cases hln : l1 < n
    · exact ih hln _ (by omega) (by omega) (by rw [List.length_set]; omega)
    · have hl1 : l1 = n := by omega
      subst hl1
      refine ⟨w, a, d, hw, ha, ?_, ?_⟩
      · rw [backward_get_ge A ws L l1 (l1 + 1) (by omega), set_row_get_ne _ _ _ _ (by omega), hd]
      · rw [backward_get_ge A ws L l1 l1 (le_refl _)]
        exact set_row_get _ _ _ (by omega)

theorem update_get_ge (A : FloatOps F) (lr : F) (L E : List (List F)) (n i : Nat)
    (hi : n ≤ i) : ∀ ws : List (WeightLayer F), (update A lr L E n ws)[i]? = ws[i]? := by
  induction n with
  | zero => intro ws; rfl
  | succ n ih =>
    intro ws
    rw [update]
    cases hw : ws[n]? with
    | none => exact ih (by omega) ws
    | some w =>
      cases ha : L[n]? with
      | none => exact ih (by omega) ws
      | some a =>
        cases hd : E[n]? with
        | none => exact ih (by omega) ws
        | some d =>
          simp only []
          rw [ih (by omega), set_row_get_ne _ _ _ _ (by omega)]

theorem update_get_lt (A : FloatOps F) (lr : F) (L E : List (List F)) (n l : Nat)
    (hl : l < n) :
    ∀ ws : List (WeightLayer F), n ≤ ws.length → n ≤ L.length → n ≤ E.length →
      ∃ w a d, ws[l]? = some w ∧ L[l]? = some a ∧ E[l]? = some d ∧
        (update A lr L E n ws)[l]? = some (updatedWeights A lr w a d) := by
  induction n with
  | zero => omega
  | succ n ih =>
    intro ws hws hL hE
    obtain ⟨w, hw⟩ := getElem?_some_of_lt ws n (by omega)
    obtain ⟨a, ha⟩ := getElem?_some_of_lt L n (by omega)
    obtain ⟨d, hd⟩ := getElem?_some_of_lt E n (by omega)
    rw [update, hw, ha, hd]
    simp only []
    by_cases hln : l < n
    · obtain ⟨w1, a1, d1, hw1, ha1, hd1, hu⟩ :=
        ih hln (ws.set n (updatedWeights A lr w a d)) (by rw [List.length_set]; omega)
          (by omega) (by omega)
      rw [set_row_get_ne _ _ _ _ (by omega)] at hw1
      exact ⟨w1, a1, d1, hw1, ha1, hd1, hu⟩
    · have hl1 : l = n := by omega
      subst hl1
      refine ⟨w, a, d, hw, ha, hd, ?_⟩
      rw [update_get_ge A lr L E l l (le_refl _)]
      exact set_row_get _ _ _ (by omega)

theorem updatedWeights_value (A : FloatOps F) (lr : F) (w : WeightLayer F) (a d : List F)
    (h : w.WF) (j k : Nat) (hj : (j : Int) < w.rows) (hk : (k : Int) < w.cols) :
    (updatedWeights A lr w a d).value A j k
      = A.add (w.value A j k) (A.mul (A.mul lr (entry A d k)) (entry A a j)) := by
  obtain ⟨hp, _⟩ := h.index j k hj hk
  rw [WeightLayer.value_eq_entry A (updatedWeights_wf A lr w a d h) j k hj hk,
    WeightLayer.value_eq_entry A h j k hj hk]
  show entry A (updatedWeights A lr w a d).weights (k + j * w.cols.toNat) = _
  rw [entry, updatedWeights_get A lr w a d j k (by omega) hp]
  rfl

theorem errorAt_of_get (A : FloatOps F) (e : MLPClassifier F G) (l k : Nat) (d : List F)
    (h : e.errors[l]? = some d) : errorAt A e (l + 1) k = entry A d k := by
  simp [errorAt, h]

theorem newErrors_eq (A : FloatOps F) (e : MLPClassifier F G) (target a : List F)
    (ha : e.layers[e.weights.length]? = some a) :
    e.newErrors A target
      = backward A e.weights e.layers (e.weights.length - 1)
          (e.errors.set (e.weights.length - 1) (outputErrors A target a)) := by
  simp only [newErrors, ha, Option.getD_some]

theorem newErrors_fitsE (A : FloatOps F) (e : MLPClassifier F G) (target : List F)
    (hinv : e.Inv) : FitsE e.layers (e.newErrors A target) := by
  have h3 := hinv.three
  have hwl := hinv.weights_length
  have hll := hinv.layers_length
  obtain ⟨a, ha⟩ := getElem?_some_of_lt e.layers e.weights.length (by omega)
  have hidx : e.weights.length - 1 + 1 = e.weights.length := by omega
  rw [newErrors_eq A e target a ha]
  exact backward_fitsE A _ _ _ _
    (hinv.fitsE.set_buffer _ _ a (by rw [hidx]; exact ha) (outputErrors_length A target a))

theorem sizeAt_of_get (e : MLPClassifier F G) (l : Nat) (n : Int)
    (h : e.layer_counts[l]? = some n) : e.sizeAt l = n.toNat := by
  simp [sizeAt, List.getD_eq_getElem?_getD, h]

theorem weightAt_of_get (A : FloatOps F) (e : MLPClassifier F G) (l j k : Nat)
    (w : WeightLayer F) (h : e.weights[l]? = some w) : weightAt A e l j k = w.value A j k := by
  simp [weightAt, h]

theorem activationAt_of_get (A : FloatOps F) (e : MLPClassifier F G) (l j : Nat) (a : List F)
    (h : e.layers[l]? = some a) : activationAt A e l j = entry A a j := by
  simp [activationAt, h]

theorem Inv.sizeAt_layer {e : MLPClassifier F G} (h : e.Inv) (l : Nat) (a : List F)
    (ha : e.layers[l]? = some a) : e.sizeAt l = a.length := by
  have hl : l < e.layer_counts.length := by
    rw [← h.layers_length]; exact lt_length_of_getElem? ha
  obtain ⟨a1, ha1, hc⟩ := h.layer_at l hl
  rw [ha, Option.some.injEq] at ha1
  subst ha1
  rw [sizeAt_of_get e l _ hc, Int.toNat_ofNat]

end MLPClassifier

end classifiers

namespace classifiers

namespace MLPClassifier

variable {F G : Type}

/-- C1: on an engine satisfying the structural invariants, `feed_forward` with an input of the
length of layer 0 returns, printing nothing, with buffer 0 equal to the input and, for every
layer `l` in `1..N-1` and neuron `k` of it, `activation[l][k]` equal to
`1 / (1 + exp(-beta * sum_j weight[l-1](j,k) * activation[l-1][j]))`, the sum running over the
neurons of layer `l-1` with the activations of this same call. -/
theorem C1_feed_forward_activations (A : FloatOps F) (e : MLPClassifier F G) (cerr : Cerr)
    (input : List F) (hinv : e.Inv) (hin : e.layer_counts[0]? = some (input.length : Int)) :
    ∃ e1 : MLPClassifier F G, feed_forward A input e cerr = some (e1, cerr) ∧
      e1.layers[0]? = some input ∧
      ∀ l k : Nat, 1 ≤ l → l < e.layer_counts.length → k < e.sizeAt l →
        readCell e1.layers l k
          = some (A.div A.one (A.add A.one (A.exp (A.mul (A.neg e.beta)
              (sumTo A (e.sizeAt (l - 1)) fun j =>
                A.mul (weightAt A e (l - 1) j k) (activationAt A e1 (l - 1) j)))))) := by
  have h3 := hinv.three
  obtain ⟨a0, ha0, hc0⟩ := hinv.layer_at 0 (by omega)
  rw [hin, Option.some.injEq] at hc0
  have hlen : input.length = a0.length := by exact_mod_cast hc0
  have hshape : (e.layers.set 0 input).map List.length = e.layers.map List.length :=
    map_length_set _ _ _ a0 ha0 hlen
  have hfits : Fits e.weights (e.layers.set 0 input) := hinv.fits.of_shape hshape
  refine ⟨_, feed_forward_eq A e cerr input hinv hin, ?_, ?_⟩
  · show (forward A e.beta e.weights e.weights.length (e.layers.set 0 input))[0]? = some input
    rw [forward_get_zero]
    exact set_row_get _ _ _ (lt_length_of_getElem? ha0)
  · intro l k hl1 hlN hk
    obtain ⟨l0, rfl⟩ : ∃ l0, l = l0 + 1 := ⟨l - 1, by omega⟩
    obtain ⟨w, hw, hwf, hr, hc⟩ := hinv.weight_at l0 hlN
    have hwl := hinv.weights_length
    obtain ⟨a, ha, hb⟩ := forward_get_succ A e.beta e.weights _ hfits e.weights.length l0
      (by omega) w hw
    obtain ⟨_, a1, b1, ha1, _, hr1, _⟩ :=
      (hfits.of_shape (forward_shape A e.beta e.weights _ hfits e.weights.length)) l0 w hw
    rw [ha, Option.some.injEq] at ha1
    subst ha1
    have hsz : e.sizeAt l0 = a.length := by
      rw [sizeAt_of_get e l0 _ hr, hr1, Int.toNat_ofNat]
    have hkc : k < w.cols.toNat := by
      rw [← sizeAt_of_get e (l0 + 1) _ hc]; exact hk
    show readCell (forward A e.beta e.weights e.weights.length (e.layers.set 0 input))
      ((l0 + 1 : Nat) : Int) ((k : Nat) : Int) = _
    rw [readCell_of_row _ _ _ _ hb, layerOut_get A e.beta w a k hkc, Nat.add_sub_cancel, hsz]
    simp only [logistic, weightAt_of_get A e l0 _ k w hw]
    congr
    funext j
    rw [activationAt_of_get A _ l0 j a ha]

end MLPClassifier

end classifiers

namespace classifiers

namespace MLPClassifier

variable {F G : Type}

/-- C2: on an engine satisfying the structural invariants, `back_propagation` with a target of
the length of the output layer returns, printing nothing, and every weight satisfies
`new weight[l](j,k) = old weight[l](j,k) + learning_rate * error[l+1][k] * activation[l][j]`,
with the error values this call leaves in error buffer `l` and the activations held at entry. -/
theorem C2_back_propagation_weight_update (A : FloatOps F) (e : MLPClassifier F G)
    (cerr : Cerr) (target : List F) (hinv : e.Inv)
    (ht : e.layer_counts.getLast? = some (target.length : Int)) :
    ∃ e1 : MLPClassifier F G, back_propagation A target e cerr = some (e1, cerr) ∧
      ∀ l j k : Nat, l + 1 < e.layer_counts.length → j < e.sizeAt l → k < e.sizeAt (l + 1) →
        weightAt A e1 l j k
          = A.add (weightAt A e l j k)
              (A.mul (A.mul e.learning_rate (errorAt A e1 (l + 1) k))
                (activationAt A e l j)) := by
  refine ⟨_, back_propagation_eq A e cerr target hinv ht, ?_⟩
  intro l j k hl hj hk
  have hwl := hinv.weights_length
  have hll := hinv.layers_length
  have hel := hinv.errors_length
  have hE := (newErrors_fitsE A e target hinv).1
  obtain ⟨w, a, d, hw, ha, hd, hu⟩ := update_get_lt A e.learning_rate e.layers
    (e.newErrors A target) e.weights.length l (by omega) e.weights (le_refl _) (by omega)
    (by omega)
  obtain ⟨w1, hw1, hwf, hr, hc⟩ := hinv.weight_at l hl
  rw [hw, Option.some.injEq] at hw1
  subst hw1
  have hji : (j : Int) < w.rows := by
    have := sizeAt_of_get e l _ hr
    omega
  have hki : (k : Int) < w.cols := by
    have := sizeAt_of_get e (l + 1) _ hc
    omega
  rw [weightAt_of_get A _ l j k _ hu, weightAt_of_get A e l j k w hw,
    errorAt_of_get A _ l k d hd, activationAt_of_get A e l j a ha,
    updatedWeights_value A e.learning_rate w a d hwf j k hji hki]

/-- C3: on an engine satisfying the structural invariants, `back_propagation` with a target of
the length of the output layer returns with the last error buffer holding, for each output
neuron `k`, `(target[k] - a[k]) * a[k] * (1 - a[k])`, where `a` is the activation buffer of the
final layer at entry. -/
theorem C3_back_propagation_output_error (A : FloatOps F) (e : MLPClassifier F G)
    (cerr : Cerr) (target : List F) (hinv : e.Inv)
    (ht : e.layer_counts.getLast? = some (target.length : Int)) :
    ∃ e1 : MLPClassifier F G, back_propagation A target e cerr = some (e1, cerr) ∧
      e1.errors.length = e.layer_counts.length - 1 ∧
      ∀ k : Nat, k < e.sizeAt (e.layer_counts.length - 1) →
        readCell e1.errors ((e.layer_counts.length - 2 : Nat) : Int) k
          = some (A.mul
              (A.mul (A.sub (entry A target k) (activationAt A e (e.layer_counts.length - 1) k))
                (activationAt A e (e.layer_counts.length - 1) k))
              (A.sub A.one (activationAt A e (e.layer_counts.length - 1) k))) := by
  have h3 := hinv.three
  have hwl := hinv.weights_length
  have hll := hinv.layers_length
  have hel := hinv.errors_length
  have hE := (newErrors_fitsE A e target hinv).1
  refine ⟨_, back_propagation_eq A e cerr target hinv ht, ?_, ?_⟩
  · show (e.newErrors A target).length = _
    omega
  · intro k hk
    have hN1 : e.layer_counts.length - 1 = e.weights.length := by omega
    have hN2 : e.layer_counts.length - 2 = e.weights.length - 1 := by omega
    obtain ⟨a, ha⟩ := getElem?_some_of_lt e.layers e.weights.length (by omega)
    rw [hN1] at hk ⊢
    rw [hinv.sizeAt_layer _ a ha] at hk
    have hrow : (e.newErrors A target)[e.weights.length - 1]?
        = some (outputErrors A target a) := by
      rw [newErrors_eq A e target a ha, backward_get_ge A _ _ _ _ (le_refl _)]
      exact set_row_get _ _ _ (by omega)
    show readCell (e.newErrors A target) _ ((k : Nat) : Int) = _
    rw [hN2, readCell_of_row _ _ _ _ hrow, activationAt_of_get A e _ k a ha]
    exact getElem?_range_map _ _ _ hk

/-- C4: on an engine satisfying the structural invariants, `back_propagation` with a target of
the length of the output layer returns with, for every hidden layer `l` in `1..N-2` and neuron
`j` of it, `error[l][j]` (kept in error buffer `l-1`) equal to
`activation[l][j] * (1 - activation[l][j]) * sum_k weight[l](j,k) * error[l+1][k]`, with the
weights held at entry and the error values of layer `l+1` left by this call.  The code
multiplies the sum by `activation * (1 - activation)` from the right, so the product is taken
as commutative. -/
theorem C4_back_propagation_hidden_error (A : FloatOps F) (e : MLPClassifier F G)
    (cerr : Cerr) (target : List F) (hcomm : ∀ x y : F, A.mul x y = A.mul y x) (hinv : e.Inv)
    (ht : e.layer_counts.getLast? = some (target.length : Int)) :
    ∃ e1 : MLPClassifier F G, back_propagation A target e cerr = some (e1, cerr) ∧
      ∀ l j : Nat, 1 ≤ l → l + 1 < e.layer_counts.length → j < e.sizeAt l →
        readCell e1.errors ((l - 1 : Nat) : Int) j
          = some (A.mul
              (A.mul (activationAt A e l j) (A.sub A.one (activationAt A e l j)))
              (sumTo A (e.sizeAt (l + 1)) fun k =>
                A.mul (weightAt A e l j k) (errorAt A e1 (l + 1) k))) := by
  have h3 := hinv.three
  have hwl := hinv.weights_length
  have hll := hinv.layers_length
  have hel := hinv.errors_length
  have hfe := newErrors_fitsE A e target hinv
  refine ⟨_, back_propagation_eq A e cerr target hinv ht, ?_⟩
  intro l j hl1 hlN hj
  obtain ⟨l1, rfl⟩ : ∃ l1, l = l1 + 1 := ⟨l - 1, by omega⟩
  obtain ⟨a0, ha0⟩ := getElem?_some_of_lt e.layers e.weights.length (by omega)
  have hlenE : (e.errors.set (e.weights.length - 1) (outputErrors A target a0)).length
      = e.errors.length := List.length_set _ _ _
  obtain ⟨w, a, d, hw, ha, hd, hrow⟩ := backward_get_lt A e.weights e.layers
    (e.weights.length - 1) l1 (by omega)
    (e.errors.set (e.weights.length - 1) (outputErrors A target a0)) (by omega) (by omega)
    (by omega)
  rw [← newErrors_eq A e target a0 ha0] at hd hrow
  obtain ⟨b, hb⟩ := getElem?_some_of_lt e.layers (l1 + 2) (by omega)
  have hdb : d.length = b.length := hfe.2 (l1 + 1) d b hd hb
  have hsz : e.sizeAt (l1 + 1 + 1) = d.length := by
    rw [hinv.sizeAt_layer _ b hb, hdb]
  rw [hinv.sizeAt_layer _ a ha] at hj
  show readCell (e.newErrors A target) _ ((j : Nat) : Int) = _
  rw [Nat.add_sub_cancel, readCell_of_row _ _ _ _ hrow, activationAt_of_get A e _ j a ha, hsz]
  simp only [hiddenErrors]
  rw [getElem?_range_map _ _ _ hj, hcomm]
  congr
  funext k
  rw [weightAt_of_get A e _ j k w hw, errorAt_of_get A _ (l1 + 1) k d hd]

end MLPClassifier

end classifiers

namespace classifiers

theorem getElem?_append_last {α : Type} (ws : List α) (x : α) :
    (ws ++ [x])[ws.length]? = some x := by
  simp

theorem set_append_last {α : Type} (ws : List α) (x y : α) :
    (ws ++ [x]).set ws.length y = ws ++ [y] := by
  simp

/-- A loop whose body keeps a property of the state keeps it, and completes if its body does. -/
theorem forUp_const {σ : Type} (P : σ → Prop) (lo : Int) (body : Int → σ → Option σ)
    (s : σ) (n : Nat) (h0 : P s)
    (hstep : ∀ i, i < n → ∀ t, P t → ∃ t', body (lo + i) t = some t' ∧ P t') :
    ∃ t, forUp lo n body s = some t ∧ P t :=
  forUp_total (fun _ t => P t) lo body s n h0 hstep

namespace WeightLayer

variable {F : Type}

theorem construct_eq (A : FloatOps F) (r c : Int) (hr : 0 ≤ r) (hc : 0 ≤ c) :
    construct A r c
      = some { weights := List.replicate (r * c).toNat A.zero, rows := r, cols := c } := by
  have h : ¬ r * c < 0 := not_lt.mpr (mul_nonneg hr hc)
  simp [construct, vnew, h]

theorem construct_wf (A : FloatOps F) (r c : Int) (hr : 0 ≤ r) (hc : 0 ≤ c) :
    ({ weights := List.replicate (r * c).toNat A.zero, rows := r, cols := c } :
      WeightLayer F).WF := by
  refine ⟨hr, hc, ?_⟩
  show ((List.replicate (r * c).toNat A.zero).length : Int) = r * c
  rw [List.length_replicate, Int.toNat_of_nonneg (mul_nonneg hr hc)]

end WeightLayer

namespace MLPClassifier

variable {F G D : Type}

/-! ## `init` -/

theorem init_cell_spec (draw : G → D × G) (toFloat : D → F) (Q : F → Prop)
    (hQd : ∀ g, Q (toFloat (draw g).1)) (eb : MLPClassifier F G) (c : Cerr)
    (ws : List (WeightLayer F)) (r cc : Int) (i j : Nat) (hi : (i : Int) < r)
    (hj : (j : Int) < cc) (t : St F G) (ht : init.Filling Q eb c ws r cc t) :
    ∃ t', init.cell draw toFloat (ws.length : Int) (i : Int) (j : Int) t = some t' ∧
      init.Filling Q eb c ws r cc t' := by
  obtain ⟨wl, g, rfl, hr, hc, hwf, hq⟩ := ht
  subst hr hc
  refine ⟨_, ?_,
    ⟨{ wl with
        weights := wl.weights.set (j + i * wl.cols.toNat) (toFloat (draw g).1) },
      (draw g).2, rfl, rfl, rfl, ?_, ?_⟩⟩
  · unfold init.cell
    simp only [vget_natCast, getElem?_append_last, Option.some_bind,
      WeightLayer.set_value_wf hwf i j hi hj]
    rw [vset_natCast_of_lt _ _ _ (by simp)]
    simp only [Option.map_some', set_append_last]
  · exact ⟨hwf.1, hwf.2.1, by
      show ((List.set _ _ _).length : Int) = _
      rw [List.length_set]; exact hwf.2.2⟩
  · intro x hx
    rcases List.mem_or_eq_of_mem_set hx with h | h
    · exact hq x h
    · rw [h]; exact hQd g

theorem init_matrix_spec (A : FloatOps F) (draw : G → D × G) (toFloat : D → F) (Q : F → Prop)
    (hQ0 : Q A.zero) (hQd : ∀ g, Q (toFloat (draw g).1)) (eb : MLPClassifier F G) (c : Cerr)
    (ws : List (WeightLayer F)) (g : G) (r cc : Int) (hr : 0 ≤ r) (hc : 0 ≤ cc)
    (hcr : eb.layer_counts[ws.length]? = some r)
    (hcc : eb.layer_counts[ws.length + 1]? = some cc) :
    ∃ t', init.matrix A draw toFloat (ws.length : Int) ({ eb with weights := ws, gen := g }, c)
        = some t' ∧ init.Filling Q eb c ws r cc t' := by
  have h1 : (ws.length : Int) + 1 = ((ws.length + 1 : Nat) : Int) := by push_cast; rfl
  obtain ⟨rn, rfl⟩ := Int.eq_ofNat_of_zero_le hr
  obtain ⟨cn, rfl⟩ := Int.eq_ofNat_of_zero_le hc
  unfold init.matrix
  simp only [h1, vget_natCast, hcr, hcc, Option.some_bind,
    WeightLayer.construct_eq A _ _ hr hc, getElem?_append_last, WeightLayer.get_rows,
    WeightLayer.get_cols, forLoop_zero]
  apply forUp_const (init.Filling Q eb c ws rn cn)
  · exact ⟨_, g, rfl, rfl, rfl, WeightLayer.construct_wf A _ _ hr hc, by
      intro x hx
      rw [List.eq_of_mem_replicate hx]; exact hQ0⟩
  · intro i hi t ht
    show ∃ t', forLoop 0 (cn : Int) _ t = some t' ∧ _
    rw [forLoop_zero]
    apply forUp_const (init.Filling Q eb c ws rn cn) _ _ _ _ ht
    intro j hj t1 ht1
    rw [zero_add, zero_add]
    exact init_cell_spec draw toFloat Q hQd eb c ws rn cn i j (by exact_mod_cast hi)
      (by exact_mod_cast hj) t1 ht1

theorem allocLayer_loop (A : FloatOps F) (e : MLPClassifier F G) (c : Cerr)
    (hnn : ∀ n ∈ e.layer_counts, (0 : Int) ≤ n) (m : Nat) (hm : m ≤ e.layer_counts.length) :
    forUp 0 m (allocLayer A) (e, c)
      = some ({ e with
          layers := e.layers
            ++ (e.layer_counts.take m).map fun n => List.replicate n.toNat A.zero }, c) := by
  induction m with
  | zero => simp [forUp]
  | succ m ih =>
    rw [forUp_succ, ih (by omega), Option.some_bind, zero_add]
    obtain ⟨n, hn⟩ := getElem?_some_of_lt e.layer_counts m (by omega)
    have h0 : ¬ n < 0 := not_lt.mpr (hnn n (List.mem_iff_getElem?.mpr ⟨m, hn⟩))
    unfold allocLayer
    simp only [vget_natCast, hn, Option.some_bind, vnew, h0, if_false, Option.map_some',
      List.take_succ, List.map_append, Option.toList, List.map_cons, List.map_nil,
      List.append_assoc]

theorem allocError_loop (A : FloatOps F) (e : MLPClassifier F G) (c : Cerr)
    (hnn : ∀ n ∈ e.layer_counts, (0 : Int) ≤ n) (m : Nat)
    (hm : m + 1 ≤ e.layer_counts.length) :
    forUp 1 m (allocError A) (e, c)
      = some ({ e with
          errors := e.errors
            ++ (e.layer_counts.tail.take m).map fun n => List.replicate n.toNat A.zero }, c) := by
  induction m with
  | zero => simp [forUp]
  | succ m ih =>
    rw [forUp_succ, ih (by omega), Option.some_bind]
    obtain ⟨n, hn⟩ := getElem?_some_of_lt e.layer_counts (m + 1) (by omega)
    have h0 : ¬ n < 0 := not_lt.mpr (hnn n (List.mem_iff_getElem?.mpr ⟨m + 1, hn⟩))
    have h1 : (1 : Int) + (m : Int) = ((m + 1 : Nat) : Int) := by push_cast; ring
    have h2 : e.layer_counts.tail[m]? = some n := by rw [List.getElem?_tail]; exact hn
    unfold allocError
    simp only [h1, vget_natCast, hn, Option.some_bind, vnew, h0, if_false, Option.map_some',
      List.take_succ, List.map_append, Option.toList, List.map_cons, List.map_nil,
      List.append_assoc, h2]

theorem init_matrix_loop (A : FloatOps F) (draw : G → D × G) (toFloat : D → F) (Q : F → Prop)
    (hQ0 : Q A.zero) (hQd : ∀ g, Q (toFloat (draw g).1)) (eb : MLPClassifier F G) (c : Cerr)
    (hnn : ∀ n ∈ eb.layer_counts, (0 : Int) ≤ n) (m : Nat)
    (hm : m + 1 ≤ eb.layer_counts.length) :
    ∃ t, forUp 0 m (init.matrix A draw toFloat) ({ eb with weights := [] }, c) = some t ∧
      init.Built Q eb c m t := by
  apply forUp_total (init.Built Q eb c)
  · exact ⟨[], eb.gen, rfl, rfl, rfl, by simp⟩
  · intro l hl t ht
    obtain ⟨ws, g, rfl, hlen, hdims, hws⟩ := ht
    subst hlen
    obtain ⟨r, hr⟩ := getElem?_some_of_lt eb.layer_counts ws.length (by omega)
    obtain ⟨cc, hcc⟩ := getElem?_some_of_lt eb.layer_counts (ws.length + 1) (by omega)
    obtain ⟨t', ht', wl, g', rfl, hwr, hwc, hwf, hq⟩ :=
      init_matrix_spec A draw toFloat Q hQ0 hQd eb c ws g r cc
        (hnn r (List.mem_iff_getElem?.mpr ⟨_, hr⟩))
        (hnn cc (List.mem_iff_getElem?.mpr ⟨_, hcc⟩)) hr hcc
    rw [zero_add]
    refine ⟨_, ht', ws ++ [wl], g', rfl, by simp, ?_, ?_⟩
    · have hz : (List.zip eb.layer_counts eb.layer_counts.tail)[ws.length]? = some (r, cc) := by
        rw [List.getElem?_zip_eq_some, List.getElem?_tail]
        exact ⟨hr, hcc⟩
      rw [List.map_append, hdims, List.take_succ, hz]
      simp only [List.map_cons, List.map_nil, hwr, hwc, Option.toList]
    · intro w hw
      rcases List.mem_append.mp hw with h | h
      · exact hws w h
      · rw [List.mem_singleton] at h
        subst h
        exact ⟨hwf, hq⟩

/-- The outcome of `init` on at least three non-negative layer sizes: it returns, printing
nothing, an engine holding the sizes and hyperparameters given, matrices of the dimensions of
the consecutive pairs of sizes whose cells all satisfy `Q` (a property of zero and of every
converted draw), and zeroed buffers. -/
theorem init_spec (A : FloatOps F) (draw : G → D × G) (toFloat : D → F) (Q : F → Prop)
    (hQ0 : Q A.zero) (hQd : ∀ g, Q (toFloat (draw g).1)) (s : List Int) (lr beta : F)
    (e : MLPClassifier F G) (c : Cerr) (h3 : 3 ≤ s.length) (hnn : ∀ n ∈ s, (0 : Int) ≤ n) :
    ∃ e1 : MLPClassifier F G, init A draw toFloat s lr beta e c = some (e1, c) ∧
      e1.layer_counts = s ∧ e1.learning_rate = lr ∧ e1.beta = beta ∧ e1.verbose = e.verbose ∧
      e1.weights.map (fun w => (w.rows, w.cols)) = List.zip s s.tail ∧
      (∀ w ∈ e1.weights, w.WF ∧ ∀ x ∈ w.weights, Q x) ∧
      e1.layers = s.map (fun n => List.replicate n.toNat A.zero) ∧
      e1.errors = s.tail.map (fun n => List.replicate n.toNat A.zero) := by
  have hlt : ¬ s.length < 3 := by omega
  have hN1 : ((s.length : Nat) : Int) - 1 = ((s.length - 1 : Nat) : Int) := by omega
  obtain ⟨t, ht, ws, g, rfl, hlen, hdims, hws⟩ :=
    init_matrix_loop A draw toFloat Q hQ0 hQd
      { e with learning_rate := lr, beta := beta, layer_counts := s, weights := [],
               layers := [], errors := [] } c hnn (s.length - 1) (by show _ ≤ s.length; omega)
  have htake : (List.zip s s.tail).take (s.length - 1) = List.zip s s.tail := by
    apply List.take_of_length_le
    rw [List.length_zip, List.length_tail]
    omega
  have htail : s.tail.take (s.length - 1) = s.tail := by
    apply List.take_of_length_le
    rw [List.length_tail]
  dsimp only at ht hdims
  refine ⟨{ e with
      learning_rate := lr, beta := beta, layer_counts := s, weights := ws,
      layers := s.map (fun n => List.replicate n.toNat A.zero),
      errors := s.tail.map (fun n => List.replicate n.toNat A.zero), gen := g },
    ?_, rfl, rfl, rfl, rfl, ?_, hws, rfl, rfl⟩
  · unfold init
    simp only [hlt, if_false, hN1, forLoop_zero, forLoop_one]
    rw [ht, Option.some_bind, allocLayer_loop A _ c hnn s.length (le_refl _), Option.some_bind,
      allocError_loop A _ c hnn (s.length - 1) (by show _ ≤ s.length; omega)]
    simp [htail]
  · rw [← htake]; exact hdims

end MLPClassifier

end classifiers

namespace classifiers

theorem forUp_keeps {σ : Type} (P : σ → Prop) (lo : Int) (body : Int → σ → Option σ)
    (s : σ) (n : Nat) (h0 : P s)
    (hstep : ∀ i, i < n → ∀ t t', P t → body (lo + i) t = some t' → P t')
    (t : σ) (h : forUp lo n body s = some t) : P t :=
  forUp_inv (fun _ t => P t) lo body s n h0 hstep t h

theorem forLoop_keeps {σ : Type} (P : σ → Prop) (lo hi : Int) (body : Int → σ → Option σ)
    (s : σ) (h0 : P s) (hstep : ∀ i t t', P t → body i t = some t' → P t')
    (t : σ) (h : forLoop lo hi body s = some t) : P t :=
  forUp_keeps P lo body s _ h0 (fun _ _ t t' ht hb => hstep _ t t' ht hb) t h

namespace MLPClassifier

variable {F G D : Type}

theorem init_cell_counts (draw : G → D × G) (toFloat : D → F) (l i j : Int) (t t' : St F G)
    (h : init.cell draw toFloat l i j t = some t') : t'.1.layer_counts = t.1.layer_counts := by
  unfold init.cell at h
  simp only [Option.bind_eq_some, Option.map_eq_some'] at h
  obtain ⟨w, _, r, _, ws, _, rfl⟩ := h
  rfl

theorem init_matrix_counts (A : FloatOps F) (draw : G → D × G) (toFloat : D → F) (l : Int)
    (t t' : St F G) (h : init.matrix A draw toFloat l t = some t') :
    t'.1.layer_counts = t.1.layer_counts := by
  unfold init.matrix at h
  simp only [Option.bind_eq_some] at h
  obtain ⟨r, _, c, _, w, _, wl, _, h⟩ := h
  refine forLoop_keeps (fun u : St F G => u.1.layer_counts = t.1.layer_counts) _ _ _ _ ?_ ?_
    t' h
  · rfl
  intro i u u' hu hb
  refine forLoop_keeps (fun u : St F G => u.1.layer_counts = t.1.layer_counts) _ _ _ _ hu ?_
    u' hb
  intro j v v' hv hc
  rw [init_cell_counts draw toFloat _ _ _ v v' hc, hv]

theorem allocLayer_nonneg (A : FloatOps F) (l : Nat) (t t' : St F G)
    (h : allocLayer A (l : Int) t = some t') :
    t'.1.layer_counts = t.1.layer_counts ∧ ∀ n, t.1.layer_counts[l]? = some n → 0 ≤ n := by
  unfold allocLayer at h
  simp only [vget_natCast, Option.bind_eq_some, Option.map_eq_some'] at h
  obtain ⟨n, hn, b, hb, rfl⟩ := h
  refine ⟨rfl, ?_⟩
  intro m hm
  rw [hn, Option.some.injEq] at hm
  subst hm
  by_contra hc
  simp [vnew, not_le.mp hc] at hb

/-- A call of `init` on at least three sizes that returns was given non-negative sizes. -/
theorem init_some_nonneg (A : FloatOps F) (draw : G → D × G) (toFloat : D → F) (s : List Int)
    (lr beta : F) (e : MLPClassifier F G) (c : Cerr) (t : St F G) (h3 : 3 ≤ s.length)
    (h : init A draw toFloat s lr beta e c = some t) : ∀ n ∈ s, (0 : Int) ≤ n := by
  have hlt : ¬ s.length < 3 := by omega
  unfold init at h
  simp only [hlt, if_false, Option.bind_eq_some, forLoop_zero] at h
  obtain ⟨s1, h1, s2, h2, _⟩ := h
  have hc1 : s1.1.layer_counts = s := by
    refine forUp_keeps (fun u : St F G => u.1.layer_counts = s) _ _ _ _ rfl ?_ s1 h1
    intro i _ u u' hu hb
    rw [init_matrix_counts A draw toFloat _ u u' hb, hu]
  have key := forUp_inv
    (fun l (u : St F G) => u.1.layer_counts = s ∧ ∀ i, i < l → ∀ n, s[i]? = some n → 0 ≤ n)
    0 (allocLayer A) s1 s.length ⟨hc1, by intro i hi; omega⟩
    (by
      intro l _ u u' hu hb
      rw [zero_add] at hb
      obtain ⟨h4, h5⟩ := allocLayer_nonneg A l u u' hb
      refine ⟨by rw [h4, hu.1], ?_⟩
      intro i hi n hn
      by_cases hil : i < l
      · exact hu.2 i hil n hn
      · have : i = l := by omega
        subst this
        exact h5 n (by rw [hu.1]; exact hn))
    s2 h2
  intro n hn
  obtain ⟨i, hi⟩ := List.mem_iff_getElem?.mp hn
  exact key.2 i (lt_length_of_getElem? hi) n hi

/-- C9: a call `init(s, lr, beta)` with at least three sizes that returns leaves, whatever the
prior state, an engine with learning rate `lr` and beta `beta`, the sizes `s` (none negative),
one matrix per consecutive pair of sizes with `s[l]` rows and `s[l+1]` columns, one zeroed
activation buffer of length `s[l]` per layer and one zeroed error buffer of length `s[i+1]`
per layer after the first; nothing is printed. -/
theorem C9_init_postcondition (A : FloatOps F) (draw : G → D × G) (toFloat : D → F)
    (s : List Int) (lr beta : F) (e e1 : MLPClassifier F G) (cerr cerr1 : Cerr)
    (h3 : 3 ≤ s.length) (h : init A draw toFloat s lr beta e cerr = some (e1, cerr1)) :
    cerr1 = cerr ∧ e1.learning_rate = lr ∧ e1.beta = beta ∧ e1.layer_counts = s ∧
      (∀ n ∈ s, (0 : Int) ≤ n) ∧
      e1.weights.map (fun w => (w.get_rows, w.get_cols)) = List.zip s s.tail ∧
      (∀ w ∈ e1.weights, w.WF) ∧
      e1.layers = s.map (fun n => List.replicate n.toNat A.zero) ∧
      e1.errors = s.tail.map (fun n => List.replicate n.toNat A.zero) := by
  have hnn := init_some_nonneg A draw toFloat s lr beta e cerr _ h3 h
  obtain ⟨e2, h2, hc, hlr, hb, _, hd, hw, hl, he⟩ :=
    init_spec A draw toFloat (fun _ => True) trivial (fun _ => trivial) s lr beta e cerr h3 hnn
  rw [h, Option.some.injEq, Prod.mk.injEq] at h2
  obtain ⟨rfl, rfl⟩ := h2
  exact ⟨rfl, hlr, hb, hc, hnn, hd, fun w hw1 => (hw w hw1).1, hl, he⟩

end MLPClassifier

end classifiers

namespace classifiers

/-! ## The conversion from `double` to `float` -/

theorem roundHalfEven_le (q : Rat) (m : Int) (h : q ≤ m) : roundHalfEven q ≤ m := by
  have hf : ⌊q⌋ ≤ m := by
    have := Int.floor_le q
    exact_mod_cast this.trans h
  have hup : 0 < q - ⌊q⌋ → ⌊q⌋ + 1 ≤ m := by
    intro hpos
    have hlt : ((⌊q⌋ : Int) : Rat) < m := by
      have h1 : ((⌊q⌋ : Int) : Rat) < q := by linarith
      exact lt_of_lt_of_le h1 h
    have : ⌊q⌋ < m := by exact_mod_cast hlt
    omega
  unfold roundHalfEven
  split_ifs with h1 h2 h3
  · exact hf
  · exact hup (by linarith)
  · exact hf
  · exact hup (by linarith)

theorem roundHalfEven_ge (q : Rat) (m : Int) (h : (m : Rat) ≤ q) : m ≤ roundHalfEven q := by
  have hf : m ≤ ⌊q⌋ := Int.le_floor.mpr h
  unfold roundHalfEven
  split_ifs <;> omega

theorem toBinary32_bounds (x : Rat) (h1 : -1 ≤ x) (h2 : x ≤ 1) :
    -1 ≤ toBinary32 x ∧ toBinary32 x ≤ 1 := by
  unfold toBinary32
  split_ifs with h0
  · constructor <;> norm_num
  · have habs : 0 < |x| := abs_pos.mpr h0
    have hlog : Int.log 2 |x| < 1 := by
      rw [← Int.lt_zpow_iff_log_lt (by norm_num) habs]
      have : |x| ≤ 1 := abs_le.mpr ⟨h1, h2⟩
      have h2' : ((2 : Nat) : Rat) ^ (1 : Int) = 2 := by norm_num
      rw [h2']
      linarith
    obtain ⟨n, hn⟩ : ∃ n : Nat, max (Int.log 2 |x|) (-126) - 23 = -(n : Int) := by
      refine ⟨(23 - max (Int.log 2 |x|) (-126)).toNat, ?_⟩
      have : max (Int.log 2 |x|) (-126) ≤ 0 := max_le (by omega) (by norm_num)
      omega
    rw [hn]
    have hpow : (2 : Rat) ^ (-(n : Int)) = 1 / (((2 ^ n : Nat) : Int) : Rat) := by
      rw [zpow_neg, zpow_natCast]
      push_cast
      rw [one_div]
    have hM : (0 : Rat) < (((2 ^ n : Nat) : Int) : Rat) := by
      have : 0 < 2 ^ n := Nat.two_pow_pos n
      exact_mod_cast this
    rw [hpow]
    have hq1 : x / (1 / (((2 ^ n : Nat) : Int) : Rat)) ≤ (((2 ^ n : Nat) : Int) : Rat) := by
      rw [div_div_eq_mul_div, div_one]
      nlinarith
    have hq2 : (((-(2 ^ n : Nat) : Int)) : Rat) ≤ x / (1 / (((2 ^ n : Nat) : Int) : Rat)) := by
      rw [div_div_eq_mul_div, div_one]
      push_cast
      push_cast at hM
      nlinarith
    have hr1 := roundHalfEven_le _ _ hq1
    have hr2 := roundHalfEven_ge _ _ hq2
    have hr1' : ((roundHalfEven (x / (1 / (((2 ^ n : Nat) : Int) : Rat))) : Int) : Rat)
        ≤ (((2 ^ n : Nat) : Int) : Rat) := by exact_mod_cast hr1
    have hr2' : -(((2 ^ n : Nat) : Int) : Rat)
        ≤ ((roundHalfEven (x / (1 / (((2 ^ n : Nat) : Int) : Rat))) : Int) : Rat) := by
      have h3 : (((-(2 ^ n : Nat) : Int)) : Rat)
          ≤ ((roundHalfEven (x / (1 / (((2 ^ n : Nat) : Int) : Rat))) : Int) : Rat) := by
        exact_mod_cast hr2
      simpa using h3
    constructor
    · rw [mul_one_div, le_div_iff₀ hM]
      linarith
    · rw [mul_one_div, div_le_iff₀ hM]
      linarith

theorem nearOne_bounds : -1 ≤ nearOne ∧ nearOne < 1 := by
  unfold nearOne
  constructor <;> norm_num

theorem log_nearOne : Int.log 2 |nearOne| = -1 := by
  have hpos : (0 : Rat) < nearOne := by unfold nearOne; norm_num
  rw [abs_of_pos hpos]
  apply le_antisymm
  · have h : Int.log 2 nearOne < 0 := by
      rw [← Int.lt_zpow_iff_log_lt (by norm_num) hpos]
      unfold nearOne
      norm_num
    omega
  · rw [← Int.zpow_le_iff_le_log (by norm_num) hpos]
    unfold nearOne
    norm_num

theorem toBinary32_nearOne : toBinary32 nearOne = 1 := by
  have hne : nearOne ≠ 0 := by unfold nearOne; norm_num
  have hfloor : ⌊nearOne / 2 ^ (-24 : Int)⌋ = 2 ^ 24 - 1 := by
    rw [Int.floor_eq_iff]
    unfold nearOne
    constructor <;> norm_num
  have hround : roundHalfEven (nearOne / 2 ^ (-24 : Int)) = 2 ^ 24 := by
    unfold roundHalfEven
    rw [hfloor]
    have h1 : ¬ (nearOne / 2 ^ (-24 : Int) - ((2 ^ 24 - 1 : Int) : Rat) < 1 / 2) := by
      unfold nearOne; norm_num
    have h2 : 1 / 2 < nearOne / 2 ^ (-24 : Int) - ((2 ^ 24 - 1 : Int) : Rat) := by
      unfold nearOne; norm_num
    rw [if_neg h1, if_pos h2]
    norm_num
  unfold toBinary32
  rw [if_neg hne, log_nearOne]
  have hmax : max (-1 : Int) (-126) - 23 = -24 := by norm_num
  rw [hmax, hround]
  norm_num

end classifiers

namespace classifiers

namespace MLPClassifier

variable {G : Type}

/-- C10, as the code has it: after a call of `init` on at least three sizes that returns, with
every draw `d` of the generator in `-1 ≤ d < 1`, every cell of every weight matrix holds a
value `w` with `-1 ≤ w ≤ 1`: the conversion to `float` can round a draw up to `1`. -/
theorem C10_init_weights_closed_range (A : FloatOps Rat) (hzero : A.zero = 0)
    (draw : G → Rat × G) (hdraw : ∀ g, -1 ≤ (draw g).1 ∧ (draw g).1 < 1) (s : List Int)
    (lr beta : Rat) (e e1 : MLPClassifier Rat G) (cerr cerr1 : Cerr) (h3 : 3 ≤ s.length)
    (h : init A draw toBinary32 s lr beta e cerr = some (e1, cerr1)) :
    ∀ w ∈ e1.weights, ∀ x ∈ w.weights, -1 ≤ x ∧ x ≤ 1 := by
  have hnn := init_some_nonneg A draw toBinary32 s lr beta e cerr _ h3 h
  obtain ⟨e2, h2, _, _, _, _, _, hw, _⟩ :=
    init_spec A draw toBinary32 (fun x => -1 ≤ x ∧ x ≤ 1)
      (by rw [hzero]; constructor <;> norm_num)
      (fun g => toBinary32_bounds _ (hdraw g).1 (le_of_lt (hdraw g).2))
      s lr beta e cerr h3 hnn
  rw [h, Option.some.injEq, Prod.mk.injEq] at h2
  obtain ⟨rfl, rfl⟩ := h2
  exact fun w hw1 => (hw w hw1).2

theorem C10_witness :
    ratOps.zero = 0 ∧ (∀ g, -1 ≤ (sampleDraw g).1 ∧ (sampleDraw g).1 < 1) ∧
    3 ≤ ([2, 2, 1] : List Int).length ∧
    ∃ e1 : MLPClassifier Rat Nat,
      init ratOps sampleDraw toBinary32 [2, 2, 1] (1 / 2) 1 sampleEngine [] = some (e1, []) ∧
      ∀ w ∈ e1.weights, ∀ x ∈ w.weights, -1 ≤ x ∧ x ≤ 1 := by
  have hd : ∀ g, -1 ≤ (sampleDraw g).1 ∧ (sampleDraw g).1 < 1 := by
    intro g; unfold sampleDraw; constructor <;> norm_num
  refine ⟨rfl, hd, by decide, ?_⟩
  obtain ⟨e1, h1, _⟩ := init_spec ratOps sampleDraw toBinary32 (fun _ => True) trivial
    (fun _ => trivial) [2, 2, 1] (1 / 2) 1 sampleEngine [] (by decide) (by decide)
  exact ⟨e1, h1, C10_init_weights_closed_range ratOps rfl sampleDraw hd [2, 2, 1] (1 / 2) 1
    sampleEngine e1 [] [] (by decide) h1⟩

theorem init_three_ones {F G D : Type} (A : FloatOps F) (draw : G → D × G) (toFloat : D → F)
    (lr beta : F) (e : MLPClassifier F G) (c : Cerr) :
    init A draw toFloat [1, 1, 1] lr beta e c
      = some ({ e with
          learning_rate := lr, beta := beta, layer_counts := [1, 1, 1],
          weights := [{ weights := [toFloat (draw e.gen).1], rows := 1, cols := 1 },
            { weights := [toFloat (draw (draw e.gen).2).1], rows := 1, cols := 1 }],
          layers := [[A.zero], [A.zero], [A.zero]], errors := [[A.zero], [A.zero]],
          gen := (draw (draw e.gen).2).2 }, c) := rfl

/-- C10 fails as stated: with a generator whose draws are all `1 - 2^-52`, inside
`-1 ≤ d < 1`, `init` on the sizes `1, 1, 1` stores the weight `1`. -/
theorem C10_counterexample :
    (∀ g, -1 ≤ (stuckDraw g).1 ∧ (stuckDraw g).1 < 1) ∧
    ∃ e1 : MLPClassifier Rat Unit,
      init ratOps stuckDraw toBinary32 [1, 1, 1] (1 / 2) 1
        (construct ratOps (1 / 10) () false) [] = some (e1, []) ∧
      ¬ ∀ w ∈ e1.weights, ∀ x ∈ w.weights, -1 ≤ x ∧ x < 1 := by
  refine ⟨fun _ => nearOne_bounds, _, init_three_ones _ _ _ _ _ _ _, ?_⟩
  intro hall
  have h := hall { weights := [toBinary32 nearOne], rows := 1, cols := 1 }
    (List.mem_cons_self _ _) (toBinary32 nearOne) (List.mem_cons_self _ _)
  rw [toBinary32_nearOne] at h
  exact absurd h.2 (lt_irrefl 1)

end MLPClassifier

end classifiers

namespace classifiers

namespace MLPClassifier

variable {F G : Type}

/-! ## `write` -/

theorem write_count_loop (C : Codec F) (e : MLPClassifier F G) (toks : List String) (c : Cerr)
    (m : Nat) (hm : m ≤ e.layer_counts.length) :
    forUp 0 m (write.count C e) (toks, c)
      = some (toks ++ (e.layer_counts.take m).map C.showInt, c) := by
  induction m with
  | zero => simp [forUp]
  | succ m ih =>
    rw [forUp_succ, ih (by omega), Option.some_bind, zero_add]
    obtain ⟨n, hn⟩ := getElem?_some_of_lt e.layer_counts m (by omega)
    simp only [write.count, vget_natCast, hn, Option.map_some', List.take_succ, List.map_append,
      Option.toList, List.map_cons, List.map_nil, List.append_assoc]

theorem write_cell_loop (A : FloatOps F) (C : Codec F) (e : MLPClassifier F G)
    (toks : List String) (c : Cerr) (l i : Nat) (w : WeightLayer F)
    (hw : e.weights[l]? = some w) (hwf : w.WF) (hi : (i : Int) < w.rows) (n : Nat)
    (hn : (n : Int) ≤ w.cols) :
    forUp 0 n (fun j => write.cell A C e (l : Int) (i : Int) j)
        (toks ++ (w.weights.take (0 + i * w.cols.toNat)).map C.showFloat, c)
      = some (toks ++ (w.weights.take (n + i * w.cols.toNat)).map C.showFloat, c) := by
  induction n with
  | zero => rfl
  | succ n ih =>
    rw [forUp_succ, ih (by omega), Option.some_bind, zero_add]
    have hj : (n : Int) < w.cols := by omega
    obtain ⟨hp, _⟩ := hwf.index i n hi hj
    have hsucc : n + 1 + i * w.cols.toNat = n + i * w.cols.toNat + 1 := by ring
    simp only [write.cell, vget_natCast, hw, Option.some_bind,
      WeightLayer.get_value_wf A hwf i n hi hj, Option.map_some',
      WeightLayer.value_eq_entry A hwf i n hi hj, hsucc, List.take_succ,
      getElem?_entry A _ _ hp, List.map_append, Option.toList, List.map_cons, List.map_nil,
      List.append_assoc]

theorem write_row_loop (A : FloatOps F) (C : Codec F) (e : MLPClassifier F G)
    (toks : List String) (c : Cerr) (l : Nat) (w : WeightLayer F)
    (hw : e.weights[l]? = some w) (hwf : w.WF) (m : Nat) (hm : (m : Int) ≤ w.rows) :
    forUp 0 m (fun i => forLoop 0 w.get_cols (fun j => write.cell A C e (l : Int) i j))
        (toks, c)
      = some (toks ++ (w.weights.take (m * w.cols.toNat)).map C.showFloat, c) := by
  obtain ⟨cn, hcn⟩ := Int.eq_ofNat_of_zero_le hwf.2.1
  induction m with
  | zero => simp [forUp]
  | succ m ih =>
    rw [forUp_succ, ih (by omega), Option.some_bind, zero_add]
    have hloop := write_cell_loop A C e toks c l m w hw hwf (by omega) cn (by omega)
    rw [Nat.zero_add] at hloop
    have hmul : cn + m * w.cols.toNat = (m + 1) * w.cols.toNat := by
      rw [hcn, Int.toNat_ofNat]; ring
    rw [WeightLayer.get_cols, hcn, forLoop_zero, ← hcn, hloop, hmul]

theorem write_matrix_eq (A : FloatOps F) (C : Codec F) (e : MLPClassifier F G)
    (toks : List String) (c : Cerr) (l : Nat) (w : WeightLayer F)
    (hw : e.weights[l]? = some w) (hwf : w.WF) :
    write.matrix A C e (l : Int) (toks, c) = some (toks ++ cellTokens C w, c) := by
  obtain ⟨rn, hrn⟩ := Int.eq_ofNat_of_zero_le hwf.1
  obtain ⟨cn, hcn⟩ := Int.eq_ofNat_of_zero_le hwf.2.1
  have hlen : rn * w.cols.toNat = w.weights.length := by
    have h := hwf.2.2
    rw [hrn, hcn] at h
    rw [hcn, Int.toNat_ofNat]
    exact_mod_cast h.symm
  have hloop := write_row_loop A C e toks c l w hw hwf rn (by omega)
  rw [hlen, List.take_of_length_le (le_refl _)] at hloop
  simp only [write.matrix, vget_natCast, hw, Option.some_bind]
  rw [WeightLayer.get_rows, hrn, forLoop_zero, hloop]
  rfl

theorem write_matrix_loop (A : FloatOps F) (C : Codec F) (e : MLPClassifier F G)
    (toks : List String) (c : Cerr) (hwf : ∀ w ∈ e.weights, w.WF) (m : Nat)
    (hm : m ≤ e.weights.length) :
    forUp 0 m (write.matrix A C e) (toks, c)
      = some (toks ++ (e.weights.take m).flatMap (cellTokens C), c) := by
  induction m with
  | zero => simp [forUp]
  | succ m ih =>
    rw [forUp_succ, ih (by omega), Option.some_bind, zero_add]
    obtain ⟨w, hw⟩ := getElem?_some_of_lt e.weights m (by omega)
    rw [write_matrix_eq A C e _ c m w hw (hwf w (List.mem_iff_getElem?.mpr ⟨m, hw⟩))]
    simp only [List.take_succ, hw, Option.toList, List.flatMap_append, List.flatMap_cons,
      List.flatMap_nil, List.append_nil, List.append_assoc]

/-- The closed form of `write` on an engine satisfying the structural invariants. -/
theorem write_eq (A : FloatOps F) (C : Codec F) (e : MLPClassifier F G) (stream : List String)
    (cerr : Cerr) (hinv : e.Inv) :
    write A C e stream cerr = some (stream ++ e.tokens C, cerr) := by
  have hwl := hinv.weights_length
  have hN1 : ((e.layer_counts.length : Nat) : Int) - 1 = ((e.weights.length : Nat) : Int) := by
    omega
  unfold write
  simp only [forLoop_zero, hN1]
  rw [write_count_loop C e _ cerr _ (le_refl _), Option.some_bind,
    write_matrix_loop A C e _ cerr hinv.2.2.1 _ (le_refl _)]
  simp [tokens, List.take_of_length_le]

end MLPClassifier

end classifiers

namespace classifiers

namespace IStream

variable {F : Type}

theorem readInt_scan (C : Codec F) (t : String) (n : Int) (h : C.readInt t = some n) :
    C.scanInt t = Scan.value n "" := by
  unfold Codec.readInt at h
  cases hs : C.scanInt t with
  | value m rest =>
    rw [hs] at h
    by_cases hr : rest = ""
    · simp only [hr, if_true, Option.some.injEq] at h
      rw [hr, h]
    · simp only [hr, if_false] at h
      cases h
  | noNumber => rw [hs] at h; cases h
  | outOfRange m => rw [hs] at h; cases h

theorem readFloat_scan (C : Codec F) (t : String) (x : F) (h : C.readFloat t = some x) :
    C.scanFloat t = Scan.value x "" := by
  unfold Codec.readFloat at h
  cases hs : C.scanFloat t with
  | value m rest =>
    rw [hs] at h
    by_cases hr : rest = ""
    · simp only [hr, if_true, Option.some.injEq] at h
      rw [hr, h]
    · simp only [hr, if_false] at h
      cases h
  | noNumber => rw [hs] at h; cases h
  | outOfRange m => rw [hs] at h; cases h

theorem getInt_cons (C : Codec F) (t : String) (ts : List String) (n cur : Int)
    (h : C.readInt t = some n) :
    getInt C { toks := t :: ts, failed := false } cur = (n, { toks := ts, failed := false }) := by
  simp [getInt, readInt_scan C t n h]

theorem getFloat_cons (A : FloatOps F) (C : Codec F) (t : String) (ts : List String)
    (x cur : F) (h : C.readFloat t = some x) :
    getFloat A C { toks := t :: ts, failed := false } cur
      = (x, { toks := ts, failed := false }) := by
  simp [getFloat, readFloat_scan C t x h]

end IStream

namespace MLPClassifier

variable {F G : Type}

/-! ## `read` of a model written by `write` -/

theorem read_count_loop (C : Codec F) (eb : MLPClassifier F G) (c : Cerr) (ns : List Int)
    (rest : List String) (hns : ∀ n ∈ ns, C.readInt (C.showInt n) = some n) (m : Nat)
    (hm : m ≤ ns.length) :
    forUp 0 m (read.count C)
        ({ eb with layer_counts := [] },
          { toks := ns.map C.showInt ++ rest, failed := false }, c)
      = some ({ eb with layer_counts := ns.take m },
          { toks := (ns.drop m).map C.showInt ++ rest, failed := false }, c) := by
  induction m with
  | zero => rfl
  | succ m ih =>
    rw [forUp_succ, ih (by omega), Option.some_bind]
    have hlt : m < ns.length := by omega
    have hd : ns.drop m = ns[m] :: ns.drop (m + 1) := List.drop_eq_getElem_cons hlt
    have hr := hns ns[m] (List.getElem_mem hlt)
    simp only [read.count, hd, List.map_cons, List.cons_append,
      IStream.getInt_cons C _ _ _ _ hr, List.take_succ, List.getElem?_eq_getElem hlt,
      Option.toList]

/-- The matrix `WeightLayer(r, c)` builds. -/
theorem construct_zeroOf (A : FloatOps F) (w : WeightLayer F) (hwf : w.WF) :
    WeightLayer.construct A w.rows w.cols = some (zeroOf A w) := by
  rw [WeightLayer.construct_eq A _ _ hwf.1 hwf.2.1]
  have h : (w.rows * w.cols).toNat = w.weights.length := by
    have := hwf.2.2
    omega
  rw [h]
  rfl

theorem read_alloc_loop (A : FloatOps F) (eb : MLPClassifier F G) (st : IStream) (c : Cerr)
    (ws : List (WeightLayer F)) (hwf : ∀ w ∈ ws, w.WF)
    (hdims : ws.map (fun w => (w.rows, w.cols))
      = List.zip eb.layer_counts eb.layer_counts.tail)
    (m : Nat) (hm : m ≤ ws.length) :
    forUp 0 m (read.alloc A) ({ eb with weights := [] }, st, c)
      = some ({ eb with weights := (ws.take m).map (zeroOf A) }, st, c) := by
  induction m with
  | zero => rfl
  | succ m ih =>
    rw [forUp_succ, ih (by omega), Option.some_bind, zero_add]
    have hlt : m < ws.length := by omega
    have hw : ws[m]? = some ws[m] := List.getElem?_eq_getElem hlt
    have hz : (List.zip eb.layer_counts eb.layer_counts.tail)[m]?
        = some (ws[m].rows, ws[m].cols) := by
      rw [← hdims, List.getElem?_map, hw]; rfl
    rw [List.getElem?_zip_eq_some, List.getElem?_tail] at hz
    have h1 : (m : Int) + 1 = ((m + 1 : Nat) : Int) := by push_cast; rfl
    simp only [read.alloc, h1, vget_natCast, hz.1, hz.2, Option.some_bind,
      construct_zeroOf A _ (hwf _ (List.getElem_mem hlt)), Option.map_some', List.take_succ,
      hw, Option.toList, List.map_append, List.map_cons, List.map_nil]

theorem read_lift_loop (body : Int → St F G → Option (St F G)) (lo : Int) (m : Nat)
    (e : MLPClassifier F G) (st : IStream) (c : Cerr) :
    forUp lo m (fun l => read.lift (body l)) (e, st, c)
      = (forUp lo m body (e, c)).map fun r => (r.1, st, r.2) := by
  induction m with
  | zero => rfl
  | succ m ih =>
    rw [forUp_succ, forUp_succ, ih]
    cases h : forUp lo m body (e, c) with
    | none => rfl
    | some r => rfl

theorem read_cell_step (A : FloatOps F) (C : Codec F) (eb : MLPClassifier F G) (c : Cerr)
    (l i j : Nat) (W : List (WeightLayer F)) (wcur : WeightLayer F) (t : String)
    (ts : List String) (x : F) (hl : l < W.length) (hwf : wcur.WF)
    (hi : (i : Int) < wcur.rows) (hj : (j : Int) < wcur.cols) (hx : C.readFloat t = some x) :
    read.cell A C (l : Int) (i : Int) (j : Int)
        ({ eb with weights := W.set l wcur }, { toks := t :: ts, failed := false }, c)
      = some ({ eb with
          weights := W.set l
            { wcur with weights := wcur.weights.set (j + i * wcur.cols.toNat) x } },
          { toks := ts, failed := false }, c) := by
  unfold read.cell
  simp only [IStream.getFloat_cons A C t ts x A.zero hx, vget_natCast, set_row_get _ _ _ hl,
    Option.some_bind, WeightLayer.set_value_wf hwf i j hi hj,
    vset_natCast_of_lt _ _ _
      (show l < (W.set l wcur).length by rw [List.length_set]; exact hl),
    Option.map_some', List.set_set]

theorem read_cell_loop (A : FloatOps F) (C : Codec F) (eb : MLPClassifier F G) (c : Cerr)
    (l i : Nat) (W : List (WeightLayer F)) (w : WeightLayer F) (rest : List String)
    (hl : l < W.length) (hwf : w.WF) (hi : (i : Int) < w.rows)
    (hrt : ∀ x ∈ w.weights, C.readFloat (C.showFloat x) = some x) (n : Nat)
    (hn : (n : Int) ≤ w.cols) :
    forUp 0 n (fun j => read.cell A C (l : Int) (i : Int) j)
        ({ eb with
            weights := W.set l
              { w with
                weights := w.weights.take (0 + i * w.cols.toNat)
                  ++ (List.replicate w.weights.length A.zero).drop (0 + i * w.cols.toNat) } },
          { toks := (w.weights.drop (0 + i * w.cols.toNat)).map C.showFloat ++ rest,
            failed := false }, c)
      = some ({ eb with
          weights := W.set l
            { w with
              weights := w.weights.take (n + i * w.cols.toNat)
                ++ (List.replicate w.weights.length A.zero).drop (n + i * w.cols.toNat) } },
          { toks := (w.weights.drop (n + i * w.cols.toNat)).map C.showFloat ++ rest,
            failed := false }, c) := by
  have hlen : w.weights.length = (List.replicate w.weights.length A.zero).length := by
    rw [List.length_replicate]
  induction n with
  | zero => rfl
  | succ n ih =>
    rw [forUp_succ, ih (by omega), Option.some_bind, zero_add]
    have hj : (n : Int) < w.cols := by omega
    obtain ⟨hp, _⟩ := hwf.index i n hi hj
    have hd : w.weights.drop (n + i * w.cols.toNat)
        = w.weights[n + i * w.cols.toNat] :: w.weights.drop (n + i * w.cols.toNat + 1) :=
      List.drop_eq_getElem_cons hp
    have hr := hrt _ (List.getElem_mem hp)
    have hwf1 : ({ w with
        weights := w.weights.take (n + i * w.cols.toNat)
          ++ (List.replicate w.weights.length A.zero).drop (n + i * w.cols.toNat) } :
          WeightLayer F).WF :=
      ⟨hwf.1, hwf.2.1, by
        show ((_ : List F).length : Int) = _
        rw [fill_length _ _ _ hlen, List.length_replicate]; exact hwf.2.2⟩
    rw [hd, List.map_cons, List.cons_append,
      read_cell_step A C eb c l i n W _ _ _ _ hl hwf1 hi hj hr]
    simp only []
    rw [fill_set _ _ _ _ hlen (List.getElem?_eq_getElem hp),
      Nat.add_right_comm n (i * w.cols.toNat) 1]

theorem read_row_loop (A : FloatOps F) (C : Codec F) (eb : MLPClassifier F G) (c : Cerr)
    (l : Nat) (W : List (WeightLayer F)) (w : WeightLayer F) (rest : List String)
    (hl : l < W.length) (hwf : w.WF)
    (hrt : ∀ x ∈ w.weights, C.readFloat (C.showFloat x) = some x) (m : Nat)
    (hm : (m : Int) ≤ w.rows) :
    forUp 0 m (fun i => forLoop 0 w.cols (fun j => read.cell A C (l : Int) i j))
        ({ eb with
            weights := W.set l
              { w with
                weights := w.weights.take 0
                  ++ (List.replicate w.weights.length A.zero).drop 0 } },
          { toks := (w.weights.drop 0).map C.showFloat ++ rest, failed := false }, c)
      = some ({ eb with
          weights := W.set l
            { w with
              weights := w.weights.take (m * w.cols.toNat)
                ++ (List.replicate w.weights.length A.zero).drop (m * w.cols.toNat) } },
          { toks := (w.weights.drop (m * w.cols.toNat)).map C.showFloat ++ rest,
            failed := false }, c) := by
  obtain ⟨cn, hcn⟩ := Int.eq_ofNat_of_zero_le hwf.2.1
  induction m with
  | zero => rw [Nat.zero_mul]; rfl
  | succ m ih =>
    rw [forUp_succ, ih (by omega), Option.some_bind, zero_add]
    have hloop := read_cell_loop A C eb c l m W w rest hl hwf (by omega) hrt cn (by omega)
    rw [Nat.zero_add] at hloop
    have hmul : cn + m * w.cols.toNat = (m + 1) * w.cols.toNat := by
      rw [hcn, Int.toNat_ofNat]; ring
    rw [hcn, forLoop_zero, ← hcn, hloop, hmul]

theorem read_matrix_eq (A : FloatOps F) (C : Codec F) (eb : MLPClassifier F G) (c : Cerr)
    (l : Nat) (W : List (WeightLayer F)) (w : WeightLayer F) (rest : List String)
    (hW : W[l]? = some (zeroOf A w)) (hwf : w.WF)
    (hrt : ∀ x ∈ w.weights, C.readFloat (C.showFloat x) = some x) :
    read.matrix A C (l : Int)
        ({ eb with weights := W },
          { toks := cellTokens C w ++ rest, failed := false }, c)
      = some ({ eb with weights := W.set l w }, { toks := rest, failed := false }, c) := by
  have hl : l < W.length := lt_length_of_getElem? hW
  obtain ⟨rn, hrn⟩ := Int.eq_ofNat_of_zero_le hwf.1
  obtain ⟨cn, hcn⟩ := Int.eq_ofNat_of_zero_le hwf.2.1
  have hlen : rn * w.cols.toNat = w.weights.length := by
    have h := hwf.2.2
    rw [hrn, hcn] at h
    rw [hcn, Int.toNat_ofNat]
    exact_mod_cast h.symm
  have hloop := read_row_loop A C eb c l W w rest hl hwf hrt rn (by omega)
  have h0 : ({ w with
      weights := w.weights.take 0 ++ (List.replicate w.weights.length A.zero).drop 0 } :
        WeightLayer F) = zeroOf A w := by
    simp [zeroOf]
  have h1 : ({ w with
      weights := w.weights.take w.weights.length
        ++ (List.replicate w.weights.length A.zero).drop w.weights.length } :
        WeightLayer F) = w := by
    simp
  rw [h0, set_same _ _ _ hW, hlen, h1, List.drop_of_length_le (le_refl _), List.drop_zero,
    List.map_nil, List.nil_append] at hloop
  simp only [read.matrix, vget_natCast, hW, Option.some_bind]
  have hr : (zeroOf A w).get_rows = (rn : Int) := hrn
  have hc : (zeroOf A w).get_cols = w.cols := rfl
  rw [hr, hc, forLoop_zero]
  exact hloop

theorem read_matrix_loop (A : FloatOps F) (C : Codec F) (eb : MLPClassifier F G) (c : Cerr)
    (ws : List (WeightLayer F)) (rest : List String) (hwf : ∀ w ∈ ws, w.WF)
    (hrt : ∀ w ∈ ws, ∀ x ∈ w.weights, C.readFloat (C.showFloat x) = some x) (m : Nat)
    (hm : m ≤ ws.length) :
    forUp 0 m (read.matrix A C)
        ({ eb with weights := ws.take 0 ++ (ws.map (zeroOf A)).drop 0 },
          { toks := (ws.drop 0).flatMap (cellTokens C) ++ rest, failed := false }, c)
      = some ({ eb with weights := ws.take m ++ (ws.map (zeroOf A)).drop m },
          { toks := (ws.drop m).flatMap (cellTokens C) ++ rest, failed := false }, c) := by
  have hlen : ws.length = (ws.map (zeroOf A)).length := by rw [List.length_map]
  induction m with
  | zero => rfl
  | succ m ih =>
    rw [forUp_succ, ih (by omega), Option.some_bind, zero_add]
    have hlt : m < ws.length := by omega
    have hw : ws[m]? = some ws[m] := List.getElem?_eq_getElem hlt
    have hd : ws.drop m = ws[m] :: ws.drop (m + 1) := List.drop_eq_getElem_cons hlt
    have hW : (ws.take m ++ (ws.map (zeroOf A)).drop m)[m]? = some (zeroOf A ws[m]) := by
      rw [fill_get_ge _ _ _ _ (le_refl _) (by omega), List.getElem?_map, hw]
      rfl
    rw [hd, List.flatMap_cons, List.append_assoc,
      read_matrix_eq A C eb c m _ ws[m] _ hW (hwf _ (List.getElem_mem hlt))
        (hrt _ (List.getElem_mem hlt)),
      fill_set _ _ _ _ hlen hw]

theorem Inv.counts_nonneg {e : MLPClassifier F G} (h : e.Inv) :
    ∀ n ∈ e.layer_counts, (0 : Int) ≤ n := by
  intro n hn
  rw [← h.2.2.2.1, List.mem_map] at hn
  obtain ⟨b, _, rfl⟩ := hn
  exact Int.ofNat_nonneg _

/-- Reading the tokens that `write` prints for an engine satisfying the structural invariants,
when every printed number is read back as itself: the engine read has the sizes,
hyperparameters and matrices of the engine written, and zeroed buffers. -/
theorem read_tokens (A : FloatOps F) (C : Codec F) (e e0 : MLPClassifier F G) (c : Cerr)
    (hinv : e.Inv) (hf : C.Faithful e) :
    read A C { toks := e.tokens C, failed := false } e0 c
      = some ({ e0 with
          learning_rate := e.learning_rate, beta := e.beta, layer_counts := e.layer_counts,
          weights := e.weights,
          layers := e.layer_counts.map (fun n => List.replicate n.toNat A.zero),
          errors := e.layer_counts.tail.map (fun n => List.replicate n.toNat A.zero) },
          { toks := [], failed := false }, c) := by
  obtain ⟨hfN, hfc, hflr, hfb, hfw⟩ := hf
  have h3 := hinv.three
  have hwl := hinv.weights_length
  have hnn := hinv.counts_nonneg
  have hlt : ¬ ((e.layer_counts.length : Nat) : Int) < 3 := by omega
  have hN1 : ((e.layer_counts.length : Nat) : Int) - 1 = ((e.weights.length : Nat) : Int) := by
    omega
  have hcount := read_count_loop C
    { e0 with learning_rate := e.learning_rate, beta := e.beta, layer_counts := [],
              weights := [], layers := [], errors := [] }
    c e.layer_counts (e.weights.flatMap (cellTokens C)) hfc e.layer_counts.length (le_refl _)
  have halloc := read_alloc_loop A
    { e0 with learning_rate := e.learning_rate, beta := e.beta,
              layer_counts := e.layer_counts, weights := [], layers := [], errors := [] }
    { toks := e.weights.flatMap (cellTokens C), failed := false } c e.weights hinv.2.2.1
    hinv.2.1 e.weights.length (le_refl _)
  have hmat := read_matrix_loop A C
    { e0 with learning_rate := e.learning_rate, beta := e.beta,
              layer_counts := e.layer_counts, weights := [], layers := [], errors := [] }
    c e.weights [] hinv.2.2.1 hfw e.weights.length (le_refl _)
  have hlay := allocLayer_loop A
    { e0 with learning_rate := e.learning_rate, beta := e.beta,
              layer_counts := e.layer_counts, weights := e.weights, layers := [],
              errors := [] } c hnn e.layer_counts.length (le_refl _)
  have herr := allocError_loop A
    { e0 with learning_rate := e.learning_rate, beta := e.beta,
              layer_counts := e.layer_counts, weights := e.weights,
              layers := e.layer_counts.map (fun n => List.replicate n.toNat A.zero),
              errors := [] } c hnn (e.layer_counts.length - 1)
      (by show _ ≤ e.layer_counts.length; omega)
  simp only [List.take_of_length_le (le_refl _), List.drop_of_length_le (le_refl _),
    List.map_nil, List.nil_append, List.take_zero, List.drop_zero, List.flatMap_nil,
    List.append_nil] at hcount halloc hmat hlay
  have htail : e.layer_counts.tail.take (e.layer_counts.length - 1) = e.layer_counts.tail := by
    apply List.take_of_length_le
    rw [List.length_tail]
  simp only [htail, List.nil_append] at herr
  have hdrop : List.drop e.weights.length (List.map (zeroOf A) e.weights) = [] :=
    List.drop_of_length_le (by rw [List.length_map])
  simp only [hdrop, List.append_nil] at hmat
  unfold read
  simp only [tokens, List.cons_append, List.nil_append, IStream.getString, Bool.false_eq_true,
    if_false, ne_eq, not_true_eq_false, IStream.getInt_cons C _ _ _ _ hfN, hlt,
    IStream.getFloat_cons A C _ _ _ _ hflr, IStream.getFloat_cons A C _ _ _ _ hfb,
    forLoop_zero, forLoop_one, hN1]
  rw [hcount, Option.some_bind, halloc, Option.some_bind, hmat, Option.some_bind,
    read_lift_loop, hlay, Option.map_some', Option.some_bind, read_lift_loop, herr,
    Option.map_some']

end MLPClassifier

end classifiers

namespace classifiers

namespace MLPClassifier

variable {F G : Type}

/-! ## `classify` -/

theorem get_output_layer_eq (A : FloatOps F) (e : MLPClassifier F G) (output back : List F)
    (h : e.layers.getLast? = some back) : get_output_layer A e output = some back := by
  simp only [get_output_layer, h, Option.some_bind, List.take_zero, List.length_nil,
    List.nil_append, Nat.sub_zero]
  by_cases hb : 0 = back.length
  · have : back = [] := List.eq_nil_of_length_eq_zero hb.symm
    subst this
    simp
  · simp [hb]

theorem map_intLength_eq {α : Type} (L L1 : List (List α))
    (h : L1.map List.length = L.map List.length) :
    L1.map (fun b => (b.length : Int)) = L.map (fun b => (b.length : Int)) := by
  have h1 : ∀ M : List (List α),
      M.map (fun b => (b.length : Int)) = (M.map List.length).map (fun n : Nat => (n : Int)) := by
    intro M; rw [List.map_map]; rfl
  rw [h1, h1, h]

/-- Replacing the activation buffers by buffers of the same lengths keeps the structural
invariants. -/
theorem Inv.with_layers {e : MLPClassifier F G} (h : e.Inv) (L : List (List F))
    (hs : L.map List.length = e.layers.map List.length) :
    ({ e with layers := L } : MLPClassifier F G).Inv :=
  ⟨h.1, h.2.1, h.2.2.1, by
    show L.map (fun b => (b.length : Int)) = e.layer_counts
    rw [map_intLength_eq _ _ hs]; exact h.2.2.2.1, h.2.2.2.2⟩

theorem set_input_shape {e : MLPClassifier F G} (h : e.Inv) (input : List F)
    (hin : e.layer_counts[0]? = some (input.length : Int)) :
    (e.layers.set 0 input).map List.length = e.layers.map List.length := by
  have h3 := h.three
  obtain ⟨a0, ha0, hc0⟩ := h.layer_at 0 (by omega)
  rw [hin, Option.some.injEq] at hc0
  exact map_length_set _ _ _ a0 ha0 (by exact_mod_cast hc0)

/-- The buffers after the forward pass do not depend on what the buffers held before it. -/
theorem forward_indep (A : FloatOps F) (beta : F) (ws : List (WeightLayer F))
    (L L1 : List (List F)) (h : Fits ws L) (h1 : Fits ws L1) (h0 : L[0]? = L1[0]?)
    (n l : Nat) (hl : l ≤ n) (hn : n ≤ ws.length) :
    (forward A beta ws n L)[l]? = (forward A beta ws n L1)[l]? := by
  induction l with
  | zero => rw [forward_get_zero, forward_get_zero, h0]
  | succ l ih =>
    obtain ⟨w, hw⟩ := getElem?_some_of_lt ws l (by omega)
    obtain ⟨a, ha, hb⟩ := forward_get_succ A beta ws L h n l (by omega) w hw
    obtain ⟨a1, ha1, hb1⟩ := forward_get_succ A beta ws L1 h1 n l (by omega) w hw
    rw [ih (by omega), ha1, Option.some.injEq] at ha
    rw [hb, hb1, ha]

theorem feed_forward_last (A : FloatOps F) (e : MLPClassifier F G) (input : List F)
    (hinv : e.Inv) (hin : e.layer_counts[0]? = some (input.length : Int)) :
    (forward A e.beta e.weights e.weights.length (e.layers.set 0 input)).getLast?
      = (forward A e.beta e.weights e.weights.length (e.layers.set 0 input))[e.weights.length]? := by
  have hs := forward_shape A e.beta e.weights _
    (hinv.fits.of_shape (set_input_shape hinv input hin)) e.weights.length
  have hlen := congrArg List.length hs
  simp only [List.length_map, List.length_set] at hlen
  rw [List.getLast?_eq_getElem?, hlen, hinv.layers_length, ← hinv.weights_length,
    Nat.add_sub_cancel]

/-- The closed form of `classify` on an input of the length of layer 0. -/
theorem classify_eq (A : FloatOps F) (e : MLPClassifier F G) (cerr : Cerr)
    (input output : List F) (hinv : e.Inv)
    (hin : e.layer_counts[0]? = some (input.length : Int)) :
    ∃ out, (forward A e.beta e.weights e.weights.length (e.layers.set 0 input))[e.weights.length]?
        = some out ∧
      classify A input output e cerr
        = some (({ e with
            layers := forward A e.beta e.weights e.weights.length (e.layers.set 0 input) },
            cerr), out) := by
  have hs := forward_shape A e.beta e.weights _
    (hinv.fits.of_shape (set_input_shape hinv input hin)) e.weights.length
  have hlen := congrArg List.length hs
  simp only [List.length_map, List.length_set] at hlen
  obtain ⟨out, hout⟩ := getElem?_some_of_lt
    (forward A e.beta e.weights e.weights.length (e.layers.set 0 input)) e.weights.length
    (by rw [hlen, hinv.layers_length, ← hinv.weights_length]; omega)
  refine ⟨out, hout, ?_⟩
  unfold classify
  rw [feed_forward_eq A e cerr input hinv hin, Option.some_bind,
    get_output_layer_eq A _ output out
      (by
        show (forward A e.beta e.weights e.weights.length (e.layers.set 0 input)).getLast? = _
        rw [feed_forward_last A e input hinv hin, hout])]
  rfl

end MLPClassifier

end classifiers

namespace classifiers

namespace MLPClassifier

variable {F G : Type}

theorem map_replicate_length (A : FloatOps F) (s : List Int) (h : ∀ n ∈ s, (0 : Int) ≤ n) :
    (s.map (fun n => List.replicate n.toNat A.zero)).map (fun b => (b.length : Int)) = s := by
  induction s with
  | nil => rfl
  | cons n s ih =>
    simp only [List.map_cons, List.length_replicate]
    rw [Int.toNat_of_nonneg (h n (List.mem_cons_self _ _))]
    exact congrArg _ (ih (fun m hm => h m (List.mem_cons_of_mem _ hm)))

/-- The engine that `read` builds from the model of an engine satisfying the structural
invariants satisfies them. -/
theorem Inv.read {e : MLPClassifier F G} (h : e.Inv) (A : FloatOps F) (e0 : MLPClassifier F G) :
    ({ e0 with
        learning_rate := e.learning_rate, beta := e.beta, layer_counts := e.layer_counts,
        weights := e.weights,
        layers := e.layer_counts.map (fun n => List.replicate n.toNat A.zero),
        errors := e.layer_counts.tail.map (fun n => List.replicate n.toNat A.zero) } :
      MLPClassifier F G).Inv :=
  ⟨h.1, h.2.1, h.2.2.1, map_replicate_length A _ h.counts_nonneg,
    map_replicate_length A _ (fun n hn => h.counts_nonneg n (List.mem_of_mem_tail hn))⟩

/-- C5: for an engine satisfying the structural invariants and a text format in which every
number printed for it is read back as itself, `write` returns a token sequence, and `read` of
it into a freshly constructed engine returns an engine with the same layer sizes, learning
rate and beta and the same weight matrices, cell for cell. -/
theorem C5_write_read_round_trip (A : FloatOps F) (C : Codec F) (e : MLPClassifier F G)
    (tenth : F) (g : G) (verbose : Bool) (cerr cerr1 : Cerr) (hinv : e.Inv)
    (hf : C.Faithful e) :
    ∃ (toks : List String) (e1 : MLPClassifier F G) (rest : IStream),
      write A C e [] cerr = some (toks, cerr) ∧
      read A C { toks := toks, failed := false } (construct A tenth g verbose) cerr1
        = some (e1, rest, cerr1) ∧
      e1.layer_counts = e.layer_counts ∧ e1.learning_rate = e.learning_rate ∧
      e1.beta = e.beta ∧ e1.weights = e.weights ∧
      ∀ l j k : Nat, weightAt A e1 l j k = weightAt A e l j k := by
  refine ⟨e.tokens C, _, _, ?_, read_tokens A C e _ cerr1 hinv hf, rfl, rfl, rfl, rfl,
    fun _ _ _ => rfl⟩
  rw [write_eq A C e [] cerr hinv, List.nil_append]

/-- C6: for an engine satisfying the structural invariants (whatever its buffers hold), a
text format in which every number printed for it is read back as itself and an input of the
length of layer 0, `classify` on the engine read from the written model returns the same
output vector as `classify` on the engine itself. -/
theorem C6_classify_after_round_trip (A : FloatOps F) (C : Codec F) (e : MLPClassifier F G)
    (tenth : F) (g : G) (verbose : Bool) (cerr cerr1 cerr2 cerr3 : Cerr)
    (input output output1 : List F) (hinv : e.Inv) (hf : C.Faithful e)
    (hin : e.layer_counts[0]? = some (input.length : Int)) :
    ∃ (toks : List String) (e1 : MLPClassifier F G) (rest : IStream),
      write A C e [] cerr = some (toks, cerr) ∧
      read A C { toks := toks, failed := false } (construct A tenth g verbose) cerr1
        = some (e1, rest, cerr1) ∧
      ∃ (s s1 : St F G) (out : List F),
        classify A input output e cerr2 = some (s, out) ∧
        classify A input output1 e1 cerr3 = some (s1, out) := by
  have hinv1 := hinv.read A (construct A tenth g verbose)
  obtain ⟨out, hout, hc⟩ := classify_eq A e cerr2 input output hinv hin
  obtain ⟨out1, hout1, hc1⟩ := classify_eq A _ cerr3 input output1 hinv1 hin
  have hkey := forward_indep A e.beta e.weights (e.layers.set 0 input)
    ((e.layer_counts.map (fun n => List.replicate n.toNat A.zero)).set 0 input)
    (hinv.fits.of_shape (set_input_shape hinv input hin))
    (hinv1.fits.of_shape (set_input_shape hinv1 input hin))
    (by
      rw [set_row_get _ _ _ (by rw [hinv.layers_length]; have := hinv.three; omega),
        set_row_get _ _ _ (by rw [List.length_map]; have := hinv.three; omega)])
    e.weights.length e.weights.length (le_refl _) (le_refl _)
  have heq : out1 = out := by
    have h1 : some out1 = some out := by
      rw [← hout1, ← hout]
      exact hkey.symm
    exact Option.some.inj h1
  subst heq
  exact ⟨e.tokens C, _, _, by rw [write_eq A C e [] cerr hinv, List.nil_append],
    read_tokens A C e _ cerr1 hinv hf, _, _, out1, hc, hc1⟩

theorem feed_forward_mismatch (A : FloatOps F) (e : MLPClassifier F G) (cerr : Cerr)
    (input : List F) (hinv : e.Inv) (hin : e.layer_counts[0]? ≠ some (input.length : Int)) :
    ∃ rows : Int, feed_forward A input e cerr
      = some (e, cerr ++ [Msg.inputWrongSize input.length rows]) := by
  have h3 := hinv.three
  obtain ⟨w0, hw0, _, hr0, _⟩ := hinv.weight_at 0 (by omega)
  have hne : ((input.length : Nat) : Int) ≠ w0.rows := by
    intro h
    rw [hr0, ← h] at hin
    exact hin rfl
  refine ⟨w0.rows, ?_⟩
  unfold feed_forward
  simp only [vget_zero, hw0, Option.some_bind, WeightLayer.get_rows, ne_eq, hne,
    not_false_eq_true, if_true]

/-- C7: on an engine satisfying the structural invariants, for every input (of the length of
layer 0 or not), two calls of `classify` in a row return the same output vector. -/
theorem C7_classify_deterministic (A : FloatOps F) (e : MLPClassifier F G) (cerr : Cerr)
    (input output output1 : List F) (hinv : e.Inv) :
    ∃ (s s1 : St F G) (out : List F),
      classify A input output e cerr = some (s, out) ∧
      classify A input output1 s.1 s.2 = some (s1, out) := by
  by_cases hin : e.layer_counts[0]? = some (input.length : Int)
  · obtain ⟨out, hout, hc⟩ := classify_eq A e cerr input output hinv hin
    have hshape := forward_shape A e.beta e.weights _
      (hinv.fits.of_shape (set_input_shape hinv input hin)) e.weights.length
    have hinv1 : ({ e with
        layers := forward A e.beta e.weights e.weights.length (e.layers.set 0 input) } :
          MLPClassifier F G).Inv :=
      hinv.with_layers _ (by rw [hshape, set_input_shape hinv input hin])
    obtain ⟨out1, hout1, hc1⟩ := classify_eq A _ cerr input output1 hinv1 hin
    have hkey := forward_indep A e.beta e.weights (e.layers.set 0 input)
      ((forward A e.beta e.weights e.weights.length (e.layers.set 0 input)).set 0 input)
      (hinv.fits.of_shape (set_input_shape hinv input hin))
      (hinv1.fits.of_shape (set_input_shape hinv1 input hin))
      (by
        rw [set_row_get _ _ _ (by rw [hinv.layers_length]; have := hinv.three; omega),
          set_row_get _ _ _ (by
            rw [hinv1.layers_length]; have := hinv.three
            show 0 < e.layer_counts.length; omega)])
      e.weights.length e.weights.length (le_refl _) (le_refl _)
    have heq : out1 = out := by
      have h1 : some out1 = some out := by
        rw [← hout1, ← hout]
        exact hkey.symm
      exact Option.some.inj h1
    subst heq
    exact ⟨_, _, out1, hc, hc1⟩
  · obtain ⟨back, hback⟩ : ∃ back, e.layers.getLast? = some back := by
      rw [List.getLast?_eq_getElem?]
      exact getElem?_some_of_lt _ _ (by
        have := hinv.layers_length; have := hinv.three; omega)
    obtain ⟨rows, hff⟩ := feed_forward_mismatch A e cerr input hinv hin
    obtain ⟨rows1, hff1⟩ := feed_forward_mismatch A e
      (cerr ++ [Msg.inputWrongSize input.length rows]) input hinv hin
    refine ⟨(e, cerr ++ [Msg.inputWrongSize input.length rows]),
      (e, cerr ++ [Msg.inputWrongSize input.length rows]
        ++ [Msg.inputWrongSize input.length rows1]), back, ?_, ?_⟩
    · simp only [classify, hff, Option.some_bind, get_output_layer_eq A e output back hback,
        Option.map_some']
    · simp only [classify, hff1, Option.some_bind, get_output_layer_eq A e output1 back hback,
        Option.map_some']

end MLPClassifier

end classifiers

namespace classifiers

namespace MLPClassifier

/-! ## The theorems at concrete engines -/

theorem sampleEngine_inv : sampleEngine.Inv := by decide

theorem sampleCodec_faithful : sampleCodec.Faithful sampleEngine := by
  have h : sampleEngine.learning_rate = mkRat 1 2 := by
    show (1 / 2 : Rat) = mkRat 1 2
    rw [Rat.mkRat_eq_div]
    norm_num
  refine ⟨by decide, by decide, ?_, by decide, by decide⟩
  rw [h]
  decide

theorem C1_witness :
    sampleEngine.Inv ∧ sampleEngine.layer_counts[0]? = some (([3, 4] : List Rat).length : Int) ∧
    ∃ e1 : MLPClassifier Rat Nat, feed_forward ratOps [3, 4] sampleEngine [] = some (e1, []) ∧
      e1.layers[0]? = some [3, 4] ∧
      ∀ l k : Nat, 1 ≤ l → l < sampleEngine.layer_counts.length → k < sampleEngine.sizeAt l →
        readCell e1.layers l k
          = some (ratOps.div ratOps.one (ratOps.add ratOps.one (ratOps.exp
              (ratOps.mul (ratOps.neg sampleEngine.beta)
              (sumTo ratOps (sampleEngine.sizeAt (l - 1)) fun j =>
                ratOps.mul (weightAt ratOps sampleEngine (l - 1) j k)
                  (activationAt ratOps e1 (l - 1) j)))))) :=
  ⟨by decide, by decide,
    C1_feed_forward_activations ratOps sampleEngine [] [3, 4] (by decide) (by decide)⟩

theorem C2_witness :
    sampleEngine.Inv ∧
    sampleEngine.layer_counts.getLast? = some (([1] : List Rat).length : Int) ∧
    ∃ e1 : MLPClassifier Rat Nat,
      back_propagation ratOps [1] sampleEngine [] = some (e1, []) ∧
      ∀ l j k : Nat, l + 1 < sampleEngine.layer_counts.length → j < sampleEngine.sizeAt l →
        k < sampleEngine.sizeAt (l + 1) →
        weightAt ratOps e1 l j k
          = ratOps.add (weightAt ratOps sampleEngine l j k)
              (ratOps.mul (ratOps.mul sampleEngine.learning_rate (errorAt ratOps e1 (l + 1) k))
                (activationAt ratOps sampleEngine l j)) :=
  ⟨by decide, by decide,
    C2_back_propagation_weight_update ratOps sampleEngine [] [1] (by decide) (by decide)⟩

theorem C3_witness :
    sampleEngine.Inv ∧
    sampleEngine.layer_counts.getLast? = some (([1] : List Rat).length : Int) ∧
    ∃ e1 : MLPClassifier Rat Nat,
      back_propagation ratOps [1] sampleEngine [] = some (e1, []) ∧
      e1.errors.length = sampleEngine.layer_counts.length - 1 ∧
      ∀ k : Nat, k < sampleEngine.sizeAt (sampleEngine.layer_counts.length - 1) →
        readCell e1.errors ((sampleEngine.layer_counts.length - 2 : Nat) : Int) k
          = some (ratOps.mul
              (ratOps.mul
                (ratOps.sub (entry ratOps [1] k)
                  (activationAt ratOps sampleEngine (sampleEngine.layer_counts.length - 1) k))
                (activationAt ratOps sampleEngine (sampleEngine.layer_counts.length - 1) k))
              (ratOps.sub ratOps.one
                (activationAt ratOps sampleEngine (sampleEngine.layer_counts.length - 1) k))) :=
  ⟨by decide, by decide,
    C3_back_propagation_output_error ratOps sampleEngine [] [1] (by decide) (by decide)⟩

theorem C4_witness :
    (∀ x y : Rat, ratOps.mul x y = ratOps.mul y x) ∧ sampleEngine.Inv ∧
    sampleEngine.layer_counts.getLast? = some (([1] : List Rat).length : Int) ∧
    ∃ e1 : MLPClassifier Rat Nat,
      back_propagation ratOps [1] sampleEngine [] = some (e1, []) ∧
      ∀ l j : Nat, 1 ≤ l → l + 1 < sampleEngine.layer_counts.length →
        j < sampleEngine.sizeAt l →
        readCell e1.errors ((l - 1 : Nat) : Int) j
          = some (ratOps.mul
              (ratOps.mul (activationAt ratOps sampleEngine l j)
                (ratOps.sub ratOps.one (activationAt ratOps sampleEngine l j)))
              (sumTo ratOps (sampleEngine.sizeAt (l + 1)) fun k =>
                ratOps.mul (weightAt ratOps sampleEngine l j k) (errorAt ratOps e1 (l + 1) k))) :=
  ⟨fun x y => mul_comm x y, by decide, by decide,
    C4_back_propagation_hidden_error ratOps sampleEngine [] [1] (fun x y => mul_comm x y)
      (by decide) (by decide)⟩

theorem C5_witness :
    sampleEngine.Inv ∧ sampleCodec.Faithful sampleEngine ∧
    ∃ (toks : List String) (e1 : MLPClassifier Rat Nat) (rest : IStream),
      write ratOps sampleCodec sampleEngine [] [] = some (toks, []) ∧
      read ratOps sampleCodec { toks := toks, failed := false }
          (construct ratOps (1 / 10) 0 false) []
        = some (e1, rest, []) ∧
      e1.layer_counts = sampleEngine.layer_counts ∧
      e1.learning_rate = sampleEngine.learning_rate ∧
      e1.beta = sampleEngine.beta ∧ e1.weights = sampleEngine.weights ∧
      ∀ l j k : Nat, weightAt ratOps e1 l j k = weightAt ratOps sampleEngine l j k :=
  ⟨sampleEngine_inv, sampleCodec_faithful,
    C5_write_read_round_trip ratOps sampleCodec sampleEngine (1 / 10) 0 false [] []
      sampleEngine_inv sampleCodec_faithful⟩

theorem C6_witness :
    sampleEngine.Inv ∧ sampleCodec.Faithful sampleEngine ∧
    sampleEngine.layer_counts[0]? = some (([3, 4] : List Rat).length : Int) ∧
    ∃ (toks : List String) (e1 : MLPClassifier Rat Nat) (rest : IStream),
      write ratOps sampleCodec sampleEngine [] [] = some (toks, []) ∧
      read ratOps sampleCodec { toks := toks, failed := false }
          (construct ratOps (1 / 10) 0 false) []
        = some (e1, rest, []) ∧
      ∃ (s s1 : St Rat Nat) (out : List Rat),
        classify ratOps [3, 4] [] sampleEngine [] = some (s, out) ∧
        classify ratOps [3, 4] [7] e1 [] = some (s1, out) :=
  ⟨sampleEngine_inv, sampleCodec_faithful, by decide,
    C6_classify_after_round_trip ratOps sampleCodec sampleEngine (1 / 10) 0 false [] [] [] []
      [3, 4] [] [7] sampleEngine_inv sampleCodec_faithful (by decide)⟩

theorem C7_witness :
    sampleEngine.Inv ∧
    ∃ (s s1 : St Rat Nat) (out : List Rat),
      classify ratOps [3, 4] [] sampleEngine [] = some (s, out) ∧
      classify ratOps [3, 4] [7] s.1 s.2 = some (s1, out) :=
  ⟨sampleEngine_inv,
    C7_classify_deterministic ratOps sampleEngine [] [3, 4] [] [7] sampleEngine_inv⟩

theorem sampleInit_eq :
    init ratOps sampleDraw (fun d : Rat => d) [1, 1, 1] (1 / 4) 2 sampleEngine []
      = some (sampleInit, []) := rfl

theorem C9_witness :
    3 ≤ ([1, 1, 1] : List Int).length ∧
    init ratOps sampleDraw (fun d : Rat => d) [1, 1, 1] (1 / 4) 2 sampleEngine []
      = some (sampleInit, []) ∧
    (([] : Cerr) = [] ∧ sampleInit.learning_rate = 1 / 4 ∧ sampleInit.beta = 2 ∧
      sampleInit.layer_counts = [1, 1, 1] ∧
      (∀ n ∈ ([1, 1, 1] : List Int), (0 : Int) ≤ n) ∧
      sampleInit.weights.map (fun w => (w.get_rows, w.get_cols))
        = List.zip ([1, 1, 1] : List Int) ([1, 1, 1] : List Int).tail ∧
      (∀ w ∈ sampleInit.weights, w.WF) ∧
      sampleInit.layers
        = ([1, 1, 1] : List Int).map (fun n => List.replicate n.toNat ratOps.zero) ∧
      sampleInit.errors
        = ([1, 1, 1] : List Int).tail.map (fun n => List.replicate n.toNat ratOps.zero)) :=
  ⟨by decide, sampleInit_eq,
    C9_init_postcondition ratOps sampleDraw (fun d : Rat => d) [1, 1, 1] (1 / 4) 2 sampleEngine
      sampleInit [] [] (by decide) sampleInit_eq⟩

end MLPClassifier

end classifiers

namespace classifiers

namespace MLPClassifier

variable {F G D : Type}

/-- C11: for every engine state, every learning rate and beta and every sequence of fewer than
three layer sizes, `init` reports the error and returns the engine as it was: sizes, matrices,
buffers, learning rate, beta (and the generator) are those before the call. -/
theorem C11_init_rejects_short_sequence (A : FloatOps F) (draw : G → D × G) (toFloat : D → F)
    (s : List Int) (lr beta : F) (e : MLPClassifier F G) (cerr : Cerr) (h : s.length < 3) :
    init A draw toFloat s lr beta e cerr = some (e, cerr ++ [Msg.noHiddenLayers]) := by
  unfold init
  rw [if_pos h]

theorem C11_witness :
    ([2, 2] : List Int).length < 3 ∧
    init ratOps sampleDraw toBinary32 [2, 2] (1 / 4) 2 sampleEngine []
      = some (sampleEngine, [] ++ [Msg.noHiddenLayers]) :=
  ⟨by decide,
    C11_init_rejects_short_sequence ratOps sampleDraw toBinary32 [2, 2] (1 / 4) 2 sampleEngine
      [] (by decide)⟩

theorem back_propagation_mismatch (A : FloatOps F) (e : MLPClassifier F G) (cerr : Cerr)
    (target : List F) (hinv : e.Inv)
    (ht : e.layer_counts.getLast? ≠ some (target.length : Int)) :
    ∃ back : Int, back_propagation A target e cerr
      = some (e, cerr ++ [Msg.targetWrongSize target.length back]) := by
  obtain ⟨back, hback⟩ : ∃ back, e.layer_counts.getLast? = some back := by
    rw [List.getLast?_eq_getElem?]
    exact getElem?_some_of_lt _ _ (by have := hinv.three; omega)
  have hne : ((target.length : Nat) : Int) ≠ back := by
    intro h
    rw [hback, ← h] at ht
    exact ht rfl
  refine ⟨back, ?_⟩
  unfold back_propagation
  simp only [hback, Option.some_bind, ne_eq, hne, not_false_eq_true, if_true]

/-- C12: on an engine satisfying the structural invariants, `feed_forward` with an input whose
length is not the size of layer 0 and `back_propagation` with a target whose length is not the
size of the output layer report the error and return the engine as it was: every buffer, every
weight and all other state are those before the call. -/
theorem C12_length_mismatch_is_noop (A : FloatOps F) (e : MLPClassifier F G) (cerr : Cerr)
    (hinv : e.Inv) :
    (∀ input : List F, e.layer_counts[0]? ≠ some (input.length : Int) →
      ∃ rows : Int, feed_forward A input e cerr
        = some (e, cerr ++ [Msg.inputWrongSize input.length rows])) ∧
    (∀ target : List F, e.layer_counts.getLast? ≠ some (target.length : Int) →
      ∃ back : Int, back_propagation A target e cerr
        = some (e, cerr ++ [Msg.targetWrongSize target.length back])) :=
  ⟨fun input hin => feed_forward_mismatch A e cerr input hinv hin,
    fun target ht => back_propagation_mismatch A e cerr target hinv ht⟩

theorem C12_witness :
    sampleEngine.Inv ∧
    ((∀ input : List Rat, sampleEngine.layer_counts[0]? ≠ some (input.length : Int) →
      ∃ rows : Int, feed_forward ratOps input sampleEngine []
        = some (sampleEngine, [] ++ [Msg.inputWrongSize input.length rows])) ∧
    (∀ target : List Rat, sampleEngine.layer_counts.getLast? ≠ some (target.length : Int) →
      ∃ back : Int, back_propagation ratOps target sampleEngine []
        = some (sampleEngine, [] ++ [Msg.targetWrongSize target.length back]))) :=
  ⟨by decide, C12_length_mismatch_is_noop ratOps sampleEngine [] (by decide)⟩

/-- On an engine satisfying the structural invariants `feed_forward` returns, for every input,
an engine that satisfies them and has the same layer sizes. -/
theorem feed_forward_inv (A : FloatOps F) (e : MLPClassifier F G) (cerr : Cerr)
    (input : List F) (hinv : e.Inv) :
    ∃ s : St F G, feed_forward A input e cerr = some s ∧ s.1.Inv ∧
      s.1.layer_counts = e.layer_counts := by
  by_cases hin : e.layer_counts[0]? = some (input.length : Int)
  · have hshape := forward_shape A e.beta e.weights _
      (hinv.fits.of_shape (set_input_shape hinv input hin)) e.weights.length
    exact ⟨_, feed_forward_eq A e cerr input hinv hin,
      hinv.with_layers _ (by rw [hshape, set_input_shape hinv input hin]), rfl⟩
  · obtain ⟨rows, hff⟩ := feed_forward_mismatch A e cerr input hinv hin
    exact ⟨_, hff, hinv, rfl⟩

theorem back_propagation_total (A : FloatOps F) (e : MLPClassifier F G) (cerr : Cerr)
    (target : List F) (hinv : e.Inv) :
    ∃ s : St F G, back_propagation A target e cerr = some s := by
  by_cases ht : e.layer_counts.getLast? = some (target.length : Int)
  · exact ⟨_, back_propagation_eq A e cerr target hinv ht⟩
  · obtain ⟨back, hbp⟩ := back_propagation_mismatch A e cerr target hinv ht
    exact ⟨_, hbp⟩

/-- C13: for every engine state, input and target, `train` is `feed_forward` followed by
`back_propagation` on the state that `feed_forward` leaves: it returns exactly the states that
this sequence returns, and does not return when either call does not. On an engine satisfying
the structural invariants both calls return, so `train` returns the state of the sequence. -/
theorem C13_train_is_feed_forward_then_back_propagation (A : FloatOps F) (input target : List F)
    (e : MLPClassifier F G) (cerr : Cerr) :
    (∀ s : St F G, feed_forward A input e cerr = some s →
      train A input target e cerr = back_propagation A target s.1 s.2) ∧
    (feed_forward A input e cerr = none → train A input target e cerr = none) ∧
    (∀ s2 : St F G, train A input target e cerr = some s2 ↔
      ∃ s1 : St F G, feed_forward A input e cerr = some s1 ∧
        back_propagation A target s1.1 s1.2 = some s2) ∧
    (e.Inv → ∃ s1 s2 : St F G, feed_forward A input e cerr = some s1 ∧
      back_propagation A target s1.1 s1.2 = some s2 ∧
      train A input target e cerr = some s2) := by
  refine ⟨?_, ?_, ?_, ?_⟩
  · intro s hs
    simp only [train, hs, Option.some_bind]
  · intro hn
    simp only [train, hn, Option.none_bind]
  · intro s2
    simp only [train, Option.bind_eq_some]
  · intro hinv
    obtain ⟨s1, h1, hinv1, _⟩ := feed_forward_inv A e cerr input hinv
    obtain ⟨s2, h2⟩ := back_propagation_total A s1.1 s1.2 target hinv1
    exact ⟨s1, s2, h1, h2, by simp only [train, h1, Option.some_bind, h2]⟩

theorem C13_witness :
    sampleEngine.Inv ∧
    ∃ s1 s2 : St Rat Nat, feed_forward ratOps [3, 4] sampleEngine [] = some s1 ∧
      back_propagation ratOps [1] s1.1 s1.2 = some s2 ∧
      train ratOps [3, 4] [1] sampleEngine [] = some s2 :=
  ⟨by decide,
    (C13_train_is_feed_forward_then_back_propagation ratOps [3, 4] [1] sampleEngine []).2.2.2
      (by decide)⟩

end MLPClassifier

end classifiers

namespace classifiers

namespace MLPClassifier

variable {F G D : Type}

/-- C14: on an engine satisfying the structural invariants, for every input and every prior
content of `output`, `classify` leaves the engine (and `std::cerr`) as `feed_forward` leaves
them and makes `output` the final layer's activation buffer of that state: its length is the
size of the output layer, its element `k` is activation `k` of the final layer, and it is the
same whatever `output` held. -/
theorem C14_classify_returns_final_activations (A : FloatOps F) (e : MLPClassifier F G)
    (cerr : Cerr) (input : List F) (hinv : e.Inv) :
    ∃ (s : St F G) (out : List F), feed_forward A input e cerr = some s ∧
      s.1.layers.getLast? = some out ∧
      out.length = e.sizeAt (e.layer_counts.length - 1) ∧
      (∀ k : Nat, k < out.length →
        out[k]? = some (activationAt A s.1 (e.layer_counts.length - 1) k)) ∧
      ∀ output : List F, classify A input output e cerr = some (s, out) := by
  obtain ⟨s, hs, hinv1, hcounts⟩ := feed_forward_inv A e cerr input hinv
  have h3 := hinv.three
  have hll := hinv1.layers_length
  rw [hcounts] at hll
  obtain ⟨out, hout⟩ := getElem?_some_of_lt s.1.layers (e.layer_counts.length - 1)
    (by omega)
  have hlast : s.1.layers.getLast? = some out := by
    rw [List.getLast?_eq_getElem?, hll, hout]
  refine ⟨s, out, hs, hlast, ?_, ?_, ?_⟩
  · have h1 := hinv1.sizeAt_layer _ out hout
    rw [← h1]
    simp only [sizeAt, hcounts]
  · intro k hk
    rw [activationAt_of_get A s.1 _ k out hout]
    exact getElem?_entry A out k hk
  · intro output
    simp only [classify, hs, Option.some_bind, get_output_layer_eq A s.1 output out hlast,
      Option.map_some']

theorem C14_witness :
    sampleEngine.Inv ∧
    ∃ (s : St Rat Nat) (out : List Rat), feed_forward ratOps [3, 4] sampleEngine [] = some s ∧
      s.1.layers.getLast? = some out ∧
      out.length = sampleEngine.sizeAt (sampleEngine.layer_counts.length - 1) ∧
      (∀ k : Nat, k < out.length →
        out[k]? = some (activationAt ratOps s.1 (sampleEngine.layer_counts.length - 1) k)) ∧
      ∀ output : List Rat, classify ratOps [3, 4] output sampleEngine [] = some (s, out) :=
  ⟨by decide,
    C14_classify_returns_final_activations ratOps sampleEngine [] [3, 4] (by decide)⟩

/-- C15: for every engine state and every token stream whose first token is not `nn`, or whose
first token is `nn` and whose second token is a number less than 3, `read` reports the error
and returns the engine as it was. -/
theorem C15_read_rejects_without_change (A : FloatOps F) (C : Codec F) (e : MLPClassifier F G)
    (cerr : Cerr) (toks : List String)
    (h : (∃ (t : String) (ts : List String), toks = t :: ts ∧ t ≠ "nn") ∨
      (∃ (t : String) (ts : List String) (n : Int),
        toks = "nn" :: t :: ts ∧ C.readInt t = some n ∧ n < 3)) :
    ∃ (rest : IStream) (msg : Msg),
      read A C { toks := toks, failed := false } e cerr = some (e, rest, cerr ++ [msg]) := by
  rcases h with ⟨t, ts, rfl, hne⟩ | ⟨t, ts, n, rfl, hn, hlt⟩
  · refine ⟨{ toks := ts, failed := false }, Msg.notNeuralNetwork, ?_⟩
    unfold read
    simp only [IStream.getString, Bool.false_eq_true, if_false, ne_eq, hne, not_false_eq_true,
      if_true]
  · refine ⟨{ toks := ts, failed := false }, Msg.noHiddenLayers, ?_⟩
    unfold read
    simp only [IStream.getString, Bool.false_eq_true, if_false, ne_eq, not_true_eq_false,
      IStream.getInt_cons C t ts n 0 hn, hlt, if_true]

theorem C15_witness :
    ((∃ (t : String) (ts : List String), ["xx", "3"] = t :: ts ∧ t ≠ "nn") ∨
      (∃ (t : String) (ts : List String) (n : Int),
        ["xx", "3"] = "nn" :: t :: ts ∧ sampleCodec.readInt t = some n ∧ n < 3)) ∧
    ∃ (rest : IStream) (msg : Msg),
      read ratOps sampleCodec { toks := ["xx", "3"], failed := false } sampleEngine []
        = some (sampleEngine, rest, [] ++ [msg]) :=
  ⟨Or.inl ⟨"xx", ["3"], rfl, by decide⟩,
    C15_read_rejects_without_change ratOps sampleCodec sampleEngine [] ["xx", "3"]
      (Or.inl ⟨"xx", ["3"], rfl, by decide⟩)⟩

theorem layer_size_neg (e : MLPClassifier F G) (l : Int) (cerr : Cerr) (hl : l < 0)  :
    e.layer_size l cerr = none := by
  have h : ¬ l ≥ (e.layer_counts.length : Int) := by omega
  simp only [layer_size, h, if_false, vget_neg _ _ hl, Option.map_none']

theorem layer_size_ge (e : MLPClassifier F G) (l : Int) (cerr : Cerr)
    (hl : e.num_layers ≤ l) :
    e.layer_size l cerr
      = some (0, cerr ++ [Msg.layerDoesNotExist l e.layer_counts.length]) := by
  have h : l ≥ (e.layer_counts.length : Int) := hl
  simp only [layer_size, h, if_true]

theorem layer_size_inRange (e : MLPClassifier F G) (l : Nat) (cerr : Cerr)
    (hl : l < e.layer_counts.length) :
    e.layer_size (l : Int) cerr = some (e.layer_counts.get ⟨l, hl⟩, cerr) := by
  have h : ¬ (l : Int) ≥ (e.layer_counts.length : Int) := by omega
  simp only [layer_size, h, if_false, vget_natCast, List.getElem?_eq_getElem hl,
    Option.map_some', List.get_eq_getElem]

/-- C19 fails on the code for negative indices: for every engine and every `l < 0`,
`layer_size(l)` does not return the sentinel but reads `_layer_counts[l]`, outside the vector
(no result in the model). For `l ≥ num_layers()` it reports the error and returns the sentinel
0, and for `0 ≤ l < num_layers()` it returns the size of layer `l`, as the claim says. -/
theorem C19_layer_size_reads_out_of_bounds (e : MLPClassifier F G) (cerr : Cerr) :
    (∀ l : Int, l < 0 → e.layer_size l cerr = none) ∧
    (∀ l : Int, e.num_layers ≤ l →
      e.layer_size l cerr
        = some (0, cerr ++ [Msg.layerDoesNotExist l e.layer_counts.length])) ∧
    (∀ (l : Nat) (hl : l < e.layer_counts.length),
      e.layer_size (l : Int) cerr = some (e.layer_counts.get ⟨l, hl⟩, cerr)) :=
  ⟨fun l hl => layer_size_neg e l cerr hl, fun l hl => layer_size_ge e l cerr hl,
    fun l hl => layer_size_inRange e l cerr hl⟩

end MLPClassifier

namespace WeightLayer

variable {F : Type}

end WeightLayer

end classifiers

namespace classifiers

namespace IStream

variable {F : Type}

end IStream

namespace MLPClassifier

variable {F G : Type}

/-! ## `read` on an arbitrary stream -/

end MLPClassifier

end classifiers

namespace classifiers

namespace IStream

variable {F : Type}

end IStream

namespace MLPClassifier

variable {F G : Type}

end MLPClassifier

end classifiers

namespace classifiers

/-- Row-major order: running through the rows and, within a row, through the columns visits the
positions `j + i * c` in increasing order. -/
theorem flatMap_range_rowMajor {β : Type} (g : Nat → β) (c : Nat) :
    ∀ r : Nat, ((List.range r).flatMap fun (i : Nat) =>
        (List.range c).map fun (j : Nat) => g (j + i * c))
      = (List.range (r * c)).map g
  | 0 => by simp
  | r + 1 => by
    rw [List.range_succ, List.flatMap_append, flatMap_range_rowMajor g c r, Nat.succ_mul,
      List.range_add, List.map_append, List.map_map]
    simp [Function.comp_def, Nat.add_comm]

theorem map_eq_range_map {α β : Type} (xs : List α) (f : α → β) (h : Nat → β)
    (hh : ∀ l x, xs[l]? = some x → f x = h l) : xs.map f = (List.range xs.length).map h := by
  apply List.ext_getElem?
  intro l
  by_cases hl : l < xs.length
  · rw [getElem?_range_map h _ _ hl, List.getElem?_map, List.getElem?_eq_getElem hl,
      Option.map_some', hh l _ (List.getElem?_eq_getElem hl)]
  · have hl1 : xs.length ≤ l := not_lt.mp hl
    rw [List.getElem?_eq_none (by simpa using hl1), List.getElem?_eq_none (by simpa using hl1)]

theorem flatMap_eq_range_flatMap {α β : Type} (xs : List α) (f : α → List β)
    (h : Nat → List β) (hh : ∀ l x, xs[l]? = some x → f x = h l) :
    xs.flatMap f = (List.range xs.length).flatMap h := by
  rw [List.flatMap_def, List.flatMap_def, map_eq_range_map xs f h hh]

namespace WeightLayer

variable {F : Type}

/-- The cells of a matrix in storage order are its cells in row-major order. -/
theorem weights_rowMajor (A : FloatOps F) {β : Type} (f : F → β) {w : WeightLayer F}
    (h : w.WF) :
    w.weights.map f
      = (List.range w.rows.toNat).flatMap fun (i : Nat) =>
          (List.range w.cols.toNat).map fun (j : Nat) => f (w.value A i j) := by
  have hlen : w.weights.length = w.rows.toNat * w.cols.toNat := by
    obtain ⟨hr, hc, hl⟩ := h
    obtain ⟨r, hr1⟩ := Int.eq_ofNat_of_zero_le hr
    obtain ⟨c, hc1⟩ := Int.eq_ofNat_of_zero_le hc
    rw [hr1, hc1] at hl
    rw [hr1, hc1, Int.toNat_ofNat, Int.toNat_ofNat]
    exact_mod_cast hl
  have hcells : ((List.range w.rows.toNat).flatMap fun (i : Nat) =>
        (List.range w.cols.toNat).map fun (j : Nat) => f (w.value A i j))
      = (List.range w.rows.toNat).flatMap fun (i : Nat) =>
        (List.range w.cols.toNat).map fun (j : Nat) =>
          f (entry A w.weights (j + i * w.cols.toNat)) := by
    rw [List.flatMap_def, List.flatMap_def]
    congr 1
    apply List.map_congr_left
    intro i hi
    apply List.map_congr_left
    intro j hj
    rw [List.mem_range] at hi hj
    rw [value_eq_entry A h i j (by omega) (by omega)]
  rw [hcells, flatMap_range_rowMajor (fun k => f (entry A w.weights k)), ← hlen]
  exact map_eq_range_map _ _ _ (fun l x hx => by simp [entry, hx])

end WeightLayer

namespace MLPClassifier

variable {F G : Type}

theorem Inv.counts_eq {e : MLPClassifier F G} (h : e.Inv) :
    e.layer_counts
      = (List.range e.layer_counts.length).map (fun (l : Nat) => (e.sizeAt l : Int)) := by
  have h1 := map_eq_range_map e.layer_counts (fun n => n) (fun (l : Nat) => (e.sizeAt l : Int))
    (fun l n hn => by
      show n = ((e.sizeAt l : Nat) : Int)
      rw [sizeAt_of_get e l n hn,
        Int.toNat_of_nonneg (h.counts_nonneg n (List.mem_iff_getElem?.mpr ⟨l, hn⟩))])
  rwa [List.map_id'] at h1

/-- The tokens that `write` prints are the positional format of the specification. -/
theorem tokens_eq_formatTokens (A : FloatOps F) (C : Codec F) {e : MLPClassifier F G}
    (h : e.Inv) : e.tokens C = e.formatTokens A C := by
  have hs : e.layer_counts.map C.showInt
      = (List.range e.layer_counts.length).map (fun (l : Nat) => C.showInt (e.sizeAt l)) := by
    conv_lhs => rw [h.counts_eq]
    rw [List.map_map]
    rfl
  have hwl : e.weights.length = e.layer_counts.length - 1 := by
    have := h.weights_length
    omega
  have hw : e.weights.flatMap (cellTokens C)
      = (List.range (e.layer_counts.length - 1)).flatMap fun (l : Nat) =>
        (List.range (e.sizeAt l)).flatMap fun (i : Nat) =>
          (List.range (e.sizeAt (l + 1))).map fun (j : Nat) =>
            C.showFloat (e.weightAt A l i j) := by
    rw [← hwl]
    apply flatMap_eq_range_flatMap
    intro l w hw
    obtain ⟨w1, hw1, hwf, hr, hc⟩ := h.weight_at l (h.weight_lt l w hw)
    rw [hw, Option.some.injEq] at hw1
    subst hw1
    rw [sizeAt_of_get e l _ hr, sizeAt_of_get e (l + 1) _ hc, cellTokens,
      WeightLayer.weights_rowMajor A C.showFloat hwf]
    simp only [weightAt_of_get A e l _ _ w hw]
  rw [tokens, formatTokens, hs, hw]
  rfl

theorem formatTokens_length (A : FloatOps F) (C : Codec F) (e : MLPClassifier F G) :
    (e.formatTokens A C).length = e.formatLength := by
  have hin : ∀ l : Nat, ((List.range (e.sizeAt l)).flatMap fun (i : Nat) =>
      (List.range (e.sizeAt (l + 1))).map fun (j : Nat) =>
        C.showFloat (e.weightAt A l i j)).length = e.sizeAt l * e.sizeAt (l + 1) := by
    intro l
    simp [List.length_flatMap, Function.comp_def]
  unfold formatTokens formatLength
  rw [List.length_append, List.length_append, List.length_flatMap]
  simp only [Function.comp_def, hin, List.length_cons, List.length_nil, List.length_map,
    List.length_range]

end MLPClassifier

end classifiers

namespace classifiers

namespace MLPClassifier

variable {F G : Type}

/-- C18: for every engine satisfying the structural invariants, `write` returns and appends to
the stream exactly the positional format: the tag `nn`, the layer count `N`, the learning rate,
beta, the `N` layer sizes in order, then for `l = 0 .. N-2` in order the weights of matrix `l`
in row-major order; these are `4 + N` tokens plus `size[l] * size[l+1]` for every matrix, and
nothing is reported on `std::cerr`. -/
theorem C18_write_emits_positional_format (A : FloatOps F) (C : Codec F)
    (e : MLPClassifier F G) (stream : List String) (cerr : Cerr) (hinv : e.Inv) :
    write A C e stream cerr = some (stream ++ e.formatTokens A C, cerr) ∧
    (e.formatTokens A C).length
      = 4 + e.layer_counts.length
        + ((List.range (e.layer_counts.length - 1)).map
            fun (l : Nat) => e.sizeAt l * e.sizeAt (l + 1)).sum ∧
    (∀ l : Nat, l < e.layer_counts.length →
      e.layer_size l cerr = some ((e.sizeAt l : Int), cerr)) := by
  refine ⟨?_, formatTokens_length A C e, ?_⟩
  · rw [write_eq A C e stream cerr hinv, tokens_eq_formatTokens A C hinv]
  · intro l hl
    have hn : e.layer_counts[l]? = some (e.layer_counts.get ⟨l, hl⟩) :=
      List.getElem?_eq_getElem hl
    rw [layer_size_inRange e l cerr hl, sizeAt_of_get e l _ hn,
      Int.toNat_of_nonneg (hinv.counts_nonneg _ (List.get_mem _ _ _))]

theorem C18_witness :
    ({ sampleEngine with learning_rate := mkRat 1 2 } : MLPClassifier Rat Nat).Inv ∧
    write ratOps sampleCodec { sampleEngine with learning_rate := mkRat 1 2 } [] []
      = some (["nn", "3", "1/2", "1/1", "2", "2", "1", "1/1", "2/1", "3/1", "4/1", "1/1",
          "-1/1"], []) :=
  ⟨by decide,
    (C18_write_emits_positional_format ratOps sampleCodec
      { sampleEngine with learning_rate := mkRat 1 2 } [] [] (by decide)).1.trans
      (by decide)⟩

end MLPClassifier

end classifiers

namespace classifiers

/-- Row-major positions of distinct cells are distinct. -/
theorem rowMajor_inj (c i j i1 j1 : Nat) (hj : j < c) (hj1 : j1 < c)
    (h : j + i * c = j1 + i1 * c) : i = i1 ∧ j = j1 := by
  have hc : 0 < c := by omega
  have hd : (j + i * c) / c = (j1 + i1 * c) / c := by rw [h]
  have hm : (j + i * c) % c = (j1 + i1 * c) % c := by rw [h]
  rw [Nat.add_mul_div_right _ _ hc, Nat.add_mul_div_right _ _ hc, Nat.div_eq_of_lt hj,
    Nat.div_eq_of_lt hj1, Nat.zero_add, Nat.zero_add] at hd
  rw [Nat.add_mul_mod_self_right, Nat.add_mul_mod_self_right, Nat.mod_eq_of_lt hj,
    Nat.mod_eq_of_lt hj1] at hm
  exact ⟨hd, hm⟩

theorem entry_set_same {F : Type} (A : FloatOps F) (v : List F) (p : Nat) (x : F)
    (hp : p < v.length) : entry A (v.set p x) p = x := by
  simp [entry, List.getElem?_set, hp]

theorem entry_set_ne {F : Type} (A : FloatOps F) (v : List F) (p q : Nat) (x : F)
    (hne : p ≠ q) : entry A (v.set p x) q = entry A v q := by
  rw [entry, entry, set_row_get_ne _ _ _ _ hne]

namespace WeightLayer

variable {F : Type}

/-- A matrix that holds `rows * cols` cells and has an in-range cell satisfies the class
invariant. -/
theorem wf_of_inRange {w : WeightLayer F}
    (hlen : (w.weights.length : Int) = w.rows * w.cols) (i j : Int) (hi0 : 0 ≤ i)
    (hi : i < w.rows) (hj0 : 0 ≤ j) (hj : j < w.cols) : w.WF :=
  ⟨by omega, by omega, hlen⟩

theorem set_cell_wf {w : WeightLayer F} (h : w.WF) (p : Nat) (v : F) :
    ({ w with weights := w.weights.set p v } : WeightLayer F).WF := by
  refine ⟨h.1, h.2.1, ?_⟩
  show (((w.weights.set p v).length : Nat) : Int) = w.rows * w.cols
  rw [List.length_set]
  exact h.2.2

theorem set_value_outOfRange (w : WeightLayer F) (i j : Int) (v : F) (cerr : Cerr)
    (h : i < 0 ∨ j < 0 ∨ i ≥ w.rows ∨ j ≥ w.cols) :
    w.set_value i j v cerr = some (w, cerr ++ [Msg.outOfBoundsSet i j]) := by
  unfold set_value
  rw [if_pos h]

theorem get_value_outOfRange (A : FloatOps F) (w : WeightLayer F) (i j : Int) (cerr : Cerr)
    (h : i < 0 ∨ j < 0 ∨ i ≥ w.rows ∨ j ≥ w.cols) :
    w.get_value A i j cerr = some (A.zero, cerr ++ [Msg.outOfBoundsGet i j]) := by
  unfold get_value
  rw [if_pos h]

end WeightLayer

namespace MLPClassifier

variable {F G : Type}

/-- The third loop of `back_propagation` keeps the dimensions of the matrices and the class
invariant. -/
theorem update_dims (A : FloatOps F) (lr : F) (L E : List (List F)) (n : Nat) :
    ∀ ws : List (WeightLayer F),
      (update A lr L E n ws).map (fun w => (w.rows, w.cols))
          = ws.map (fun w => (w.rows, w.cols)) ∧
        ((∀ w ∈ ws, w.WF) → ∀ w ∈ update A lr L E n ws, w.WF) := by
  induction n with
  | zero => intro ws; exact ⟨rfl, fun h => h⟩
  | succ n ih =>
    intro ws
    rw [update]
    cases hw : ws[n]? with
    | none => exact ih ws
    | some w =>
      cases ha : L[n]? with
      | none => exact ih ws
      | some a =>
        cases hd : E[n]? with
        | none => exact ih ws
        | some d =>
          simp only []
          obtain ⟨h1, h2⟩ := ih (ws.set n (updatedWeights A lr w a d))
          refine ⟨?_, ?_⟩
          · rw [h1, List.map_set]
            apply set_same
            rw [List.getElem?_map, hw, Option.map_some']
            rfl
          · intro hwf
            apply h2
            intro u hu
            rcases List.mem_or_eq_of_mem_set hu with hu | rfl
            · exact hwf u hu
            · exact updatedWeights_wf A lr w a d
                (hwf w (List.mem_iff_getElem?.mpr ⟨n, hw⟩))

/-- Error buffers that fit the same activation buffers have the same lengths. -/
theorem FitsE.shape_eq {L E E1 : List (List F)} (h : FitsE L E) (h1 : FitsE L E1) :
    E1.map List.length = E.map List.length := by
  apply List.ext_getElem?
  intro i
  rw [List.getElem?_map, List.getElem?_map]
  by_cases hi : i < E.length
  · have hi1 : i < E1.length := by have := h.1; have := h1.1; omega
    obtain ⟨d, hd⟩ := getElem?_some_of_lt E i hi
    obtain ⟨d1, hd1⟩ := getElem?_some_of_lt E1 i hi1
    obtain ⟨b, hb⟩ := getElem?_some_of_lt L (i + 1) (by have := h.1; omega)
    rw [hd, hd1, Option.map_some', Option.map_some', h.2 i d b hd hb, h1.2 i d1 b hd1 hb]
  · have hE : E.length ≤ i := not_lt.mp hi
    have hE1 : E1.length ≤ i := by have := h.1; have := h1.1; omega
    rw [List.getElem?_eq_none hE, List.getElem?_eq_none hE1]

/-- The second loop of `back_propagation` overwrites the buffers below `n`: its result depends
on the buffers from `n` on only. -/
theorem backward_indep (A : FloatOps F) (ws : List (WeightLayer F)) (L : List (List F))
    (n : Nat) :
    ∀ E E1 : List (List F), E.length = E1.length → n < ws.length → n < L.length →
      n < E.length → (∀ i, n ≤ i → E[i]? = E1[i]?) →
      backward A ws L n E = backward A ws L n E1 := by
  induction n with
  | zero =>
    intro E E1 _ _ _ _ h
    exact List.ext_getElem? (fun i => h i (Nat.zero_le i))
  | succ n ih =>
    intro E E1 hlen hws hL hE h
    obtain ⟨w, hw⟩ := getElem?_some_of_lt ws (n + 1) hws
    obtain ⟨a, ha⟩ := getElem?_some_of_lt L (n + 1) hL
    obtain ⟨d, hd⟩ := getElem?_some_of_lt E (n + 1) hE
    have hd1 : E1[n + 1]? = some d := by rw [← h (n + 1) (le_refl _)]; exact hd
    rw [backward, backward, hw, ha, hd, hd1]
    simp only []
    apply ih
    · rw [List.length_set, List.length_set]; exact hlen
    · omega
    · omega
    · rw [List.length_set]; omega
    · intro i hi
      by_cases hin : n = i
      · subst hin
        rw [set_row_get _ _ _ (by omega), set_row_get _ _ _ (by omega)]
      · rw [set_row_get_ne _ _ _ _ hin, set_row_get_ne _ _ _ _ hin]
        exact h i (by omega)

/-- The error buffers that `back_propagation` leaves do not depend on the error buffers it
finds. -/
theorem newErrors_indep (A : FloatOps F) (target : List F) (e e1 : MLPClassifier F G)
    (hinv : e.Inv) (hinv1 : e1.Inv) (hw : e1.weights = e.weights) (hl : e1.layers = e.layers)
    (hc : e1.layer_counts = e.layer_counts) :
    e1.newErrors A target = e.newErrors A target := by
  have h3 := hinv.three
  have hwl := hinv.weights_length
  have hll := hinv.layers_length
  have hel := hinv.errors_length
  have hel1 := hinv1.errors_length
  rw [hc] at hel1
  unfold newErrors
  rw [hw, hl]
  apply backward_indep
  · rw [List.length_set, List.length_set]; omega
  · omega
  · omega
  · rw [List.length_set]; omega
  · intro i hi
    by_cases hin : e.weights.length - 1 = i
    · subst hin
      rw [set_row_get _ _ _ (by omega), set_row_get _ _ _ (by omega)]
    · rw [set_row_get_ne _ _ _ _ hin, set_row_get_ne _ _ _ _ hin,
        List.getElem?_eq_none (by omega), List.getElem?_eq_none (by omega)]

end MLPClassifier

end classifiers

namespace classifiers

namespace MLPClassifier

variable {F G : Type}

theorem SameTopology.same (e : MLPClassifier F G) : SameTopology e e :=
  ⟨rfl, rfl, rfl, rfl, rfl, rfl⟩

theorem SameTopology.andThen {e m n : MLPClassifier F G} (h : SameTopology e m)
    (h1 : SameTopology m n) : SameTopology e n :=
  ⟨h1.1.trans h.1, h1.2.1.trans h.2.1, h1.2.2.1.trans h.2.2.1, h1.2.2.2.1.trans h.2.2.2.1,
    h1.2.2.2.2.1.trans h.2.2.2.2.1, h1.2.2.2.2.2.trans h.2.2.2.2.2⟩

/-- The effect of `feed_forward` on an engine satisfying the structural invariants: it returns,
and only the contents of the activation buffers differ afterwards. -/
theorem feed_forward_frame (A : FloatOps F) (e : MLPClassifier F G) (cerr : Cerr)
    (input : List F) (hinv : e.Inv) :
    ∃ (L : List (List F)) (c : Cerr),
      feed_forward A input e cerr = some ({ e with layers := L }, c) ∧
      L.map List.length = e.layers.map List.length := by
  by_cases hin : e.layer_counts[0]? = some (input.length : Int)
  · refine ⟨_, cerr, feed_forward_eq A e cerr input hinv hin, ?_⟩
    rw [forward_shape A e.beta e.weights _
      (hinv.fits.of_shape (set_input_shape hinv input hin)) e.weights.length,
      set_input_shape hinv input hin]
  · obtain ⟨rows, hff⟩ := feed_forward_mismatch A e cerr input hinv hin
    exact ⟨e.layers, _, hff, rfl⟩

/-- The effect of `back_propagation` on an engine satisfying the structural invariants: it
returns, and only the contents of the error buffers and of the matrices differ afterwards. -/
theorem back_propagation_frame (A : FloatOps F) (e : MLPClassifier F G) (cerr : Cerr)
    (target : List F) (hinv : e.Inv) :
    ∃ (E : List (List F)) (W : List (WeightLayer F)) (c : Cerr),
      back_propagation A target e cerr = some ({ e with errors := E, weights := W }, c) ∧
      E.map List.length = e.errors.map List.length ∧
      W.map (fun w => (w.rows, w.cols)) = e.weights.map (fun w => (w.rows, w.cols)) ∧
      ∀ w ∈ W, w.WF := by
  by_cases ht : e.layer_counts.getLast? = some (target.length : Int)
  · obtain ⟨hd, hwf⟩ := update_dims A e.learning_rate e.layers (e.newErrors A target)
      e.weights.length e.weights
    exact ⟨_, _, cerr, back_propagation_eq A e cerr target hinv ht,
      hinv.fitsE.shape_eq (newErrors_fitsE A e target hinv), hd, hwf hinv.2.2.1⟩
  · obtain ⟨back, hbp⟩ := back_propagation_mismatch A e cerr target hinv ht
    exact ⟨e.errors, e.weights, _, hbp, rfl, rfl, hinv.2.2.1⟩

theorem Inv.with_back {e : MLPClassifier F G} (h : e.Inv) (E : List (List F))
    (W : List (WeightLayer F)) (hE : E.map List.length = e.errors.map List.length)
    (hW : W.map (fun w => (w.rows, w.cols)) = e.weights.map (fun w => (w.rows, w.cols)))
    (hwf : ∀ w ∈ W, w.WF) :
    ({ e with errors := E, weights := W } : MLPClassifier F G).Inv :=
  ⟨h.1, hW.trans h.2.1, hwf, h.2.2.2.1, by
    show E.map (fun b => (b.length : Int)) = e.layer_counts.tail
    rw [map_intLength_eq _ _ hE]; exact h.2.2.2.2⟩

/-- The cells of the matrices that `back_propagation` leaves: each weight moved by the learning
rate times the new error value of its destination neuron times the activation of its source
neuron. -/
theorem newWeights_cell (A : FloatOps F) (e : MLPClassifier F G) (target : List F)
    (hinv : e.Inv) (l j k : Nat) (hl : l + 1 < e.layer_counts.length) (hj : j < e.sizeAt l)
    (hk : k < e.sizeAt (l + 1)) :
    weightAt A { e with errors := e.newErrors A target, weights := e.newWeights A target } l j k
      = A.add (weightAt A e l j k)
          (A.mul (A.mul e.learning_rate
            (errorAt A { e with errors := e.newErrors A target,
                                weights := e.newWeights A target } (l + 1) k))
            (activationAt A e l j)) := by
  have hwl := hinv.weights_length
  have hll := hinv.layers_length
  have hel := hinv.errors_length
  have hE := (newErrors_fitsE A e target hinv).1
  obtain ⟨w, a, d, hw, ha, hd, hu⟩ := update_get_lt A e.learning_rate e.layers
    (e.newErrors A target) e.weights.length l (by omega) e.weights (le_refl _) (by omega)
    (by omega)
  obtain ⟨w1, hw1, hwf, hr, hc⟩ := hinv.weight_at l hl
  rw [hw, Option.some.injEq] at hw1
  subst hw1
  have hji : (j : Int) < w.rows := by
    have := sizeAt_of_get e l _ hr
    omega
  have hki : (k : Int) < w.cols := by
    have := sizeAt_of_get e (l + 1) _ hc
    omega
  rw [weightAt_of_get A _ l j k _ hu, weightAt_of_get A e l j k w hw,
    errorAt_of_get A _ l k d hd, activationAt_of_get A e l j a ha,
    updatedWeights_value A e.learning_rate w a d hwf j k hji hki]

end MLPClassifier

end classifiers

namespace classifiers

namespace WeightLayer

variable {F : Type}

/-- C21: for every matrix holding `rows * cols` cells, every in-range cell `(i, j)` and every
value `v`, `set_value(i, j, v)` returns without printing, keeps the row count, the column count
and the number of cells, and afterwards `get_value(i, j)` returns `v` while `get_value` at every
other in-range cell returns what it returned before the call. -/
theorem C21_set_value_then_get_value (A : FloatOps F) (w : WeightLayer F) (i j : Int) (v : F)
    (cerr : Cerr) (hlen : (w.weights.length : Int) = w.rows * w.cols) (hi0 : 0 ≤ i)
    (hi : i < w.rows) (hj0 : 0 ≤ j) (hj : j < w.cols) :
    ∃ w1 : WeightLayer F, w.set_value i j v cerr = some (w1, cerr) ∧
      w1.get_rows = w.get_rows ∧ w1.get_cols = w.get_cols ∧
      (w1.weights.length : Int) = w1.rows * w1.cols ∧
      (∀ c : Cerr, w1.get_value A i j c = some (v, c)) ∧
      ∀ (i1 j1 : Int) (c : Cerr), 0 ≤ i1 → i1 < w.rows → 0 ≤ j1 → j1 < w.cols →
        (i1, j1) ≠ (i, j) →
        ∃ x : F, w.get_value A i1 j1 c = some (x, c) ∧ w1.get_value A i1 j1 c = some (x, c) := by
  have hwf : w.WF := wf_of_inRange hlen i j hi0 hi hj0 hj
  obtain ⟨i, rfl⟩ := Int.eq_ofNat_of_zero_le hi0
  obtain ⟨j, rfl⟩ := Int.eq_ofNat_of_zero_le hj0
  have hwf1 := set_cell_wf hwf (j + i * w.cols.toNat) v
  obtain ⟨hp, _⟩ := hwf.index i j hi hj
  refine ⟨_, set_value_wf hwf i j hi hj v cerr, rfl, rfl, hwf1.2.2, ?_, ?_⟩
  · intro c
    rw [get_value_wf A hwf1 i j hi hj c, value_eq_entry A hwf1 i j hi hj]
    exact congrArg (fun x => some (x, c)) (entry_set_same A w.weights _ v hp)
  · intro i1 j1 c hi10 hi1 hj10 hj1 hne
    obtain ⟨i1, rfl⟩ := Int.eq_ofNat_of_zero_le hi10
    obtain ⟨j1, rfl⟩ := Int.eq_ofNat_of_zero_le hj10
    have hpos : j + i * w.cols.toNat ≠ j1 + i1 * w.cols.toNat := by
      intro h
      obtain ⟨h1, h2⟩ := rowMajor_inj w.cols.toNat i j i1 j1 (by omega) (by omega) h
      exact hne (by rw [h1, h2])
    refine ⟨w.value A i1 j1, get_value_wf A hwf i1 j1 hi1 hj1 c, ?_⟩
    rw [get_value_wf A hwf1 i1 j1 hi1 hj1 c, value_eq_entry A hwf1 i1 j1 hi1 hj1,
      value_eq_entry A hwf i1 j1 hi1 hj1]
    exact congrArg (fun x => some (x, c)) (entry_set_ne A w.weights _ _ v hpos)

theorem C21_witness :
    ∃ w1 : WeightLayer Rat,
      ({ weights := [1, 2, 3, 4, 5, 6], rows := 2, cols := 3 } : WeightLayer Rat).set_value
        1 2 9 [] = some (w1, []) ∧
      w1.weights = [1, 2, 3, 4, 5, 9] ∧ w1.get_value ratOps 1 2 [] = some (9, []) ∧
      w1.get_value ratOps 0 2 [] = some (3, []) := by
  obtain ⟨w1, h1, _, _, _, h5, _⟩ := C21_set_value_then_get_value ratOps
    ({ weights := [1, 2, 3, 4, 5, 6], rows := 2, cols := 3 } : WeightLayer Rat) 1 2 9 []
    (by decide) (by decide) (by decide) (by decide) (by decide)
  have h : ({ weights := [1, 2, 3, 4, 5, 6], rows := 2, cols := 3 } : WeightLayer Rat).set_value
      1 2 9 [] = some ({ weights := [1, 2, 3, 4, 5, 9], rows := 2, cols := 3 }, []) := by
    decide
  have hw : w1 = { weights := [1, 2, 3, 4, 5, 9], rows := 2, cols := 3 } := by
    rw [h] at h1
    exact (congrArg Prod.fst (Option.some.inj h1)).symm
  subst hw
  exact ⟨_, h, rfl, h5 [], by decide⟩

/-- C22: for every matrix, every value and every index pair with `i < 0`, `j < 0`,
`i >= rows` or `j >= cols`, `set_value(i, j, v)` reports the error and returns the matrix as it
was: the cells, the row count and the column count are those before the call. -/
theorem C22_set_value_out_of_range_is_noop (w : WeightLayer F) (i j : Int) (v : F)
    (cerr : Cerr) (h : i < 0 ∨ j < 0 ∨ i ≥ w.rows ∨ j ≥ w.cols) :
    w.set_value i j v cerr = some (w, cerr ++ [Msg.outOfBoundsSet i j]) :=
  set_value_outOfRange w i j v cerr h

theorem C22_witness :
    ((2 : Int) < 0 ∨ (0 : Int) < 0 ∨
      (2 : Int) ≥ ({ weights := [1, 2, 3, 4, 5, 6], rows := 2, cols := 3 } : WeightLayer Rat).rows ∨
      (0 : Int) ≥ ({ weights := [1, 2, 3, 4, 5, 6], rows := 2, cols := 3 } : WeightLayer Rat).cols) ∧
    ({ weights := [1, 2, 3, 4, 5, 6], rows := 2, cols := 3 } : WeightLayer Rat).set_value
        2 0 9 []
      = some ({ weights := [1, 2, 3, 4, 5, 6], rows := 2, cols := 3 },
          [] ++ [Msg.outOfBoundsSet 2 0]) :=
  ⟨by decide,
    C22_set_value_out_of_range_is_noop
      ({ weights := [1, 2, 3, 4, 5, 6], rows := 2, cols := 3 } : WeightLayer Rat) 2 0 9 []
      (by decide)⟩

/-- C23: for every matrix and every index pair with `i < 0`, `j < 0`, `i >= rows` or
`j >= cols`, `get_value(i, j)` reports the error and returns 0 whatever the matrix holds; for
every in-range pair of a matrix holding `rows * cols` cells it returns, without printing, the
stored cell at the flat position `j + i * cols`. -/
theorem C23_get_value_sentinel_and_cell (A : FloatOps F) (w : WeightLayer F) (cerr : Cerr) :
    (∀ i j : Int, (i < 0 ∨ j < 0 ∨ i ≥ w.rows ∨ j ≥ w.cols) →
      w.get_value A i j cerr = some (A.zero, cerr ++ [Msg.outOfBoundsGet i j])) ∧
    ((w.weights.length : Int) = w.rows * w.cols →
      ∀ i j : Int, 0 ≤ i → i < w.rows → 0 ≤ j → j < w.cols →
        ∃ x : F, vget w.weights (j + i * w.cols) = some x ∧
          w.get_value A i j cerr = some (x, cerr)) := by
  refine ⟨fun i j h => get_value_outOfRange A w i j cerr h, ?_⟩
  intro hlen i j hi0 hi hj0 hj
  have hwf : w.WF := wf_of_inRange hlen i j hi0 hi hj0 hj
  obtain ⟨i, rfl⟩ := Int.eq_ofNat_of_zero_le hi0
  obtain ⟨j, rfl⟩ := Int.eq_ofNat_of_zero_le hj0
  obtain ⟨hp, heq⟩ := hwf.index i j hi hj
  have hv : vget w.weights ((j : Int) + i * w.cols)
      = some (w.weights.get ⟨j + i * w.cols.toNat, hp⟩) := by
    rw [heq, vget_natCast]
    exact List.getElem?_eq_getElem hp
  refine ⟨_, hv, ?_⟩
  rw [get_value_inRange A w i j hi hj cerr, hv, Option.map_some']

theorem C23_witness :
    ({ weights := [1, 2, 3, 4, 5, 6], rows := 2, cols := 3 } : WeightLayer Rat).get_value
        ratOps (-1) 0 [] = some (0, [] ++ [Msg.outOfBoundsGet (-1) 0]) ∧
    ∃ x : Rat,
      vget ({ weights := [1, 2, 3, 4, 5, 6], rows := 2, cols := 3 } : WeightLayer Rat).weights
        (2 + 1 * 3) = some x ∧
      ({ weights := [1, 2, 3, 4, 5, 6], rows := 2, cols := 3 } : WeightLayer Rat).get_value
        ratOps 1 2 [] = some (x, []) :=
  ⟨(C23_get_value_sentinel_and_cell ratOps
      ({ weights := [1, 2, 3, 4, 5, 6], rows := 2, cols := 3 } : WeightLayer Rat) []).1 (-1) 0
      (by decide),
    (C23_get_value_sentinel_and_cell ratOps
      ({ weights := [1, 2, 3, 4, 5, 6], rows := 2, cols := 3 } : WeightLayer Rat) []).2
      (by decide) 1 2 (by decide) (by decide) (by decide) (by decide)⟩

end WeightLayer

end classifiers

namespace classifiers

namespace MLPClassifier

variable {F G D : Type}

/-- C24 fails on the code for the never-initialized engine: on a freshly constructed engine
`feed_forward` reads `_weights[0]`, `back_propagation` reads `_layer_counts.back()` and
`get_output_layer` reads `_layers.back()` of an empty vector, so these calls, `train` and
`classify` have no result, for every argument. The same holds after an `init` with fewer than
three sizes and after a `read` of an empty stream, both of which are rejected and leave the
engine never initialized. Moreover `init` with a negative layer size has no result on any
engine: the allocation of a vector with a negative element count does not return. -/
theorem C24_uninitialized_engine_indexes_empty_vectors (A : FloatOps F) (tenth : F) (g : G)
    (verbose : Bool) (input target output : List F) (cerr : Cerr) :
    feed_forward A input (construct A tenth g verbose) cerr = none ∧
    back_propagation A target (construct A tenth g verbose) cerr = none ∧
    train A input target (construct A tenth g verbose) cerr = none ∧
    classify A input output (construct A tenth g verbose) cerr = none ∧
    get_output_layer A (construct A tenth g verbose) output = none ∧
    (∀ (draw : G → D × G) (toFloat : D → F) (s : List Int) (lr beta : F), s.length < 3 →
      (init A draw toFloat s lr beta (construct A tenth g verbose) cerr).bind
        (fun st => feed_forward A input st.1 st.2) = none) ∧
    (∀ C : Codec F,
      (read A C { toks := [], failed := false } (construct A tenth g verbose) cerr).bind
        (fun r => classify A input output r.1 r.2.2) = none) ∧
    (∀ (draw : G → D × G) (toFloat : D → F) (s : List Int) (lr beta : F)
      (e : MLPClassifier F G), 3 ≤ s.length → (∃ n ∈ s, n < 0) →
      init A draw toFloat s lr beta e cerr = none) := by
  have hff : ∀ c : Cerr, feed_forward A input (construct A tenth g verbose) c = none :=
    fun _ => rfl
  refine ⟨rfl, rfl, rfl, rfl, rfl, ?_, ?_, ?_⟩
  · intro draw toFloat s lr beta hs
    unfold init
    rw [if_pos hs, Option.some_bind]
    exact hff _
  · intro C
    have hr : read A C { toks := [], failed := false } (construct A tenth g verbose) cerr
        = some (construct A tenth g verbose, { toks := [], failed := true },
            cerr ++ [Msg.notNeuralNetwork]) := rfl
    rw [hr, Option.some_bind]
    show (feed_forward A input (construct A tenth g verbose) _).bind _ = none
    rw [hff, Option.none_bind]
  · intro draw toFloat s lr beta e h3 hneg
    obtain ⟨n, hn, hlt⟩ := hneg
    cases h : init A draw toFloat s lr beta e cerr with
    | none => rfl
    | some t =>
      have := init_some_nonneg A draw toFloat s lr beta e cerr t h3 h n hn
      omega

/-- C25: on an engine satisfying the structural invariants, with an input of the length of
layer 0 and a target of the length of the output layer, `feed_forward`, `back_propagation`
(after `feed_forward`, or directly) and `train` return, so that every index into a buffer is in
bounds, and leave `std::cerr` as it was, so that no `get_value` or `set_value` call took the
out-of-range branch, which prints. -/
theorem C25_sentinel_branch_never_taken (A : FloatOps F) (e : MLPClassifier F G) (cerr : Cerr)
    (input target : List F) (hinv : e.Inv)
    (hin : e.layer_counts[0]? = some (input.length : Int))
    (ht : e.layer_counts.getLast? = some (target.length : Int)) :
    ∃ e1 e2 e3 : MLPClassifier F G,
      feed_forward A input e cerr = some (e1, cerr) ∧
      back_propagation A target e1 cerr = some (e2, cerr) ∧
      back_propagation A target e cerr = some (e3, cerr) ∧
      train A input target e cerr = some (e2, cerr) := by
  have hshape := forward_shape A e.beta e.weights _
    (hinv.fits.of_shape (set_input_shape hinv input hin)) e.weights.length
  have hinv1 : ({ e with
      layers := forward A e.beta e.weights e.weights.length (e.layers.set 0 input) } :
      MLPClassifier F G).Inv :=
    hinv.with_layers _ (by rw [hshape, set_input_shape hinv input hin])
  have hff := feed_forward_eq A e cerr input hinv hin
  have hbp1 := back_propagation_eq A
    { e with layers := forward A e.beta e.weights e.weights.length (e.layers.set 0 input) }
    cerr target hinv1 ht
  refine ⟨_, _, _, hff, hbp1, back_propagation_eq A e cerr target hinv ht, ?_⟩
  simp only [train, hff, Option.some_bind, hbp1]

theorem C25_witness :
    sampleEngine.Inv ∧ sampleEngine.layer_counts[0]? = some (([3, 4] : List Rat).length : Int) ∧
    sampleEngine.layer_counts.getLast? = some (([1] : List Rat).length : Int) ∧
    ∃ e1 e2 e3 : MLPClassifier Rat Nat,
      feed_forward ratOps [3, 4] sampleEngine [] = some (e1, []) ∧
      back_propagation ratOps [1] e1 [] = some (e2, []) ∧
      back_propagation ratOps [1] sampleEngine [] = some (e3, []) ∧
      train ratOps [3, 4] [1] sampleEngine [] = some (e2, []) :=
  ⟨by decide, by decide, by decide,
    C25_sentinel_branch_never_taken ratOps sampleEngine [] [3, 4] [1] (by decide) (by decide)
      (by decide)⟩

/-- C26: on an engine satisfying the structural invariants, for every input and target of any
length, `feed_forward`, `back_propagation`, `train` and `classify` return an engine that
satisfies the invariants and has the same topology: the same layer sizes, as many matrices of
the same dimensions, as many activation and error buffers of the same lengths, the same
learning rate and beta. -/
theorem C26_topology_is_immutable (A : FloatOps F) (e : MLPClassifier F G) (cerr : Cerr)
    (input target output : List F) (hinv : e.Inv) :
    (∃ s : St F G, feed_forward A input e cerr = some s ∧ s.1.Inv ∧ SameTopology e s.1) ∧
    (∃ s : St F G, back_propagation A target e cerr = some s ∧ s.1.Inv ∧
      SameTopology e s.1) ∧
    (∃ s : St F G, train A input target e cerr = some s ∧ s.1.Inv ∧ SameTopology e s.1) ∧
    (∃ (s : St F G) (out : List F), classify A input output e cerr = some (s, out) ∧
      s.1.Inv ∧ SameTopology e s.1) := by
  have hfw : ∀ (m : MLPClassifier F G) (c : Cerr), m.Inv →
      ∃ s : St F G, feed_forward A input m c = some s ∧ s.1.Inv ∧ SameTopology m s.1 := by
    intro m c hm
    obtain ⟨L, c1, hff, hL⟩ := feed_forward_frame A m c input hm
    exact ⟨_, hff, hm.with_layers L hL, rfl, rfl, hL, rfl, rfl, rfl⟩
  have hbw : ∀ (m : MLPClassifier F G) (c : Cerr), m.Inv →
      ∃ s : St F G, back_propagation A target m c = some s ∧ s.1.Inv ∧
        SameTopology m s.1 := by
    intro m c hm
    obtain ⟨E, W, c1, hbp, hE, hW, hwf⟩ := back_propagation_frame A m c target hm
    exact ⟨_, hbp, hm.with_back E W hE hW hwf, rfl, hW, rfl, hE, rfl, rfl⟩
  obtain ⟨s1, h1, hi1, ht1⟩ := hfw e cerr hinv
  refine ⟨⟨s1, h1, hi1, ht1⟩, hbw e cerr hinv, ?_, ?_⟩
  · obtain ⟨s2, h2, hi2, ht2⟩ := hbw s1.1 s1.2 hi1
    exact ⟨s2, by simp only [train, h1, Option.some_bind, h2], hi2, ht1.andThen ht2⟩
  · have hlen : s1.1.layers.length = s1.1.layer_counts.length := hi1.layers_length
    have h3 := hi1.three
    obtain ⟨out, hout⟩ : ∃ out, s1.1.layers.getLast? = some out := by
      rw [List.getLast?_eq_getElem?]
      exact getElem?_some_of_lt _ _ (by omega)
    exact ⟨s1, out, by
      simp only [classify, h1, Option.some_bind, get_output_layer_eq A s1.1 output out hout,
        Option.map_some'], hi1, ht1⟩

theorem C26_witness :
    sampleEngine.Inv ∧
    ((∃ s : St Rat Nat, feed_forward ratOps [3] sampleEngine [] = some s ∧ s.1.Inv ∧
      SameTopology sampleEngine s.1) ∧
    (∃ s : St Rat Nat, back_propagation ratOps [1] sampleEngine [] = some s ∧ s.1.Inv ∧
      SameTopology sampleEngine s.1) ∧
    (∃ s : St Rat Nat, train ratOps [3] [1] sampleEngine [] = some s ∧ s.1.Inv ∧
      SameTopology sampleEngine s.1) ∧
    (∃ (s : St Rat Nat) (out : List Rat),
      classify ratOps [3] [7, 7] sampleEngine [] = some (s, out) ∧
      s.1.Inv ∧ SameTopology sampleEngine s.1)) :=
  ⟨by decide, C26_topology_is_immutable ratOps sampleEngine [] [3] [1] [7, 7] (by decide)⟩

/-- C27: on an engine satisfying the structural invariants, for every input, `feed_forward`
returns, `classify` leaves the same engine, and that engine differs from the one before the
call in its activation buffers only: the matrices with all their cells, the error buffers with
all their entries, the layer sizes, the learning rate and beta are those before the call. -/
theorem C27_feed_forward_changes_only_activations (A : FloatOps F) (e : MLPClassifier F G)
    (cerr : Cerr) (input output : List F) (hinv : e.Inv) :
    ∃ (s : St F G) (out : List F), feed_forward A input e cerr = some s ∧
      classify A input output e cerr = some (s, out) ∧
      s.1.weights = e.weights ∧ s.1.errors = e.errors ∧
      s.1.layer_counts = e.layer_counts ∧ s.1.learning_rate = e.learning_rate ∧
      s.1.beta = e.beta ∧
      (∀ l j k : Nat, weightAt A s.1 l j k = weightAt A e l j k) ∧
      (∀ l k : Nat, errorAt A s.1 l k = errorAt A e l k) := by
  obtain ⟨L, c, hff, hshape⟩ := feed_forward_frame A e cerr input hinv
  have hLlen : L.length = e.layers.length := by
    simpa using congrArg List.length hshape
  have hll := hinv.layers_length
  have h3 := hinv.three
  obtain ⟨out, hout⟩ : ∃ out, L.getLast? = some out := by
    rw [List.getLast?_eq_getElem?]
    exact getElem?_some_of_lt _ _ (by omega)
  refine ⟨({ e with layers := L }, c), out, hff, ?_, rfl, rfl, rfl, rfl, rfl,
    fun _ _ _ => rfl, fun _ _ => rfl⟩
  simp only [classify, hff, Option.some_bind,
    get_output_layer_eq A ({ e with layers := L }) output out hout, Option.map_some']

theorem C27_witness :
    sampleEngine.Inv ∧
    ∃ (s : St Rat Nat) (out : List Rat), feed_forward ratOps [3, 4] sampleEngine [] = some s ∧
      classify ratOps [3, 4] [] sampleEngine [] = some (s, out) ∧
      s.1.weights = sampleEngine.weights ∧ s.1.errors = sampleEngine.errors ∧
      s.1.layer_counts = sampleEngine.layer_counts ∧
      s.1.learning_rate = sampleEngine.learning_rate ∧ s.1.beta = sampleEngine.beta ∧
      (∀ l j k : Nat, weightAt ratOps s.1 l j k = weightAt ratOps sampleEngine l j k) ∧
      (∀ l k : Nat, errorAt ratOps s.1 l k = errorAt ratOps sampleEngine l k) :=
  ⟨by decide,
    C27_feed_forward_changes_only_activations ratOps sampleEngine [] [3, 4] [] (by decide)⟩

end MLPClassifier

end classifiers

namespace classifiers

/-! ## Binary32 arithmetic -/

namespace Binary32

end Binary32

namespace MLPClassifier

variable {F G : Type}

end MLPClassifier

end classifiers

namespace classifiers

namespace MLPClassifier

variable {F G D : Type}

/-- C28: two engines satisfying the structural invariants that agree on layer sizes, weights,
activation buffers, learning rate and beta, whatever their error buffers hold, are left by
`back_propagation` with a target of the length of the output layer with the same weights and
the same error buffers; the activation buffers of each are those before the call. -/
theorem C28_back_propagation_ignores_prior_errors (A : FloatOps F) (e e1 : MLPClassifier F G)
    (cerr cerr1 : Cerr) (target : List F) (hinv : e.Inv) (hinv1 : e1.Inv)
    (hc : e1.layer_counts = e.layer_counts) (hw : e1.weights = e.weights)
    (hl : e1.layers = e.layers) (hlr : e1.learning_rate = e.learning_rate)
    (_hb : e1.beta = e.beta) (ht : e.layer_counts.getLast? = some (target.length : Int)) :
    ∃ m m1 : MLPClassifier F G,
      back_propagation A target e cerr = some (m, cerr) ∧
      back_propagation A target e1 cerr1 = some (m1, cerr1) ∧
      m1.weights = m.weights ∧ m1.errors = m.errors ∧
      m.layers = e.layers ∧ m1.layers = e1.layers := by
  have herr := newErrors_indep A target e e1 hinv hinv1 hw hl hc
  refine ⟨_, _, back_propagation_eq A e cerr target hinv ht,
    back_propagation_eq A e1 cerr1 target hinv1 (by rw [hc]; exact ht), ?_, herr, rfl, rfl⟩
  show e1.newWeights A target = e.newWeights A target
  unfold newWeights
  rw [herr, hw, hl, hlr]

theorem C28_witness :
    ∃ m m1 : MLPClassifier Rat Nat,
      back_propagation ratOps [1] sampleEngine [] = some (m, []) ∧
      back_propagation ratOps [1] { sampleEngine with errors := [[7, 8], [9]] } []
        = some (m1, []) ∧
      m1.weights = m.weights ∧ m1.errors = m.errors ∧
      m.layers = sampleEngine.layers ∧ m1.layers = sampleEngine.layers :=
  C28_back_propagation_ignores_prior_errors ratOps sampleEngine
    { sampleEngine with errors := [[7, 8], [9]] } [] [] [1] (by decide) (by decide) rfl rfl
    rfl rfl rfl (by decide)

/-- C30: on an engine satisfying the structural invariants, with an input whose length is not
the size of layer 0 and a target of the length of the output layer, `feed_forward` reports the
error and changes nothing, and `train` goes on to `back_propagation`: it returns the engine
that `back_propagation` applied directly to the engine before the call returns, whose weights
are moved by the learning rate times the new error values times the activations that the
buffers held before the call. -/
theorem C30_train_continues_after_rejected_input (A : FloatOps F) (e : MLPClassifier F G)
    (cerr : Cerr) (input target : List F) (hinv : e.Inv)
    (hin : e.layer_counts[0]? ≠ some (input.length : Int))
    (ht : e.layer_counts.getLast? = some (target.length : Int)) :
    ∃ (rows : Int) (e1 : MLPClassifier F G),
      feed_forward A input e cerr = some (e, cerr ++ [Msg.inputWrongSize input.length rows]) ∧
      train A input target e cerr
        = some (e1, cerr ++ [Msg.inputWrongSize input.length rows]) ∧
      back_propagation A target e cerr = some (e1, cerr) ∧
      e1.layers = e.layers ∧
      ∀ l j k : Nat, l + 1 < e.layer_counts.length → j < e.sizeAt l → k < e.sizeAt (l + 1) →
        weightAt A e1 l j k
          = A.add (weightAt A e l j k)
              (A.mul (A.mul e.learning_rate (errorAt A e1 (l + 1) k))
                (activationAt A e l j)) := by
  obtain ⟨rows, hff⟩ := feed_forward_mismatch A e cerr input hinv hin
  refine ⟨rows, _, hff, ?_, back_propagation_eq A e cerr target hinv ht, rfl,
    fun l j k hl hj hk => newWeights_cell A e target hinv l j k hl hj hk⟩
  simp only [train, hff, Option.some_bind]
  exact back_propagation_eq A e _ target hinv ht

theorem C30_witness :
    sampleEngine.Inv ∧ sampleEngine.layer_counts[0]? ≠ some (([3] : List Rat).length : Int) ∧
    sampleEngine.layer_counts.getLast? = some (([1] : List Rat).length : Int) ∧
    ∃ (rows : Int) (e1 : MLPClassifier Rat Nat),
      feed_forward ratOps [3] sampleEngine []
        = some (sampleEngine, [] ++ [Msg.inputWrongSize ([3] : List Rat).length rows]) ∧
      train ratOps [3] [1] sampleEngine []
        = some (e1, [] ++ [Msg.inputWrongSize ([3] : List Rat).length rows]) ∧
      back_propagation ratOps [1] sampleEngine [] = some (e1, []) ∧
      e1.layers = sampleEngine.layers ∧
      ∀ l j k : Nat, l + 1 < sampleEngine.layer_counts.length → j < sampleEngine.sizeAt l →
        k < sampleEngine.sizeAt (l + 1) →
        weightAt ratOps e1 l j k
          = ratOps.add (weightAt ratOps sampleEngine l j k)
              (ratOps.mul (ratOps.mul sampleEngine.learning_rate (errorAt ratOps e1 (l + 1) k))
                (activationAt ratOps sampleEngine l j)) :=
  ⟨by decide, by decide, by decide,
    C30_train_continues_after_rejected_input ratOps sampleEngine [] [3] [1] (by decide)
      (by decide) (by decide)⟩

end MLPClassifier

end classifiers
